import Mathlib

/-!
Record storage engine of skygear-server (`skydb/pq/recorddb.go`)

A shallow embedding of the record-to-relational mapping code: the predicate
compiler, the column whitelist, the CRUD orchestration, the schema migrator
and the record scanner, followed by theorems about them.

Conventions of the embedding.

* A Go function that can panic returns `Except String _`; the string is the
  panic message and `.ok` is a normal return.
* A Go `error` result is an `Option` of an error value (`none` is `nil`).
* A Go `map[string]T` is an `AList` (association list with distinct keys);
  `range` over a map visits `entries` in list order, so a statement proved
  for every `AList` covers every iteration order.
* `float64` values are only carried around, never computed with, and are
  represented by their bit pattern.
-/

namespace Skygear

/-! ## Values -/

/-- Go `float64`, carried by its IEEE-754 bit pattern. -/
structure Float64 where
  bits : Nat
deriving DecidableEq, Repr

/-- Go `time.Location`, as far as the code distinguishes them. -/
inductive Location
| UTC
| Local
| Fixed (name : String) (offset : Int)
deriving DecidableEq, Repr

/-- Go `time.Time`: an instant counted from January 1, year 1, 00:00:00 UTC,
together with the location it is presented in. -/
structure Time where
  sec : Int
  nsec : Nat
  loc : Location
deriving DecidableEq, Repr

/-- The zero `time.Time{}`. -/
def Time.zero : Time := ⟨0, 0, Location.UTC⟩

/-- Go `Time.IsZero`: the instant is January 1, year 1, 00:00:00 UTC. -/
def Time.IsZero (t : Time) : Bool := t.sec == 0 && t.nsec == 0

/-- Go `Time.In`: the same instant presented in another location. -/
def Time.In (t : Time) (loc : Location) : Time := { t with loc := loc }

/-- Implementations of the `skydb.Func` interface. -/
inductive Func
| DistanceFunc (Field : String) (Lng Lat : Float64)
| Other (name : String)
deriving DecidableEq, Repr

/-- One entry of a `skydb.RecordACL`. -/
structure ACLEntry where
  Relation : String
  Level : String
  UserID : String
deriving DecidableEq, Repr

/-- A dynamically typed Go value (`interface{}`), restricted to the dynamic
types the record code switches on. -/
inductive Value
| null
| bool (b : Bool)
| number (f : Float64)
| str (s : String)
| time (t : Time)
| reference (recordType key : String)
| asset (name : String)
| location (lng lat : Float64)
| acl (entries : List ACLEntry)
| array (xs : List Value)
| object (kvs : List (String × Value))
| func (f : Func)

/-! ## Query predicates -/

/-- The `skydb.Operator` enumeration; `Other` stands for any further
integer value. -/
inductive Operator
| And | Or | Not
| Equal | GreaterThan | LessThan | GreaterThanOrEqual | LessThanOrEqual | NotEqual
| Like | ILike | In
| Other (code : Nat)
deriving DecidableEq, Repr

/-- Modelled from the spec: `Operator.IsCompound` is declared in package
`skydb`, outside this file; compound operators are AND, OR and NOT. -/
def Operator.IsCompound : Operator → Bool
| .And | .Or | .Not => true
| _ => false

/-- Modelled from the spec: `Operator.IsBinary` is declared in package
`skydb`, outside this file; the binary operators are the nine comparisons. -/
def Operator.IsBinary : Operator → Bool
| .Equal | .GreaterThan | .LessThan | .GreaterThanOrEqual | .LessThanOrEqual
| .NotEqual | .Like | .ILike | .In => true
| _ => false

/-- The `skydb.ExpressionType` enumeration. -/
inductive ExpressionType
| Literal | KeyPath | Function
deriving DecidableEq, Repr

/-- A `skydb.Expression`: a type tag (Go field `Type`) and a dynamically typed
payload. -/
structure Expression where
  Typ : ExpressionType
  Value : Value

/-- An element of `Predicate.Children` (`[]interface{}`): a `skydb.Predicate`
(operator and children) or a `skydb.Expression`. -/
inductive Node
| predicate (Operator : Operator) (Children : List Node)
| expression (e : Expression)

/-- Errors returned (not panicked) by the predicate compiler. -/
inductive SqlError
| unsupportedCompound (op : Operator)
| unsupportedComparison (op : Operator)
deriving DecidableEq, Repr

/-- The three results `(sql, args, err)` of a `squirrel.Sqlizer.ToSql`. -/
structure Sqlized where
  sql : String
  args : List Value
  err : Option SqlError

/-! ## Library functions used by the compiler -/

/-- The double quote character. -/
def dquote : Char := Char.ofNat 34

/-- `pq.QuoteIdentifier`: cut the name at the first NUL, double every double
quote, and wrap the result in double quotes. -/
def QuoteIdentifier (name : String) : String :=
  let cut := name.data.takeWhile (fun c => c != Char.ofNat 0)
  String.mk ([dquote] ++ cut.flatMap (fun c => if c = dquote then [dquote, dquote] else [c])
    ++ [dquote])

/-- `squirrel.Placeholders`: `count` question marks separated by commas,
empty when `count < 1`. -/
def Placeholders (count : Nat) : String :=
  String.mk ((List.replicate count [',', '?']).flatten.drop 1)

/-! ## The predicate compiler -/

/-- `literalToSqlValue`: a reference literal is bound as its target key. -/
def literalToSqlValue : Value → Value
| .reference _ key => .str key
| v => v

/-- `literalToSqlOperand`: one placeholder per scalar, a parenthesised
placeholder list for an array. -/
def literalToSqlOperand : Value → String × List Value
| .array xs => ("(" ++ Placeholders xs.length ++ ")", xs.map literalToSqlValue)
| v => (Placeholders 1, [literalToSqlValue v])

/-- `funcToSqlOperand`: panics on anything but a distance function. -/
def funcToSqlOperand : Func → Except String (String × List Value)
| .DistanceFunc field lng lat =>
    .ok ("ST_Distance_Sphere(" ++ QuoteIdentifier field ++ ", ST_MakePoint(?, ?))",
      [.number lng, .number lat])
| .Other _ => .error "got unrecgonized skydb.Func"

/-- `toSqlOperand`; the two type assertions on `expr.Value` panic when the
payload has another dynamic type. -/
def toSqlOperand (expr : Expression) : Except String (String × List Value) :=
  match expr.Typ with
  | .KeyPath =>
      match expr.Value with
      | .str s => .ok (QuoteIdentifier s, [])
      | _ => .error "interface conversion: interface is not string"
  | .Function =>
      match expr.Value with
      | .func f => funcToSqlOperand f
      | _ => .error "interface conversion: interface is not skydb.Func"
  | _ => .ok (literalToSqlOperand expr.Value)

/-- The operator text written by `comparisonPredicateSqlizer.ToSql`; `none`
is the `default` branch of its switch. -/
def comparisonOperatorSql : Operator → Option String
| .Equal => some "="
| .GreaterThan => some ">"
| .LessThan => some "<"
| .GreaterThanOrEqual => some ">="
| .LessThanOrEqual => some "<="
| .NotEqual => some "<>"
| .Like => some " LIKE "
| .ILike => some " ILIKE "
| .In => some " IN "
| _ => none

/-- `comparisonPredicateSqlizer.ToSql` on the predicate `{op, children}`. -/
def comparisonPredicateSqlizer.ToSql (op : Operator) (children : List Node) :
    Except String Sqlized :=
  if op.IsBinary then
    match children with
    | [] => .error "index out of range"
    | .predicate _ _ :: _ => .error "interface conversion: interface is not skydb.Expression"
    | [.expression _] => .error "index out of range"
    | .expression _ :: .predicate _ _ :: _ =>
        .error "interface conversion: interface is not skydb.Expression"
    | .expression lhs :: .expression rhs :: _ =>
        match toSqlOperand lhs with
        | .error msg => .error msg
        | .ok l =>
            match comparisonOperatorSql op with
            | none => .ok ⟨"", l.2, some (.unsupportedComparison op)⟩
            | some opSql =>
                match toSqlOperand rhs with
                | .error msg => .error msg
                | .ok r => .ok ⟨l.1 ++ opSql ++ r.1, l.2 ++ r.2, none⟩
  else
    .ok ⟨"", [], some (.unsupportedComparison op)⟩

/-- The loop of squirrel's `conj.join` over the compile results of the parts:
the first error stops the loop, parts with empty SQL are skipped. -/
def conjParts :
    List (Except String Sqlized) → Except String (Except SqlError (List String × List Value))
| [] => .ok (.ok ([], []))
| part :: rest =>
    match part with
    | .error msg => .error msg
    | .ok p =>
        match p.err with
        | some e => .ok (.error e)
        | none =>
            match conjParts rest with
            | .error msg => .error msg
            | .ok (.error e) => .ok (.error e)
            | .ok (.ok (sqls, args)) =>
                if p.sql != "" then .ok (.ok (p.sql :: sqls, p.args ++ args))
                else .ok (.ok (sqls, args))

/-- Squirrel's `conj.join` (behind `sq.And.ToSql` and `sq.Or.ToSql`), given
the compile result of every part. -/
def conjJoin (sep : String) (parts : List (Except String Sqlized)) : Except String Sqlized :=
  match conjParts parts with
  | .error msg => .error msg
  | .ok (.error e) => .ok ⟨"", [], some e⟩
  | .ok (.ok (sqls, args)) =>
      if sqls.length > 0 then .ok ⟨"(" ++ sep.intercalate sqls ++ ")", args, none⟩
      else .ok ⟨"", args, none⟩

/-- Whether a child holds a `skydb.Predicate` (the assertion
`child.(skydb.Predicate)` succeeds). -/
def Node.isPredicate : Node → Bool
| .predicate _ _ => true
| .expression _ => false

/-- `compoundPredicateSqlizer.ToSql` on the predicate `{op, children}`, given
in `sub` the result of `newPredicateSqlizer(child).ToSql()` for every child. -/
def compoundPredicateSqlizer.ToSql (op : Operator) (children : List Node)
    (sub : List (Except String Sqlized)) : Except String Sqlized :=
  match op with
  | .And =>
      if children.all Node.isPredicate then conjJoin " AND " sub
      else .error "interface conversion: interface is not skydb.Predicate"
  | .Or =>
      if children.all Node.isPredicate then conjJoin " OR " sub
      else .error "interface conversion: interface is not skydb.Predicate"
  | .Not =>
      match children, sub with
      | c :: _, s :: _ =>
          if c.isPredicate then
            match s with
            | .error msg => .error msg
            | .ok r => .ok ⟨"NOT (" ++ r.sql ++ ")", r.args, r.err⟩
          else .error "interface conversion: interface is not skydb.Predicate"
      | _, _ => .error "index out of range"
  | _ => .ok ⟨"", [], some (.unsupportedCompound op)⟩

mutual
/-- The method call `newPredicateSqlizer(p).ToSql()` for a child asserted to
be a predicate: compound operators go to `compoundPredicateSqlizer`, all
others to `comparisonPredicateSqlizer`. -/
def newPredicateSqlizer.ToSql : Node → Except String Sqlized
| .expression _ => .error "interface conversion: interface is not skydb.Predicate"
| .predicate op children =>
    if op.IsCompound then compoundPredicateSqlizer.ToSql op children (childrenToSql children)
    else comparisonPredicateSqlizer.ToSql op children
/-- The compile result of every child, in order. -/
def childrenToSql : List Node → List (Except String Sqlized)
| [] => []
| c :: cs => newPredicateSqlizer.ToSql c :: childrenToSql cs
end

/-- The nine supported comparison operators with the SQL text each one is
compiled to. -/
def comparisonOperators : List (Operator × String) :=
  [(.Equal, "="), (.GreaterThan, ">"), (.LessThan, "<"), (.GreaterThanOrEqual, ">="),
   (.LessThanOrEqual, "<="), (.NotEqual, "<>"), (.Like, " LIKE "), (.ILike, " ILIKE "),
   (.In, " IN ")]

/-! ## Supported predicate trees and their leaves -/

/-- An expression whose payload has the dynamic type its tag announces: a key
path holds a string, a function holds a distance function, a literal holds
any value. -/
def Expression.wellFormed (e : Expression) : Bool :=
  match e.Typ, e.Value with
  | .KeyPath, .str _ => true
  | .KeyPath, _ => false
  | .Function, .func (.DistanceFunc _ _ _) => true
  | .Function, _ => false
  | .Literal, _ => true

/-- The children of a comparison are exactly two well-formed expressions. -/
def wellFormedOperands : List Node → Bool
| [.expression lhs, .expression rhs] => lhs.wellFormed && rhs.wellFormed
| _ => false

mutual
/-- A predicate tree built only from supported operators: AND/OR over child
predicates, NOT over one child predicate, one of the nine comparisons over
two well-formed expressions. -/
def Node.supported : Node → Bool
| .expression _ => false
| .predicate op children =>
    match op with
    | .And => supportedAll children
    | .Or => supportedAll children
    | .Not =>
        match children with
        | [c] => c.supported
        | _ => false
    | _ => op.IsBinary && wellFormedOperands children
/-- Every child is a supported predicate tree. -/
def supportedAll : List Node → Bool
| [] => true
| c :: cs => c.supported && supportedAll cs
end

/-- Specification side: the normalized value of a literal. A reference
normalizes to its target key, every other value is itself. -/
def normalizedLiteral : Value → Value
| .reference _ key => .str key
| v => v

/-- Specification side: the bound arguments an expression leaf contributes.
Nothing for a key path, longitude then latitude for a distance function, the
normalized elements for an array literal, the normalized value for a scalar
literal. -/
def Expression.leafArgs (e : Expression) : List Skygear.Value :=
  match e.Typ, e.Value with
  | .KeyPath, _ => []
  | .Function, .func (.DistanceFunc _ lng lat) => [.number lng, .number lat]
  | .Function, _ => []
  | .Literal, .array xs => xs.map normalizedLiteral
  | .Literal, v => [normalizedLiteral v]

mutual
/-- Specification side: the left-to-right sequence of the leaves of a tree. -/
def Node.leafArgs : Node → List Value
| .expression e => e.leafArgs
| .predicate _ children => leafArgsList children
/-- The leaves of a list of children, in order. -/
def leafArgsList : List Node → List Value
| [] => []
| c :: cs => c.leafArgs ++ leafArgsList cs
end

/-- Specification side: the number of literal and function-argument leaves of
an expression. -/
def Expression.leafCount (e : Expression) : Nat :=
  match e.Typ, e.Value with
  | .KeyPath, _ => 0
  | .Function, .func (.DistanceFunc _ _ _) => 2
  | .Function, _ => 0
  | .Literal, .array xs => xs.length
  | .Literal, _ => 1

mutual
/-- Specification side: the number of literal and function-argument leaves of
a tree. -/
def Node.leafCount : Node → Nat
| .expression e => e.leafCount
| .predicate _ children => leafCountList children
/-- The number of leaves of a list of children. -/
def leafCountList : List Node → Nat
| [] => 0
| c :: cs => c.leafCount + leafCountList cs
end


/-- The number of `?` characters of an SQL text; squirrel's placeholder
formats rewrite every one of them as a positional parameter. -/
def placeholderCount (sql : String) : Nat := sql.data.count '?'

/-- The identifier an expression writes into the SQL text (a key path name,
the field of a distance function) contains no `?`. -/
def Expression.questionFree (e : Expression) : Bool :=
  match e.Typ, e.Value with
  | .KeyPath, .str s => !s.data.contains '?'
  | .Function, .func (.DistanceFunc field _ _) => !field.data.contains '?'
  | _, _ => true

mutual
/-- No identifier of the tree contains a `?`. -/
def Node.questionFree : Node → Bool
| .expression e => e.questionFree
| .predicate _ children => questionFreeList children
/-- No identifier of the children contains a `?`. -/
def questionFreeList : List Node → Bool
| [] => true
| c :: cs => c.questionFree && questionFreeList cs
end

/-- A sample tree: `title = "hello" AND NOT (tag IN ("a", ref)) AND
distance(loc, point) < 5`. -/
def sampleTree : Node :=
  .predicate .And
    [.predicate .Equal
        [.expression ⟨.KeyPath, .str "title"⟩, .expression ⟨.Literal, .str "hello"⟩],
     .predicate .Not
        [.predicate .In
          [.expression ⟨.KeyPath, .str "tag"⟩,
           .expression ⟨.Literal, .array [.str "a", .reference "note" "n1"]⟩]],
     .predicate .LessThan
        [.expression ⟨.Function, .func (.DistanceFunc "loc" ⟨1⟩ ⟨2⟩)⟩,
         .expression ⟨.Literal, .number ⟨5⟩⟩]]

/-- A comparison whose key path name contains a question mark. -/
def questionMarkTree : Node :=
  .predicate .Equal [.expression ⟨.KeyPath, .str "a?"⟩, .expression ⟨.Literal, .str "x"⟩]

/-! ## Record schemas -/

/-- The `skydb.DataType` enumeration; `Other` stands for any further
integer value. -/
inductive DataType
| TypeString | TypeNumber | TypeBoolean | TypeJSON | TypeReference | TypeLocation
| TypeDateTime | TypeAsset | TypeACL
| Other (code : Nat)
deriving DecidableEq, Repr

/-- A `skydb.FieldType`: the data type (Go field `Type`), the target record
type of a reference, and the expression of a computed column. -/
structure FieldType where
  Typ : DataType
  ReferenceType : String
  Expression : Option Expression

/-- A `skydb.RecordSchema`, the Go map from field name to `FieldType`. -/
abbrev RecordSchema := AList (fun _ : String => FieldType)

/-- Go `strings.HasPrefix`. -/
def HasPrefix (s pre : String) : Bool := pre.data.isPrefixOf s.data

/-- Errors of the column selection. -/
inductive SchemaError
| unexpectedKey (key : String)
deriving DecidableEq, Repr

/-- The first loop of `whitelistedRecordSchema`: copy every whitelisted key
from `schema` into `wlSchema`, stopping at the first key `schema` lacks. -/
def whitelistKeysLoop (schema : RecordSchema) :
    List String → RecordSchema → Except SchemaError RecordSchema
| [], wlSchema => .ok wlSchema
| key :: keys, wlSchema =>
    match schema.lookup key with
    | none => .error (.unexpectedKey key)
    | some columnType => whitelistKeysLoop schema keys (wlSchema.insert key columnType)

/-- The second loop of `whitelistedRecordSchema`: copy every entry of the
schema whose key starts with `_`. -/
def reservedKeysLoop (entries : List (Sigma fun _ : String => FieldType))
    (wlSchema : RecordSchema) : RecordSchema :=
  entries.foldl (fun wl kv => if HasPrefix kv.1 "_" then wl.insert kv.1 kv.2 else wl) wlSchema

/-- `whitelistedRecordSchema`: `.error` is the return `(nil, err)`, `.ok` the
return `(wlSchema, nil)`. -/
def whitelistedRecordSchema (schema : RecordSchema) (whitelistKeys : List String) :
    Except SchemaError RecordSchema :=
  match whitelistKeysLoop schema whitelistKeys ∅ with
  | .error e => .error e
  | .ok wlSchema => .ok (reservedKeysLoop schema.entries wlSchema)

/-! ## Records and the database handle -/

/-- A `skydb.RecordID` (Go fields `Type` and `Key`). -/
structure RecordID where
  Typ : String
  Key : String
deriving DecidableEq, Repr

/-- A `skydb.Record`; `ACL` is `none` for a nil `RecordACL`, `Data` is the Go
map from field name to value. -/
structure Record where
  ID : RecordID
  DatabaseID : String
  OwnerID : String
  CreatedAt : Time
  CreatorID : String
  UpdatedAt : Time
  UpdaterID : String
  ACL : Option (List ACLEntry)
  Data : AList (fun _ : String => Value)

/-- Errors of the SQL driver, as far as the code tells them apart: the
PostgreSQL undefined-table error, `sql.ErrNoRows`, and any other error. -/
inductive DriverError
| undefinedTable
| noRows
| other (msg : String)
deriving DecidableEq, Repr

/-- Modelled from the spec: `isUndefinedTable` is declared elsewhere in
package `pq`; it recognises the undefined-table error of the store and is
false on a nil error. -/
def isUndefinedTable : Option DriverError → Bool
| some .undefinedTable => true
| _ => false

/-- A `sql.Result`: what its method `RowsAffected` returns, a row count
(`int64`) and an error. -/
structure ExecResult where
  rowsAffected : Int
  rowsAffectedErr : Option DriverError
deriving DecidableEq, Repr

/-- What `execWith` returns: `(nil, err)` or `(result, nil)`. -/
abbrev ExecOutcome := Except DriverError ExecResult

/-- Errors returned by the record operations. -/
inductive DbError
| recordNotFound
| deleteFailed (id : RecordID)
| deletionStatusFailed (id : RecordID)
| unexpectedRowsDeleted (id : RecordID) (rowsAffected : Int)
| emptyRecordID
| emptyRecordType (key : String)
| emptyOwnerID (key : String)
| driver (err : DriverError)
deriving DecidableEq, Repr

/-- The `database` handle: the partition identifier `userID`, and
`tableName`, declared elsewhere in package `pq`, taken as a parameter. -/
structure database where
  userID : String
  tableName : String → String

/-- The squirrel delete builder of `Delete`: table, condition, arguments. -/
structure DeleteBuilder where
  table : String
  cond : String
  args : List Value

/-- The delete statement `Delete` builds for a record ID. -/
def database.deleteBuilder (db : database) (id : RecordID) : DeleteBuilder :=
  ⟨db.tableName id.Typ, "_id = ? AND _database_id = ?", [.str id.Key, .str db.userID]⟩

/-- `Delete`, given the behaviour of `execWith` on the delete statement. -/
def database.Delete (db : database) (execWith : DeleteBuilder → ExecOutcome) (id : RecordID) :
    Option DbError :=
  match execWith (db.deleteBuilder id) with
  | .error err =>
      if isUndefinedTable (some err) then some .recordNotFound
      else some (.deleteFailed id)
  | .ok result =>
      match result.rowsAffectedErr with
      | some _ => some (.deletionStatusFailed id)
      | none =>
          if result.rowsAffected = 0 then some .recordNotFound
          else if result.rowsAffected > 1 then
            some (.unexpectedRowsDeleted id result.rowsAffected)
          else none

/-- A value handed to the driver by `convert`: one of the `driver.Valuer`
wrappers of this file, or the raw value. -/
inductive SqlValue
| jsonSliceValue (xs : List Value)
| jsonMapValue (kvs : List (String × Value))
| assetValue (name : String)
| referenceValue (recordType key : String)
| locationValue (lng lat : Float64)
| aclValue (acl : Option (List ACLEntry))
| raw (v : Value)

/-- The type switch of `convert` on one value of `Record.Data`. -/
def convertValue : Value → SqlValue
| .array xs => .jsonSliceValue xs
| .object kvs => .jsonMapValue kvs
| .asset name => .assetValue name
| .reference recordType key => .referenceValue recordType key
| .location lng lat => .locationValue lng lat
| v => .raw v

/-- `convert`: the wrapped data fields, then the six system columns. -/
def convert (r : Record) : AList (fun _ : String => SqlValue) :=
  let m : AList (fun _ : String => SqlValue) :=
    r.Data.entries.foldl (fun m kv => m.insert kv.1 (convertValue kv.2)) ∅
  let m := m.insert "_owner_id" (.raw (.str r.OwnerID))
  let m := m.insert "_access" (.aclValue r.ACL)
  let m := m.insert "_created_at" (.raw (.time r.CreatedAt))
  let m := m.insert "_created_by" (.raw (.str r.CreatorID))
  let m := m.insert "_updated_at" (.raw (.time r.UpdatedAt))
  m.insert "_updated_by" (.raw (.str r.UpdaterID))

/-- The upsert built by `Save`: `upsertQuery(table, pkData, data)` followed
by the `IgnoreKeyOnUpdate` calls. -/
structure UpsertBuilder where
  table : String
  pkData : List (String × Value)
  data : AList (fun _ : String => SqlValue)
  ignoreKeysOnUpdate : List String

/-- The upsert statement `Save` builds for a record. -/
def database.saveUpsert (db : database) (record : Record) : UpsertBuilder :=
  ⟨db.tableName record.ID.Typ,
    [("_id", .str record.ID.Key), ("_database_id", .str db.userID)],
    convert record,
    ["_owner_id", "_created_at", "_created_by"]⟩

/-- What a call of `Save` does: the returned error, the record afterwards,
and the statements handed to `execWith`. -/
structure SaveOutcome where
  err : Option DbError
  record : Record
  executed : List UpsertBuilder

/-- `Save`, given the behaviour of `execWith` on the upsert. -/
def database.Save (db : database) (execWith : UpsertBuilder → ExecOutcome) (record : Record) :
    SaveOutcome :=
  if record.ID.Key = "" then ⟨some .emptyRecordID, record, []⟩
  else if record.ID.Typ = "" then ⟨some (.emptyRecordType record.ID.Key), record, []⟩
  else if record.OwnerID = "" then ⟨some (.emptyOwnerID record.ID.Key), record, []⟩
  else
    match execWith (db.saveUpsert record) with
    | .error err => ⟨some (.driver err), record, [db.saveUpsert record]⟩
    | .ok _ => ⟨none, { record with DatabaseID := db.userID }, [db.saveUpsert record]⟩

/-- A database handle of partition `u1` whose tables are named as the type. -/
def sampleDb : database := ⟨"u1", fun t => t⟩

/-- A record `note/n1` owned by `u1` with the field `title = "hello"`. -/
def sampleRecord : Record :=
  { ID := ⟨"note", "n1"⟩, DatabaseID := "", OwnerID := "u1", CreatedAt := Time.zero,
    CreatorID := "u1", UpdatedAt := Time.zero, UpdaterID := "u1", ACL := none,
    Data := (∅ : AList (fun _ : String => Value)).insert "title" (.str "hello") }

/-! ## The backing store and the schema resolver -/

/-- The native type of string columns. -/
def TypeString : String := "text"
/-- The native type of number columns. -/
def TypeNumber : String := "double precision"
/-- The native type of boolean columns. -/
def TypeBoolean : String := "boolean"
/-- The native type of JSON and ACL columns. -/
def TypeJSON : String := "jsonb"
/-- The native type of timestamp columns. -/
def TypeTimestamp : String := "timestamp without time zone"
/-- The native type of location columns. -/
def TypeLocation : String := "geometry(Point)"

/-- A relation of the application namespace as the resolver sees it: the
rows `(attname, format_type)` of its columns and the rows
`(kcu.column_name, ccu.table_name)` of its foreign keys. -/
structure Table where
  columns : List (String × String)
  foreignKeys : List (String × String)
deriving DecidableEq, Repr

/-- The backing store: the relations of the application namespace by name. -/
abbrev Store := AList (fun _ : String => Table)

/-- Errors of `remoteColumnTypes` and `Extend`. -/
inductive ExtendError
| unknownDataType (pqType column : String)
| createTableFailed (err : DriverError)
| conflictingSchema (remote desired : FieldType)
| alterTableFailed (err : DriverError)

/-- The switch of `remoteColumnTypes` on the native type of a column; `none`
is its `default` branch. -/
def nativeFieldType (columnName pqType : String) : Option FieldType :=
  if pqType = TypeString then some ⟨.TypeString, "", none⟩
  else if pqType = TypeNumber then some ⟨.TypeNumber, "", none⟩
  else if pqType = TypeTimestamp then some ⟨.TypeDateTime, "", none⟩
  else if pqType = TypeBoolean then some ⟨.TypeBoolean, "", none⟩
  else if pqType = TypeJSON then
    if columnName = "_access" then some ⟨.TypeACL, "", none⟩ else some ⟨.TypeJSON, "", none⟩
  else if pqType = TypeLocation then some ⟨.TypeLocation, "", none⟩
  else none

/-- STEP 2 of `remoteColumnTypes`: the loop over the column rows. -/
def columnTypesLoop : List (String × String) → RecordSchema → Except ExtendError RecordSchema
| [], typemap => .ok typemap
| (columnName, pqType) :: rows, typemap =>
    match nativeFieldType columnName pqType with
    | none => .error (.unknownDataType pqType columnName)
    | some schema => columnTypesLoop rows (typemap.insert columnName schema)

/-- The switch of `remoteColumnTypes` on the referenced table of a foreign
key. -/
def foreignKeyFieldType (referencedTable : String) : FieldType :=
  if referencedTable = "_asset" then ⟨.TypeAsset, "", none⟩
  else ⟨.TypeReference, referencedTable, none⟩

/-- STEP 3 of `remoteColumnTypes`: the loop over the foreign-key rows. -/
def foreignKeysLoop (refs : List (String × String)) (typemap : RecordSchema) : RecordSchema :=
  refs.foldl (fun tm ref => tm.insert ref.1 (foreignKeyFieldType ref.2)) typemap

/-- STEP 2 and STEP 3 of `remoteColumnTypes` on the rows of a relation. -/
def resolveTable (table : Table) : Except ExtendError RecordSchema :=
  match columnTypesLoop table.columns ∅ with
  | .error e => .error e
  | .ok typemap => .ok (foreignKeysLoop table.foreignKeys typemap)

/-- `remoteColumnTypes` on a store whose queries succeed: an absent relation
gives the empty (nil) schema. -/
def remoteColumnTypes (s : Store) (recordType : String) : Except ExtendError RecordSchema :=
  match s.lookup recordType with
  | none => .ok ∅
  | some table => resolveTable table

/-- Proof device: the second component of the last row whose first component
is `k`. -/
def lastRow (k : String) : List (String × String) → Option String
| [] => none
| (k1, v) :: rest =>
    match lastRow k rest with
    | some v1 => some v1
    | none => if k1 = k then some v else none

/-- Proof device: the field type the resolver gives the column `k` of a
relation, that of its last foreign-key row if it has one, else that of its
last column row (`resolveTable_lookup` relates it to `resolveTable`). -/
def resolveLookup (table : Table) (k : String) : Option FieldType :=
  match lastRow k table.foreignKeys with
  | some referencedTable => some (foreignKeyFieldType referencedTable)
  | none =>
      match lastRow k table.columns with
      | some pqType => nativeFieldType k pqType
      | none => none

/-! ## The schema migrator -/

/-- `pqDataType`; it panics on a data type outside its switch. -/
def pqDataType : DataType → Except String String
| .TypeString | .TypeAsset | .TypeReference => .ok TypeString
| .TypeNumber => .ok TypeNumber
| .TypeDateTime => .ok TypeTimestamp
| .TypeBoolean => .ok TypeBoolean
| .TypeJSON => .ok TypeJSON
| .TypeLocation => .ok TypeLocation
| _ => .error "Unsupported dataType"

/-- The identifier the store reads from the text `pq.QuoteIdentifier(name)`:
the name cut at the first NUL; the quotes `QuoteIdentifier` doubles stand
for themselves. -/
def quotedName (name : String) : String :=
  String.mk (name.data.takeWhile (fun c => c != Char.ofNat 0))

/-- One field of the statement of `addColumnStmt` as the store reads it: the
clause `ADD <column> <native type>`, whose column is the identifier of the
quoted field name, and, for asset and reference fields, the foreign key
`(referent, remoteCol)` of `writeForeignKeyConstraint` on that column. -/
structure AddColumn where
  column : String
  pqType : String
  foreignKey : Option (String × String)
deriving DecidableEq, Repr

/-- The body of the loop of `addColumnStmt` for one field. -/
def addColumnClause (column : String) (schema : FieldType) : Except String AddColumn :=
  match pqDataType schema.Typ with
  | .error msg => .error msg
  | .ok pqType =>
      match schema.Typ with
      | .TypeAsset => .ok ⟨quotedName column, pqType, some ("_asset", "id")⟩
      | .TypeReference =>
          .ok ⟨quotedName column, pqType, some (schema.ReferenceType, "_id")⟩
      | _ => .ok ⟨quotedName column, pqType, none⟩

/-- The clauses of the statement built by `addColumnStmt`, in the order of
the loop over the schema. -/
def addColumnClauses : List (Sigma fun _ : String => FieldType) → Except String (List AddColumn)
| [] => .ok []
| ⟨column, schema⟩ :: rest =>
    match addColumnClause column schema with
    | .error msg => .error msg
    | .ok clause =>
        match addColumnClauses rest with
        | .error msg => .error msg
        | .ok clauses => .ok (clause :: clauses)

/-- The statements `Extend` executes, as the store reads them: the text of
`createTableStmt`, the trigger creation, and the `ALTER TABLE` of
`addColumnStmt` with its clauses. A table is named by its record type. -/
inductive Stmt
| createTable (recordType : String)
| createTrigger (recordType : String)
| alterTable (recordType : String) (clauses : List AddColumn)
deriving DecidableEq, Repr

/-- The columns of `createTableStmt`. -/
def systemColumns : List (String × String) :=
  [("_id", "text"), ("_database_id", "text"), ("_owner_id", "text"), ("_access", "jsonb"),
   ("_created_at", "timestamp without time zone"), ("_created_by", "text"),
   ("_updated_at", "timestamp without time zone"), ("_updated_by", "text")]

/-- Whether the store accepts one `ADD` clause on `table`: the column is new,
and a foreign key references an existing column of an existing relation. -/
def Store.acceptsClause (s : Store) (table : Table) (clause : AddColumn) : Bool :=
  !(table.columns.map Prod.fst).contains clause.column &&
    match clause.foreignKey with
    | none => true
    | some (referent, remoteCol) =>
        match s.lookup referent with
        | none => false
        | some target => (target.columns.map Prod.fst).contains remoteCol

/-- The column rows an `ALTER TABLE` appends. -/
def addedColumns (clauses : List AddColumn) : List (String × String) :=
  clauses.map (fun c => (c.column, c.pqType))

/-- The foreign-key rows an `ALTER TABLE` appends. -/
def addedForeignKeys (clauses : List AddColumn) : List (String × String) :=
  clauses.filterMap (fun c => c.foreignKey.map (fun fk => (c.column, fk.1)))

/-- Model of the backing store executing a statement. `CREATE TABLE` fails
when the relation exists; `CREATE TRIGGER` needs the relation; `ALTER TABLE` needs the
relation, new and pairwise distinct column names and valid foreign keys, and
then appends the columns and the foreign-key rows under the names the
clauses give them. -/
def Store.exec (s : Store) : Stmt → Except DriverError Store
| .createTable recordType =>
    match s.lookup recordType with
    | some _ => .error (.other "relation already exists")
    | none => .ok (s.insert recordType ⟨systemColumns, []⟩)
| .createTrigger recordType =>
    match s.lookup recordType with
    | none => .error .undefinedTable
    | some _ => .ok s
| .alterTable recordType clauses =>
    match s.lookup recordType with
    | none => .error .undefinedTable
    | some table =>
        if clauses.all (s.acceptsClause table) && (clauses.map AddColumn.column).Nodup then
          .ok (s.insert recordType
            ⟨table.columns ++ addedColumns clauses,
             table.foreignKeys ++ addedForeignKeys clauses⟩)
        else .error (.other "column exists or foreign key invalid")

/-- What a call of `Extend` does: the returned error, the store afterwards,
and the statements executed. -/
structure ExtendOutcome where
  err : Option ExtendError
  store : Store
  executed : List Stmt

/-- `createTable`: the table, then its trigger. -/
def createTable (s : Store) (recordType : String) : Option DriverError × Store × List Stmt :=
  match s.exec (.createTable recordType) with
  | .error err => (some err, s, [.createTable recordType])
  | .ok s1 =>
      match s1.exec (.createTrigger recordType) with
      | .error err => (some err, s1, [.createTable recordType, .createTrigger recordType])
      | .ok s2 => (none, s2, [.createTable recordType, .createTrigger recordType])

/-- The loop of `Extend` over the desired schema: a field the remote schema
lacks is collected, a field whose data type differs is a conflict. -/
def updatingSchemaLoop (remoteRecordSchema : RecordSchema) :
    List (Sigma fun _ : String => FieldType) → RecordSchema → Except ExtendError RecordSchema
| [], updatingSchema => .ok updatingSchema
| ⟨key, schema⟩ :: rest, updatingSchema =>
    match remoteRecordSchema.lookup key with
    | none => updatingSchemaLoop remoteRecordSchema rest (updatingSchema.insert key schema)
    | some remoteSchema =>
        if remoteSchema.Typ ≠ schema.Typ then .error (.conflictingSchema remoteSchema schema)
        else updatingSchemaLoop remoteRecordSchema rest updatingSchema

/-- The part of `Extend` after the remote schema is resolved and the table
exists: collect the new fields and add their columns. -/
def extendColumns (s : Store) (executed : List Stmt) (recordType : String)
    (remoteRecordSchema recordSchema : RecordSchema) : Except String ExtendOutcome :=
  match updatingSchemaLoop remoteRecordSchema recordSchema.entries ∅ with
  | .error e => .ok ⟨some e, s, executed⟩
  | .ok updatingSchema =>
      if updatingSchema.entries.length > 0 then
        match addColumnClauses updatingSchema.entries with
        | .error msg => .error msg
        | .ok clauses =>
            match s.exec (.alterTable recordType clauses) with
            | .error err =>
                .ok ⟨some (.alterTableFailed err), s, executed ++ [.alterTable recordType clauses]⟩
            | .ok s1 => .ok ⟨none, s1, executed ++ [.alterTable recordType clauses]⟩
      else .ok ⟨none, s, executed⟩

/-- `Extend` on the store `s`; `.error` is a panic. -/
def Extend (s : Store) (recordType : String) (recordSchema : RecordSchema) :
    Except String ExtendOutcome :=
  match remoteColumnTypes s recordType with
  | .error e => .ok ⟨some e, s, []⟩
  | .ok remoteRecordSchema =>
      if remoteRecordSchema.entries.length = 0 then
        match createTable s recordType with
        | (some err, s1, executed) => .ok ⟨some (.createTableFailed err), s1, executed⟩
        | (none, s1, executed) =>
            extendColumns s1 executed recordType remoteRecordSchema recordSchema
      else extendColumns s [] recordType remoteRecordSchema recordSchema

/-- A store holding a table `note` with the system columns and a column
`author` that references the table `user`. -/
def referenceStore : Store :=
  ((∅ : Store).insert "user" ⟨systemColumns, []⟩).insert "note"
    ⟨systemColumns ++ [("author", "text")], [("author", "user")]⟩

/-- A desired schema whose field `author` references the type `group`. -/
def retargetedSchema : RecordSchema :=
  (∅ : RecordSchema).insert "author" ⟨.TypeReference, "group", none⟩

/-- A desired schema whose field `author` is a string. -/
def stringAuthorSchema : RecordSchema :=
  (∅ : RecordSchema).insert "author" ⟨.TypeString, "", none⟩

/-- The shape of a relation made by this package: a record table has the
column `_access` of `createTableStmt`, the reserved table `_asset` has no
column `_id`, and every foreign key is on a column of the relation. -/
def Table.wellFormed (name : String) (t : Table) : Bool :=
  (name == "_asset" || (t.columns.map Prod.fst).contains "_access")
    && (name != "_asset" || !(t.columns.map Prod.fst).contains "_id")
    && t.foreignKeys.all (fun fk => (t.columns.map Prod.fst).contains fk.1)

/-- Every relation of the store is well formed. -/
def Store.wellFormed (s : Store) : Bool :=
  s.entries.all (fun e => Table.wellFormed e.1 e.2)

/-- A provisioned store: the reserved relation `_asset` and a record table
`user`. -/
def provisionedStore : Store :=
  ((∅ : Store).insert "_asset"
      ⟨[("id", "text"), ("content_type", "text"), ("size", "bigint")], []⟩).insert "user"
    ⟨systemColumns, []⟩

/-- A desired schema whose one field name holds a NUL character. -/
def nulSchema : RecordSchema :=
  (∅ : RecordSchema).insert "a\x00b" ⟨.TypeString, "", none⟩

/-- A store whose relation `t` was not made by this package: it has the
single column `_id`. -/
def bareStore : Store :=
  (∅ : Store).insert "t" ⟨[("_id", "text")], []⟩

/-- A desired schema with a JSON field named `_access`. -/
def accessSchema : RecordSchema :=
  (∅ : RecordSchema).insert "_access" ⟨.TypeJSON, "", none⟩

/-- A desired schema whose field `parent` references the type `_asset`. -/
def assetReferenceSchema : RecordSchema :=
  (∅ : RecordSchema).insert "parent" ⟨.TypeReference, "_asset", none⟩

/-- A desired schema with a string, a reference, an asset and a JSON field. -/
def noteSchema : RecordSchema :=
  ((((∅ : RecordSchema).insert "title" ⟨.TypeString, "", none⟩).insert "author"
      ⟨.TypeReference, "user", none⟩).insert "photo" ⟨.TypeAsset, "", none⟩).insert "meta"
    ⟨.TypeJSON, "", none⟩

/-! ## The record scanner -/

/-- A value the driver hands to a destination's `Scan` (`driver.Value`). -/
inductive DriverValue
| null
| int (i : Int)
| float (f : Float64)
| bool (b : Bool)
| bytes (s : String)
| str (s : String)
| time (t : Time)
deriving DecidableEq, Repr

/-- Functions of other packages the scanner calls, taken as parameters:
`convertAssign` of `database/sql` on a non-nil source (into `float64`,
`string`, `bool`), `json.Unmarshal` into an `interface{}` and into a
`RecordACL`, `hex.Decode`, `geo.Point.Scan`, and `Record.Set` of package
`skydb` (which may panic). `none` is a returned error. -/
structure Library where
  convertFloat : DriverValue → Option Float64
  convertString : DriverValue → Option String
  convertBool : DriverValue → Option Bool
  jsonUnmarshal : String → Option Value
  aclUnmarshal : String → List ACLEntry
  hexDecode : String → Option String
  pointScan : String → Option (Float64 × Float64)
  recordSet : Record → String → Value → Except String Record

/-- The destination types `recordScanner.Scan` allocates. -/
inductive Dest
| NullFloat64 | NullString | NullTime | NullBool | nullAsset | nullJSON | nullLocation
deriving DecidableEq, Repr

/-- A destination after the driver has scanned into it. -/
inductive Scanned
| NullFloat64 (float : Float64) (Valid : Bool)
| NullString (string : String) (Valid : Bool)
| NullTime (time : Time) (Valid : Bool)
| NullBool (bool : Bool) (Valid : Bool)
| nullAsset (Name : String) (Valid : Bool)
| nullJSON (JSON : Value) (Valid : Bool)
| nullLocation (Lng Lat : Float64) (Valid : Bool)

/-- Errors returned by `recordScanner.Scan`. -/
inductive ScanError
| unknownColumn (column : String)
| unknownDataType (dataType : DataType) (column : String)
| driver (err : DriverError)
| destinationCount (want got : Nat)
| scanColumn (index : Nat)
deriving DecidableEq, Repr

/-- The first switch of `recordScanner.Scan`: the destination allocated for a
data type; `none` is its `default` branch. -/
def destFor : DataType → Option Dest
| .TypeNumber => some .NullFloat64
| .TypeString | .TypeReference | .TypeACL => some .NullString
| .TypeDateTime => some .NullTime
| .TypeBoolean => some .NullBool
| .TypeAsset => some .nullAsset
| .TypeJSON => some .nullJSON
| .TypeLocation => some .nullLocation
| _ => none

/-- The first loop of `recordScanner.Scan` over the columns. -/
def destsLoop (typemap : RecordSchema) : List String → Except ScanError (List Dest)
| [] => .ok []
| column :: columns =>
    match typemap.lookup column with
    | none => .error (.unknownColumn column)
    | some schema =>
        match destFor schema.Typ with
        | none => .error (.unknownDataType schema.Typ column)
        | some dest =>
            match destsLoop typemap columns with
            | .error e => .error e
            | .ok dests => .ok (dest :: dests)

/-- The method `Scan` of a destination on a driver value: `sql.NullFloat64`,
`sql.NullString`, `pq.NullTime`, `sql.NullBool`, and `nullAsset`, `nullJSON`,
`nullLocation` of this file. `none` is a returned error. -/
def Dest.Scan (lib : Library) : Dest → DriverValue → Option Scanned
| .NullFloat64, .null => some (.NullFloat64 ⟨0⟩ false)
| .NullFloat64, v => (lib.convertFloat v).map (fun f => .NullFloat64 f true)
| .NullString, .null => some (.NullString "" false)
| .NullString, v => (lib.convertString v).map (fun s => .NullString s true)
| .NullTime, .time t => some (.NullTime t true)
| .NullTime, _ => some (.NullTime Time.zero false)
| .NullBool, .null => some (.NullBool false false)
| .NullBool, v => (lib.convertBool v).map (fun b => .NullBool b true)
| .nullAsset, .null => some (.nullAsset "" false)
| .nullAsset, .bytes assetName => some (.nullAsset assetName true)
| .nullAsset, _ => none
| .nullJSON, .bytes data => (lib.jsonUnmarshal data).map (fun j => .nullJSON j true)
| .nullJSON, _ => some (.nullJSON .null false)
| .nullLocation, .null => some (.nullLocation ⟨0⟩ ⟨0⟩ false)
| .nullLocation, .bytes src =>
    match lib.hexDecode src with
    | none => none
    | some decoded => (lib.pointScan decoded).map (fun p => .nullLocation p.1 p.2 true)
| .nullLocation, _ => none

/-- The conversion loop of `Rows.Scan`: scan every source into its
destination, stopping at the first error. -/
def scanDests (lib : Library) : Nat → List Dest → List DriverValue →
    Except ScanError (List Scanned)
| index, dest :: dests, value :: values =>
    match dest.Scan lib value with
    | none => .error (.scanColumn index)
    | some scanned =>
        match scanDests lib (index + 1) dests values with
        | .error e => .error e
        | .ok rest => .ok (scanned :: rest)
| _, _, _ => .ok []

/-- The call `rs.cs.Scan(values...)`: the cursor delivers the current row or
an error; the number of destinations must be the number of values. -/
def columnsScan (lib : Library) (cursor : Except DriverError (List DriverValue))
    (dests : List Dest) : Except ScanError (List Scanned) :=
  match cursor with
  | .error err => .error (.driver err)
  | .ok row =>
      if dests.length ≠ row.length then .error (.destinationCount row.length dests.length)
      else scanDests lib 0 dests row

/-- The second switch of `recordScanner.Scan`: the value set for a column
from its scanned destination, `none` when the destination is not valid. -/
def decodeColumn (lib : Library) (typemap : RecordSchema) (column : String) :
    Scanned → Option Value
| .NullFloat64 f valid => if valid then some (.number f) else none
| .NullString s valid =>
    if valid then
      match typemap.lookup column with
      | some schema =>
          if schema.Typ = .TypeReference then some (.reference schema.ReferenceType s)
          else if schema.Typ = .TypeACL then some (.acl (lib.aclUnmarshal s))
          else some (.str s)
      | none => some (.str s)
    else none
| .NullTime t valid =>
    if valid then
      if t.IsZero then some (.time Time.zero) else some (.time (t.In Location.UTC))
    else none
| .NullBool b valid => if valid then some (.bool b) else none
| .nullAsset name valid => if valid then some (.asset name) else none
| .nullJSON j valid => if valid then some j else none
| .nullLocation lng lat valid => if valid then some (.location lng lat) else none

/-- The calls `record.Set(column, value)` of the second loop of
`recordScanner.Scan`, in order. -/
def setCalls (lib : Library) (typemap : RecordSchema) :
    List String → List Scanned → List (String × Value)
| column :: columns, scanned :: rest =>
    match decodeColumn lib typemap column scanned with
    | some value => (column, value) :: setCalls lib typemap columns rest
    | none => setCalls lib typemap columns rest
| _, _ => []

/-- Apply `Record.Set` calls in order; `.error` is a panic of `Record.Set`. -/
def applySets (lib : Library) : List (String × Value) → Record → Except String Record
| [], record => .ok record
| (column, value) :: calls, record =>
    match lib.recordSet record column value with
    | .error msg => .error msg
    | .ok record1 => applySets lib calls record1

/-- The `recordScanner` (without its cursor, which `Scan` takes as an
argument). -/
structure recordScanner where
  recordType : String
  typemap : RecordSchema
  columns : List String
  err : Option ScanError

/-- What a call of `recordScanner.Scan` does: the returned error, the record
and the scanner afterwards, whether the row was read from the cursor, and
the `Record.Set` calls made. -/
structure ScanOutcome where
  err : Option ScanError
  record : Record
  rs : recordScanner
  readRow : Bool
  calls : List (String × Value)

/-- `recordScanner.Scan`; `.error` is a panic. -/
def recordScanner.Scan (lib : Library) (rs : recordScanner)
    (cursor : Except DriverError (List DriverValue)) (record : Record) :
    Except String ScanOutcome :=
  match rs.err with
  | some e => .ok ⟨some e, record, rs, false, []⟩
  | none =>
      match destsLoop rs.typemap rs.columns with
      | .error e => .ok ⟨some e, record, rs, false, []⟩
      | .ok dests =>
          match columnsScan lib cursor dests with
          | .error e => .ok ⟨some e, record, { rs with err := some e }, true, []⟩
          | .ok values =>
              let record1 : Record :=
                { record with ID := { record.ID with Typ := rs.recordType }, Data := ∅ }
              match applySets lib (setCalls lib rs.typemap rs.columns values) record1 with
              | .error msg => .error msg
              | .ok record2 =>
                  .ok ⟨none, record2, rs, true, setCalls lib rs.typemap rs.columns values⟩

/-- A sample library: strings convert from text and bytes, numbers from
floats, booleans from booleans; JSON, ACL and geometry payloads are not
decoded; `Record.Set` stores `_id` in the record ID and every key without
the reserved prefix in the data map, and panics otherwise. -/
def sampleLibrary : Library where
  convertFloat := fun v => match v with
    | .float f => some f
    | _ => none
  convertString := fun v => match v with
    | .str s => some s
    | .bytes s => some s
    | _ => none
  convertBool := fun v => match v with
    | .bool b => some b
    | _ => none
  jsonUnmarshal := fun _ => none
  aclUnmarshal := fun _ => []
  hexDecode := fun _ => none
  pointScan := fun _ => none
  recordSet := fun r key v =>
    if HasPrefix key "_" then
      match key, v with
      | "_id", .str s => .ok { r with ID := { r.ID with Key := s } }
      | _, _ => .error "unknown reserved key"
    else .ok { r with Data := r.Data.insert key v }

/-- A scanner for the type `note` over the columns `_id`, `title`, `due`,
`done` and `seen`. -/
def sampleScanner : recordScanner where
  recordType := "note"
  typemap :=
    (((((∅ : RecordSchema).insert "_id" ⟨.TypeString, "", none⟩).insert "title"
      ⟨.TypeString, "", none⟩).insert "due" ⟨.TypeDateTime, "", none⟩).insert "done"
      ⟨.TypeDateTime, "", none⟩).insert "seen" ⟨.TypeDateTime, "", none⟩
  columns := ["_id", "title", "due", "done", "seen"]
  err := none

/-- A row for `sampleScanner`: a key, a null title, a zero timestamp, a
timestamp in a zone one hour east of UTC, and a null timestamp. -/
def sampleRow : List DriverValue :=
  [.str "n1", .null, .time ⟨0, 0, .Local⟩, .time ⟨63000000000, 5, .Fixed "CET" 3600⟩, .null]

/-- The nine data types `recordScanner.Scan` can decode. -/
def decodableTypes : List DataType :=
  [.TypeNumber, .TypeString, .TypeReference, .TypeACL, .TypeDateTime, .TypeBoolean,
   .TypeAsset, .TypeJSON, .TypeLocation]

/-- The data types in the switch of `pqDataType`. -/
def columnTypes : List DataType :=
  [.TypeString, .TypeReference, .TypeAsset, .TypeNumber, .TypeBoolean, .TypeJSON,
   .TypeDateTime, .TypeLocation]

/-- A scanner whose cursor returns a column that the schema lacks. -/
def unknownColumnScanner : recordScanner :=
  { sampleScanner with columns := ["_id", "nosuch"] }

/-! ## Write encodings and the store's text columns -/

/-- `assetValue.Value`: an asset is written as its name. -/
def assetValue.Value (name : String) : DriverValue := .str name

/-- `referenceValue.Value`: a reference to the record `recordType/key` is
written as the key. -/
def referenceValue.Value (_recordType key : String) : DriverValue := .str key

/-- Model of the backing store: a string written to a `text` column is handed
back by the driver as the bytes of that string, the `[]byte` on which
`nullAsset.Scan` asserts; any other value comes back as it is. -/
def readTextColumn : DriverValue → DriverValue
| .str s => .bytes s
| v => v

/-- A scanner for the type `note` over the columns `_id` and `author`, a
reference to the type `user`. -/
def referenceScanner : recordScanner where
  recordType := "note"
  typemap :=
    ((∅ : RecordSchema).insert "_id" ⟨.TypeString, "", none⟩).insert "author"
      ⟨.TypeReference, "user", none⟩
  columns := ["_id", "author"]
  err := none

/-! ## Sorts -/

/-- The `skydb.SortOrder` enumeration; `Other` stands for any further
integer value. -/
inductive SortOrder
| Asc | Desc
| Other (code : Nat)
deriving DecidableEq, Repr

/-- A `skydb.Sort` (`Sort` is a reserved word here): a key path (empty when
unset), a function (nil when unset) and an order. -/
structure QuerySort where
  KeyPath : String
  Func : Option Func
  Order : SortOrder
deriving DecidableEq, Repr

/-- Errors returned by `sortOrderBySQL`. -/
inductive SortError
| unrecognizedFunc
| invalidSort
| unknownSortOrder (order : SortOrder)
deriving DecidableEq, Repr

/-- The parts of package `fmt` taken as parameters: the text of a `float64`
under the verb `%f`, and the output of `Sprintf` without operands from a `%`
that is followed by a flag, a width, a precision or an argument index
(given the format text after that `%`). -/
structure Fmt where
  formatFloat : Float64 → String
  directive : List Char → List Char

/-- The characters `fmt` reads after `%` as a flag, a width, a precision or
an argument index. -/
def isFormatModifier (c : Char) : Bool :=
  c.isDigit || ['#', '+', '-', ' ', '.', '*', '['].contains c

/-- Go `fmt.Sprintf(format)` called without operands, on the characters of
the format: text is copied, `%%` is a percent sign, a `%` directly followed
by a verb prints `%!verb(MISSING)`, a `%` at the end prints `%!(NOVERB)`. -/
def sprintfChars (fmt : Fmt) : List Char → List Char
| [] => []
| c :: rest =>
    if c ≠ '%' then c :: sprintfChars fmt rest
    else
      match rest with
      | [] => "%!(NOVERB)".data
      | verb :: rest2 =>
          if verb = '%' then '%' :: sprintfChars fmt rest2
          else if isFormatModifier verb then fmt.directive rest
          else "%!".data ++ [verb] ++ "(MISSING)".data ++ sprintfChars fmt rest2

/-- Go `fmt.Sprintf(format)` called without operands. -/
def Sprintf (fmt : Fmt) (format : String) : String :=
  String.mk (sprintfChars fmt format.data)

/-- `funcOrderBySQL`: the arguments of a distance function are written into
the SQL text with the verb `%f`. -/
def funcOrderBySQL (fmt : Fmt) : Func → Except SortError String
| .DistanceFunc field lng lat =>
    .ok ("ST_Distance_Sphere(" ++ QuoteIdentifier field ++ ", ST_MakePoint("
      ++ fmt.formatFloat lng ++ ", " ++ fmt.formatFloat lat ++ "))")
| .Other _ => .error .unrecognizedFunc

/-- `sortOrderOrderBySQL`. -/
def sortOrderOrderBySQL : SortOrder → Except SortError String
| .Asc => .ok "ASC"
| .Desc => .ok "DESC"
| order => .error (.unknownSortOrder order)

/-- `sortOrderBySQL`; its last line passes `expr + " " + order` to
`fmt.Sprintf` as the format. -/
def sortOrderBySQL (fmt : Fmt) (sort : QuerySort) : Except SortError String :=
  let expr : Except SortError String :=
    if sort.KeyPath ≠ "" then .ok (QuoteIdentifier sort.KeyPath)
    else
      match sort.Func with
      | some f => funcOrderBySQL fmt f
      | none => .error .invalidSort
  match expr with
  | .error e => .error e
  | .ok expr =>
      match sortOrderOrderBySQL sort.Order with
      | .error e => .error e
      | .ok order => .ok (Sprintf fmt (expr ++ " " ++ order))

/-- Sample `fmt` parameters. -/
def sampleFmt : Fmt := ⟨fun f => toString f.bits, fun rest => rest⟩

/-! ## Queries -/

/-- A `skydb.Query` (Go field `Type` is `Typ`): `Predicate` is `none` for a
nil pointer, `DesiredKeys` is `none` for a nil slice, `ComputedKeys` is the
Go map from name to expression. -/
structure Query where
  Typ : String
  Predicate : Option Node
  Sorts : List QuerySort
  ReadableBy : String
  ComputedKeys : AList (fun _ : String => Expression)
  DesiredKeys : Option (List String)
  Limit : Nat
  Offset : Nat

/-- An argument of squirrel's `Where`: an SQL text with its bound arguments,
or a `Sqlizer` compiled when the statement is built. Squirrel joins the
parts of a statement with ` AND `. -/
inductive WherePart
| expr (sql : String) (args : List Value)
| sqlizer (predicate : Node)

/-- The state of a squirrel `SelectBuilder`: the result columns with their
bound arguments, the table, the `Where` parts, the `OrderBy` texts, and the
limit and offset when set. -/
structure SelectBuilder where
  Columns : List (String × List Value)
  From : String
  WhereParts : List WherePart
  OrderBys : List String
  Limit : Option Nat
  Offset : Option Nat

/-- The body of the column loop of `selectQuery`: a computed column is
`<expression> as <column>` with the arguments of the expression, any other
column is its name in double quotes. -/
def selectColumn (column : String) (fieldType : FieldType) :
    Except String (String × List Value) :=
  match fieldType.Expression with
  | some expr =>
      match toSqlOperand expr with
      | .error msg => .error msg
      | .ok (sqlOperand, opArgs) => .ok (sqlOperand ++ " as " ++ column, opArgs)
  | none => .ok ("\"" ++ column ++ "\"", [])

/-- The column loop of `selectQuery` over the schema. -/
def selectColumns :
    List (Sigma fun _ : String => FieldType) → Except String (List (String × List Value))
| [] => .ok []
| ⟨column, fieldType⟩ :: rest =>
    match selectColumn column fieldType with
    | .error msg => .error msg
    | .ok col =>
        match selectColumns rest with
        | .error msg => .error msg
        | .ok cols => .ok (col :: cols)

/-- `selectQuery`: the columns of the schema, the table of the record type
and the partition filter; `.error` is a panic of `toSqlOperand`. -/
def database.selectQuery (db : database) (recordType : String) (typemap : RecordSchema) :
    Except String SelectBuilder :=
  match selectColumns typemap.entries with
  | .error msg => .error msg
  | .ok cols =>
      .ok ⟨cols, db.tableName recordType, [.expr "_database_id = ?" [.str db.userID]], [],
        none, none⟩

/-- Errors returned by `Query` before the statement is executed. -/
inductive QueryError
| emptyType
| resolver (e : ExtendError)
| schema (e : SchemaError)
| sort (e : SortError)

/-- What `Query` does: return an error, return `skydb.EmptyRows`, or hand a
select statement to `queryWith`. -/
inductive QueryOutcome
| error (e : QueryError)
| emptyRows
| query (q : SelectBuilder)

/-- The loop of `Query` over `query.ComputedKeys`. Every entry it writes
holds `&value`, the address of the one loop variable `value`; once the loop
has ended that variable holds the value of the last iteration, which is
what `selectQuery` reads through each of these pointers. -/
def computedKeysLoop (entries : List (Sigma fun _ : String => Expression))
    (typemap : RecordSchema) : RecordSchema :=
  entries.foldl
    (fun tm kv =>
      tm.insert ("_transient_" ++ kv.1)
        ⟨.TypeNumber, "", entries.getLast?.map (fun last => last.2)⟩)
    typemap

/-- The loop of `Query` over `query.Sorts`: the `OrderBy` texts in order, or
the first error. -/
def sortsLoop (fmt : Fmt) : List QuerySort → Except SortError (List String)
| [] => .ok []
| sort :: sorts =>
    match sortOrderBySQL fmt sort with
    | .error e => .error e
    | .ok orderBy =>
        match sortsLoop fmt sorts with
        | .error e => .error e
        | .ok orderBys => .ok (orderBy :: orderBys)

/-- The access-control `Where` part of `Query`: the principal is spliced
into the SQL text and also bound as the one argument. -/
def readableByClause (readableBy : String) : WherePart :=
  .expr ("(_access @> '[\x7b\"user_id\":\"" ++ readableBy ++ "\"\x7d]' OR "
      ++ "_access IS NULL OR " ++ "_owner_id = ?)")
    [.str readableBy]

/-- The column selection of `Query`: the whitelist applies only when
`DesiredKeys` is not nil. -/
def queryTypemap (typemap : RecordSchema) (desiredKeys : Option (List String)) :
    Except SchemaError RecordSchema :=
  match desiredKeys with
  | some keys => whitelistedRecordSchema typemap keys
  | none => .ok typemap

/-- The part of `Query` after `selectQuery`: the predicate, the sorts, the
access-control clause, the limit and the offset. -/
def queryClauses (fmt : Fmt) (query : Query) (q : SelectBuilder) : QueryOutcome :=
  let q1 : SelectBuilder :=
    match query.Predicate with
    | some p => { q with WhereParts := q.WhereParts ++ [.sqlizer p] }
    | none => q
  match sortsLoop fmt query.Sorts with
  | .error e => .error (.sort e)
  | .ok orderBys =>
      let q2 : SelectBuilder := { q1 with OrderBys := q1.OrderBys ++ orderBys }
      let q3 : SelectBuilder :=
        if query.ReadableBy ≠ "" then
          { q2 with WhereParts := q2.WhereParts ++ [readableByClause query.ReadableBy] }
        else q2
      let q4 : SelectBuilder :=
        if query.Limit > 0 then { q3 with Limit := some query.Limit } else q3
      let q5 : SelectBuilder :=
        if query.Offset > 0 then { q4 with Offset := some query.Offset } else q4
      .query q5

/-- `Query` up to the call of `queryWith`, on a store whose resolver queries
succeed; `.error` is a panic. -/
def database.Query (db : database) (s : Store) (fmt : Fmt) (query : Query) :
    Except String QueryOutcome :=
  if query.Typ = "" then .ok (.error .emptyType)
  else
    match remoteColumnTypes s query.Typ with
    | .error e => .ok (.error (.resolver e))
    | .ok typemap =>
        if typemap.entries.length = 0 then .ok .emptyRows
        else
          match queryTypemap typemap query.DesiredKeys with
          | .error e => .ok (.error (.schema e))
          | .ok typemap1 =>
              match db.selectQuery query.Typ
                  (computedKeysLoop query.ComputedKeys.entries typemap1) with
              | .error msg => .error msg
              | .ok q => .ok (queryClauses fmt query q)

/-! ## Get -/

/-- Errors returned by `Get`: `skydb.ErrRecordNotFound`, an error of the
resolver, or an error of the row scan. -/
inductive GetError
| recordNotFound
| resolver (e : ExtendError)
| scan (e : ScanError)

/-- The `sqlx.Row` returned by `QueryRowx`: what its `Columns` returns, and
the row its `Scan` reads (`sql.ErrNoRows` when the result is empty). -/
structure RowCursor where
  columns : Except DriverError (List String)
  row : Except DriverError (List DriverValue)

/-- `newRecordScanner`: the columns of the cursor, or its error. -/
def newRecordScanner (recordType : String) (typemap : RecordSchema) (cs : RowCursor) :
    recordScanner :=
  match cs.columns with
  | .ok columns => ⟨recordType, typemap, columns, none⟩
  | .error err => ⟨recordType, typemap, [], some (.driver err)⟩

/-- What a call of `Get` does: the returned error, the record afterwards and
the select statements executed. -/
structure GetOutcome where
  err : Option GetError
  record : Record
  executed : List SelectBuilder

/-- The select statement of `Get`: `selectQuery` with the condition on
`_id`. -/
def database.getQuery (db : database) (id : RecordID) (typemap : RecordSchema) :
    Except String SelectBuilder :=
  match db.selectQuery id.Typ typemap with
  | .error msg => .error msg
  | .ok q => .ok { q with WhereParts := q.WhereParts ++ [.expr "_id = ?" [.str id.Key]] }

/-- `Get`, given the behaviour of `QueryRowx` on the select statement;
`.error` is a panic. -/
def database.Get (db : database) (s : Store) (lib : Library)
    (queryRowx : SelectBuilder → RowCursor) (id : RecordID) (record : Record) :
    Except String GetOutcome :=
  match remoteColumnTypes s id.Typ with
  | .error e => .ok ⟨some (.resolver e), record, []⟩
  | .ok typemap =>
      if typemap.entries.length = 0 then .ok ⟨some .recordNotFound, record, []⟩
      else
        match db.getQuery id typemap with
        | .error msg => .error msg
        | .ok q =>
            match (newRecordScanner id.Typ typemap (queryRowx q)).Scan lib (queryRowx q).row
                record with
            | .error msg => .error msg
            | .ok out =>
                match out.err with
                | some (.driver .noRows) => .ok ⟨some .recordNotFound, out.record, [q]⟩
                | some e => .ok ⟨some (.scan e), out.record, [q]⟩
                | none => .ok ⟨none, out.record, [q]⟩

/-- A query for the type `user` readable by the principal `u?`. -/
def questionMarkQuery : Query :=
  ⟨"user", none, [], "u?", ∅, none, 0, 0⟩

/-- A query for the type `user` with two computed keys: `near`, the
distance of the field `home`, and `far`, the distance of the field `work`. -/
def computedKeysQuery : Query :=
  ⟨"user", none, [], "",
    ((∅ : AList (fun _ : String => Expression)).insert "near"
      ⟨.Function, .func (.DistanceFunc "home" ⟨1⟩ ⟨2⟩)⟩).insert "far"
      ⟨.Function, .func (.DistanceFunc "work" ⟨3⟩ ⟨4⟩)⟩,
    some [], 0, 0⟩

/-- A cursor over the column `_id` holding the row of the record `user/u7`. -/
def sampleCursor : RowCursor where
  columns := .ok ["_id"]
  row := .ok [.bytes "u7"]

/-- A cursor whose result is empty. -/
def emptyCursor : RowCursor where
  columns := .ok ["_id"]
  row := .error .noRows

/-- A store whose table `user` has the single column `_id`. -/
def idOnlyStore : Store :=
  (∅ : Store).insert "user" ⟨[("_id", "text")], []⟩

/-! ## Samples for the schema resolver -/

/-- A relation with three foreign keys: `author` to the table `user`,
`photo` to the reserved table `_asset`, and `team`, a boolean column, to the
table `group`. -/
def sampleTable : Table where
  columns := [("_id", "text"), ("_access", "jsonb"), ("title", "text"), ("author", "text"),
    ("photo", "text"), ("score", "double precision"), ("team", "boolean")]
  foreignKeys := [("author", "user"), ("photo", "_asset"), ("team", "group")]

/-- A relation whose column `age` has the native type `integer`. -/
def driftedTable : Table where
  columns := [("_id", "text"), ("age", "integer"), ("title", "text")]
  foreignKeys := []

/-- The six data types that have a native type of their own. -/
def baseTypes : List DataType :=
  [.TypeString, .TypeNumber, .TypeBoolean, .TypeDateTime, .TypeJSON, .TypeLocation]

/-- The six native types the resolver knows. -/
def nativeTypes : List String :=
  [TypeString, TypeNumber, TypeTimestamp, TypeBoolean, TypeJSON, TypeLocation]

/-! ## The text of the column-adding statement -/

/-- `writeForeignKeyConstraint`: the buffer after the writes of the
function. The name of the constraint is `fmt.Sprintf` of the constant format
`fk_%s_%s_%s` on three strings. -/
def database.writeForeignKeyConstraint (db : database) (buf : String)
    (localCol referent remoteCol : String) : String :=
  buf ++ "ADD CONSTRAINT "
    ++ QuoteIdentifier ("fk_" ++ localCol ++ "_" ++ referent ++ "_" ++ remoteCol)
    ++ " FOREIGN KEY (" ++ QuoteIdentifier localCol ++ ") REFERENCES "
    ++ db.tableName referent ++ " (" ++ QuoteIdentifier remoteCol ++ "),"

/-- The loop of `addColumnStmt` over the fields of the schema, on the buffer
written so far; `.error` is the panic of `pqDataType`. -/
def database.addColumnLoop (db : database) :
    List (Sigma fun _ : String => FieldType) → String → Except String String
| [], buf => .ok buf
| ⟨column, schema⟩ :: rest, buf =>
    match pqDataType schema.Typ with
    | .error msg => .error msg
    | .ok pqType =>
        let buf1 := buf ++ "ADD " ++ QuoteIdentifier column ++ " " ++ pqType ++ ","
        match schema.Typ with
        | .TypeAsset =>
            database.addColumnLoop db rest
              (db.writeForeignKeyConstraint buf1 column "_asset" "id")
        | .TypeReference =>
            database.addColumnLoop db rest
              (db.writeForeignKeyConstraint buf1 column schema.ReferenceType "_id")
        | _ => database.addColumnLoop db rest buf1

/-- `buf.Truncate(buf.Len() - 1)` on a buffer that ends in a one-byte
character: the buffer without its last character. The buffer of
`addColumnStmt` ends in a comma or, for the empty schema, in a space. -/
def truncateLast (buf : String) : String := String.mk buf.data.dropLast

/-- `addColumnStmt`: the text of the `ALTER TABLE` statement for a schema. -/
def database.addColumnStmt (db : database) (recordType : String)
    (recordSchema : RecordSchema) : Except String String :=
  match db.addColumnLoop recordSchema.entries ("ALTER TABLE " ++ db.tableName recordType ++ " ")
  with
  | .error msg => .error msg
  | .ok buf => .ok (truncateLast buf)

/-- The clause that adds a column, as the specification words it:
`ADD <quoted column> <native type>`. -/
def addClauseText (column pqType : String) : String :=
  "ADD " ++ QuoteIdentifier column ++ " " ++ pqType

/-- The clause that adds a foreign key, as the specification words it:
`ADD CONSTRAINT <name> FOREIGN KEY (<quoted column>) REFERENCES <table>
(<quoted remote column>)`. -/
def constraintClauseText (db : database) (column referent remoteCol : String) : String :=
  "ADD CONSTRAINT " ++ QuoteIdentifier ("fk_" ++ column ++ "_" ++ referent ++ "_" ++ remoteCol)
    ++ " FOREIGN KEY (" ++ QuoteIdentifier column ++ ") REFERENCES "
    ++ db.tableName referent ++ " (" ++ QuoteIdentifier remoteCol ++ ")"

/-- The clauses of one field, as the specification words them: the column
clause with the native type `pqType`, then for a reference the foreign key
to the `_id` of the table of the target type, for an asset the foreign key
to the table `_asset`, and nothing more for any other type. -/
def fieldClauses (db : database) (column pqType : String) (schema : FieldType) : List String :=
  addClauseText column pqType ::
    (match schema.Typ with
     | .TypeReference => [constraintClauseText db column schema.ReferenceType "_id"]
     | .TypeAsset => [constraintClauseText db column "_asset" "id"]
     | _ => [])

/-- The clauses of a schema, field by field in the order of the schema; a
field whose type has no native type contributes none. -/
def schemaClauses (db : database) :
    List (Sigma fun _ : String => FieldType) → List String
| [] => []
| ⟨column, schema⟩ :: rest =>
    (match pqDataType schema.Typ with
     | .ok pqType => fieldClauses db column pqType schema
     | .error _ => []) ++ schemaClauses db rest

/-! ## Samples for the write encoding -/

/-- The six system columns `convert` sets after the data fields. -/
def convertSystemKeys : List String :=
  ["_owner_id", "_access", "_created_at", "_created_by", "_updated_at", "_updated_by"]

/-- A record whose data has a field under the name of a system column. -/
def shadowingRecord : Record :=
  { sampleRecord with
    OwnerID := "u1"
    Data := ((∅ : AList (fun _ : String => Value)).insert "_owner_id" (.str "intruder")).insert
      "tags" (.array [.str "a"]) }

/-! ## The cloud asset store -/

/-- Go `strings.Join`. -/
def Join : List String → String → String
| [], _ => ""
| [a], _ => a
| a :: b :: rest, sep => a ++ sep ++ Join (b :: rest) sep

/-- The errors of `NewCloudStore`, one for each of its `errors.New`. -/
inductive CloudStoreError
| missingAppName
| missingHost
| missingAuthToken
| missingPublicURLPrefix
| missingPrivateURLPrefix
deriving DecidableEq, Repr

/-- The `CloudStore` of package `asset`, with the signer token, its extra
and its expiry; the ticker and the mutex have no part in the results. -/
structure CloudStore where
  appName : String
  host : String
  authToken : String
  urlPrefix : String
  public : Bool
  signerToken : String
  signerExtra : String
  signerTokenExpiredAt : Time

/-- The body of a successful response to the token request. -/
structure refreshSignerTokenResponse where
  Value : String
  Extra : String
  ExpiredAt : Time

/-- `NewCloudStore`: `.error` is the return `(nil, err)`, `.ok` the store it
returns; the refreshes it starts run afterwards (`refreshSignerToken`). -/
def NewCloudStore (appName host authToken publicURLPrefix privateURLPrefix : String)
    (public : Bool) : Except CloudStoreError CloudStore :=
  if appName = "" then .error .missingAppName
  else if host = "" then .error .missingHost
  else if authToken = "" then .error .missingAuthToken
  else if public = true ∧ publicURLPrefix = "" then .error .missingPublicURLPrefix
  else if public = false ∧ privateURLPrefix = "" then .error .missingPrivateURLPrefix
  else
    let urlPrefix := if public then publicURLPrefix else privateURLPrefix
    .ok ⟨appName, host, authToken, urlPrefix, public, "", "", Time.zero⟩

/-- `refreshSignerToken` on the outcome of the token request: `none` when the
request or the parsing of its response fails, which leaves the store as it
is, else the response, whose three values are stored. -/
def CloudStore.refreshSignerToken (s : CloudStore)
    (response : Option refreshSignerTokenResponse) : CloudStore :=
  match response with
  | none => s
  | some resBody =>
      { s with
        signerToken := resBody.Value
        signerExtra := resBody.Extra
        signerTokenExpiredAt := resBody.ExpiredAt }

/-- `CloudStore.SignedURL`: the URL and the error, which is always nil. -/
def CloudStore.SignedURL (s : CloudStore) (name : String) : String × Option CloudStoreError :=
  (Join [s.urlPrefix, s.appName, name] "/", none)

/-- `CloudStore.IsSignatureRequired`. -/
def CloudStore.IsSignatureRequired (s : CloudStore) : Bool := !s.public
/-! ## Theorems: the predicate compiler -/

theorem comparisonOperators_sound {op : Operator} {opSql : String}
    (h : (op, opSql) ∈ comparisonOperators) :
    op.IsBinary = true ∧ comparisonOperatorSql op = some opSql := by
  simp only [comparisonOperators, List.mem_cons, Prod.mk.injEq, List.mem_singleton,
    List.mem_nil_iff, or_false] at h
  rcases h with h | h | h | h | h | h | h | h | h <;> obtain ⟨rfl, rfl⟩ := h <;> exact ⟨rfl, rfl⟩

/-- C1: for each of the nine comparison operators (paired with its SQL text
`=`, `>`, `<`, `>=`, `<=`, `<>`, ` LIKE `, ` ILIKE `, ` IN `) and operands
`lhs`, `rhs` on which `toSqlOperand` returns, `comparisonPredicateSqlizer.ToSql`
returns no error, the SQL is the left operand, the operator text and the
right operand in this order, and the arguments are those of the left
operand followed by those of the right operand; a key path operand is the
quoted identifier with no argument. -/
theorem comparison_ToSql_binary (op : Operator) (opSql : String) (lhs rhs : Expression)
    (l r : String × List Value)
    (hop : (op, opSql) ∈ comparisonOperators)
    (hl : toSqlOperand lhs = .ok l) (hr : toSqlOperand rhs = .ok r) :
    comparisonPredicateSqlizer.ToSql op [.expression lhs, .expression rhs]
        = .ok ⟨l.1 ++ opSql ++ r.1, l.2 ++ r.2, none⟩
      ∧ ∀ name : String, toSqlOperand ⟨.KeyPath, .str name⟩ = .ok (QuoteIdentifier name, []) := by
  obtain ⟨hb, hs⟩ := comparisonOperators_sound hop
  refine ⟨?_, fun _ => rfl⟩
  simp only [comparisonPredicateSqlizer.ToSql, hb, if_true, hl, hr, hs]

/-- Witness of C1: `Equal(KeyPath("title"), Literal("hello"))` compiles to
`"title"=?` with the single argument `"hello"`. -/
theorem comparison_ToSql_binary_witness :
    comparisonPredicateSqlizer.ToSql .Equal
        [.expression ⟨.KeyPath, .str "title"⟩, .expression ⟨.Literal, .str "hello"⟩]
      = .ok ⟨"\"title\"=?", [.str "hello"], none⟩ :=
  (comparison_ToSql_binary .Equal "=" ⟨.KeyPath, .str "title"⟩ ⟨.Literal, .str "hello"⟩
    ("\"title\"", []) ("?", [.str "hello"]) (by simp [comparisonOperators]) rfl rfl).1
theorem placeholderCount_append (a b : String) :
    placeholderCount (a ++ b) = placeholderCount a + placeholderCount b := by
  simp [placeholderCount, String.data_append]

theorem placeholderCount_intercalate_go (sep : String) (hsep : placeholderCount sep = 0) :
    ∀ (xs : List String) (acc : String),
      placeholderCount (String.intercalate.go acc sep xs)
        = placeholderCount acc + (xs.map placeholderCount).sum
| [], acc => by simp [String.intercalate.go]
| x :: xs, acc => by
    simp [String.intercalate.go, placeholderCount_intercalate_go sep hsep xs,
      placeholderCount_append, hsep, Nat.add_assoc]

theorem placeholderCount_intercalate (sep : String) (hsep : placeholderCount sep = 0)
    (xs : List String) :
    placeholderCount (sep.intercalate xs) = (xs.map placeholderCount).sum := by
  cases xs with
  | nil => rfl
  | cons x xs => simp [String.intercalate, placeholderCount_intercalate_go sep hsep]

theorem count_replicate_flatten (n : Nat) :
    ((List.replicate n [',', '?']).flatten).count '?' = n := by
  induction n with
  | zero => rfl
  | succ n ih =>
      simp only [List.replicate_succ, List.flatten_cons, List.count_append, ih]
      have : List.count '?' [',', '?'] = 1 := by decide
      omega

theorem placeholderCount_Placeholders (n : Nat) : placeholderCount (Placeholders n) = n := by
  cases n with
  | zero => rfl
  | succ n =>
      have h : ((List.replicate (n + 1) [',', '?']).flatten).drop 1
          = '?' :: (List.replicate n [',', '?']).flatten := by
        simp [List.replicate_succ]
      simp only [placeholderCount, Placeholders, h, List.count_cons_self, count_replicate_flatten]

theorem placeholderCount_QuoteIdentifier (s : String) (h : s.data.contains '?' = false) :
    placeholderCount (QuoteIdentifier s) = 0 := by
  have hs : '?' ∉ s.data := by simpa using h
  simp only [placeholderCount, QuoteIdentifier, List.count_eq_zero]
  intro hm
  simp only [List.mem_append, List.mem_singleton, List.mem_flatMap] at hm
  rcases hm with (hq | ⟨c, hc, hcm⟩) | hq
  · exact absurd hq (by decide)
  · have hc2 : c ∈ s.data := List.takeWhile_subset _ hc
    by_cases hd : c = dquote
    · simp only [hd, if_true, List.mem_cons, List.mem_singleton, List.mem_nil_iff, or_false,
        or_self] at hcm
      exact absurd hcm (by decide)
    · simp only [hd, if_false, List.mem_singleton] at hcm
      exact hs (hcm ▸ hc2)
  · exact absurd hq (by decide)
theorem literalToSqlValue_eq_normalizedLiteral (v : Value) :
    literalToSqlValue v = normalizedLiteral v := by
  cases v <;> rfl

theorem toSqlOperand_wellFormed (e : Expression) (h : e.wellFormed = true) :
    ∃ sql, toSqlOperand e = .ok (sql, e.leafArgs)
      ∧ (e.questionFree = true → placeholderCount sql = e.leafArgs.length) := by
  obtain ⟨t, v⟩ := e
  have hn : literalToSqlValue = normalizedLiteral := funext literalToSqlValue_eq_normalizedLiteral
  have h1 : placeholderCount (Placeholders 1) = 1 := placeholderCount_Placeholders 1
  have hp : placeholderCount "(" = 0 ∧ placeholderCount ")" = 0 := ⟨by decide, by decide⟩
  cases t
  · cases v <;>
      simp [toSqlOperand, literalToSqlOperand, Expression.leafArgs, hn, h1,
        placeholderCount_append, placeholderCount_Placeholders, hp]
  · cases v <;> simp_all [toSqlOperand, Expression.wellFormed, Expression.leafArgs,
      Expression.questionFree]
    intro hq
    exact placeholderCount_QuoteIdentifier _ (by simpa using hq)
  · cases v <;> simp_all [toSqlOperand, Expression.wellFormed, Expression.leafArgs]
    rename_i f
    cases f <;> simp_all [funcToSqlOperand, Expression.questionFree]
    intro hq
    have hq2 := placeholderCount_QuoteIdentifier _ (by simpa using hq)
    have ha : placeholderCount "ST_Distance_Sphere(" = 0 := by decide
    have hb : placeholderCount ", ST_MakePoint(?, ?))" = 2 := by decide
    simp [placeholderCount_append, hq2, ha, hb]

theorem supported_isPredicate {n : Node} (h : n.supported = true) : n.isPredicate = true := by
  cases n with
  | predicate op cs => rfl
  | expression e => simp [Node.supported] at h

theorem string_append_eq_empty (a b : String) : a ++ b = "" ↔ a = "" ∧ b = "" := by
  simp [String.ext_iff, String.data_append]

theorem comparisonOperatorSql_ne_empty {op : Operator} {opSql : String}
    (h : comparisonOperatorSql op = some opSql) : opSql ≠ "" ∧ placeholderCount opSql = 0 := by
  cases op <;> simp [comparisonOperatorSql] at h <;> subst h <;> decide

theorem isBinary_operatorSql {op : Operator} (h : op.IsBinary = true) :
    ∃ opSql, comparisonOperatorSql op = some opSql := by
  cases op <;> simp [Operator.IsBinary] at h <;> exact ⟨_, rfl⟩

theorem supported_comparison {op : Operator} {cs : List Node}
    (h : (Node.predicate op cs).supported = true)
    (hand : op ≠ .And) (hor : op ≠ .Or) (hnot : op ≠ .Not) :
    op.IsBinary = true ∧ op.IsCompound = false ∧
      ∃ lhs rhs, cs = [.expression lhs, .expression rhs]
        ∧ lhs.wellFormed = true ∧ rhs.wellFormed = true := by
  have h2 : op.IsBinary = true ∧ wellFormedOperands cs = true := by
    cases op <;> simp_all [Node.supported]
  refine ⟨h2.1, by cases op <;> simp_all [Operator.IsCompound], ?_⟩
  have h3 := h2.2
  unfold wellFormedOperands at h3
  split at h3
  · exact ⟨_, _, rfl, by simpa using h3⟩
  · simp at h3

theorem conjJoin_ok (sep : String) (hsep : placeholderCount sep = 0)
    (parts : List (Except String Sqlized)) (sqls : List String) (args : List Value) (q : Prop)
    (h1 : conjParts parts = .ok (.ok (sqls, args))) (h2 : sqls = [] → args = [])
    (h3 : q → (sqls.map placeholderCount).sum = args.length) :
    ∃ sql, conjJoin sep parts = .ok ⟨sql, args, none⟩ ∧ (sql = "" → args = [])
      ∧ (q → placeholderCount sql = args.length) := by
  by_cases hs : sqls = []
  · subst hs
    exact ⟨"", by simp [conjJoin, h1], fun _ => h2 rfl, fun _ => by simp [h2 rfl]; rfl⟩
  · have hpos : sqls.length > 0 := List.length_pos.mpr hs
    have hp : placeholderCount "(" = 0 ∧ placeholderCount ")" = 0 := ⟨by decide, by decide⟩
    refine ⟨"(" ++ sep.intercalate sqls ++ ")", by simp [conjJoin, h1, hpos], fun he => ?_,
      fun hq => ?_⟩
    · simp [string_append_eq_empty] at he
    · simp [placeholderCount_append, hp, placeholderCount_intercalate sep hsep, h3 hq]

mutual
theorem ToSql_supported_aux : ∀ n : Node, n.supported = true →
    ∃ sql, newPredicateSqlizer.ToSql n = .ok ⟨sql, n.leafArgs, none⟩
      ∧ (sql = "" → n.leafArgs = [])
      ∧ (n.questionFree = true → placeholderCount sql = n.leafArgs.length)
| .expression _, h => by simp [Node.supported] at h
| .predicate op cs, h => by
    by_cases hand : op = .And
    · subst hand
      simp only [Node.supported] at h
      obtain ⟨sqls, h1, h2, h3, h4⟩ := conjParts_supported_aux cs h
      simpa only [newPredicateSqlizer.ToSql, Operator.IsCompound, if_true,
        compoundPredicateSqlizer.ToSql, h3, Node.leafArgs, Node.questionFree]
        using conjJoin_ok " AND " (by decide) _ _ _ _ h1 h2 h4
    by_cases hor : op = .Or
    · subst hor
      simp only [Node.supported] at h
      obtain ⟨sqls, h1, h2, h3, h4⟩ := conjParts_supported_aux cs h
      simpa only [newPredicateSqlizer.ToSql, Operator.IsCompound, if_true,
        compoundPredicateSqlizer.ToSql, h3, Node.leafArgs, Node.questionFree]
        using conjJoin_ok " OR " (by decide) _ _ _ _ h1 h2 h4
    by_cases hnot : op = .Not
    · subst hnot
      match cs, h with
      | [c], h =>
        simp only [Node.supported] at h
        obtain ⟨sql, h1, _, h3⟩ := ToSql_supported_aux c h
        have hp : placeholderCount "NOT (" = 0 ∧ placeholderCount ")" = 0 :=
          ⟨by decide, by decide⟩
        refine ⟨"NOT (" ++ sql ++ ")", ?_, fun he => ?_, fun hq => ?_⟩
        · simp [newPredicateSqlizer.ToSql, Operator.IsCompound, compoundPredicateSqlizer.ToSql,
            childrenToSql, supported_isPredicate h, h1, Node.leafArgs, leafArgsList]
        · simp [string_append_eq_empty] at he
        · simp only [Node.questionFree, questionFreeList, Bool.and_true] at hq
          simp [placeholderCount_append, hp, h3 hq, Node.leafArgs, leafArgsList]
      | [], h => simp [Node.supported] at h
      | _ :: _ :: _, h => simp [Node.supported] at h
    · obtain ⟨hb, hc, lhs, rhs, rfl, hl, hr⟩ := supported_comparison h hand hor hnot
      obtain ⟨opSql, hs⟩ := isBinary_operatorSql hb
      obtain ⟨sl, hsl, hql⟩ := toSqlOperand_wellFormed lhs hl
      obtain ⟨sr, hsr, hqr⟩ := toSqlOperand_wellFormed rhs hr
      have hne := comparisonOperatorSql_ne_empty hs
      refine ⟨sl ++ opSql ++ sr, ?_, fun he => ?_, fun hq => ?_⟩
      · simp [newPredicateSqlizer.ToSql, hc, comparisonPredicateSqlizer.ToSql, hb,
          hsl, hsr, hs, Node.leafArgs, leafArgsList]
      · simp [string_append_eq_empty, hne.1] at he
      · simp only [Node.questionFree, questionFreeList, Bool.and_true, Bool.and_eq_true] at hq
        simp [placeholderCount_append, hne.2, hql hq.1, hqr hq.2, Node.leafArgs, leafArgsList]
theorem conjParts_supported_aux : ∀ cs : List Node, supportedAll cs = true →
    ∃ sqls, conjParts (childrenToSql cs) = .ok (.ok (sqls, leafArgsList cs))
      ∧ (sqls = [] → leafArgsList cs = []) ∧ cs.all Node.isPredicate = true
      ∧ (questionFreeList cs = true →
          (sqls.map placeholderCount).sum = (leafArgsList cs).length)
| [], _ => ⟨[], rfl, fun _ => rfl, rfl, fun _ => rfl⟩
| c :: cs, h => by
    simp only [supportedAll, Bool.and_eq_true] at h
    obtain ⟨sql, h1, h2, h2q⟩ := ToSql_supported_aux c h.1
    obtain ⟨sqls, h3, h4, h5, h6⟩ := conjParts_supported_aux cs h.2
    by_cases he : sql = ""
    · subst he
      refine ⟨sqls, ?_, fun hs => ?_, ?_, fun hq => ?_⟩
      · simp [childrenToSql, conjParts, h1, h3, leafArgsList, h2 rfl]
      · simp [leafArgsList, h2 rfl, h4 hs]
      · simp [supported_isPredicate h.1, h5]
      · simp only [questionFreeList, Bool.and_eq_true] at hq
        simp [leafArgsList, h2 rfl, h6 hq.2]
    · refine ⟨sql :: sqls, ?_, fun hs => by simp at hs, ?_, fun hq => ?_⟩
      · simp [childrenToSql, conjParts, h1, h3, leafArgsList, he]
      · simp [supported_isPredicate h.1, h5]
      · simp only [questionFreeList, Bool.and_eq_true] at hq
        simp [leafArgsList, h2q hq.1, h6 hq.2]
end

theorem expression_leafArgs_length (e : Expression) : e.leafArgs.length = e.leafCount := by
  obtain ⟨t, v⟩ := e
  cases t <;> cases v <;> simp [Expression.leafArgs, Expression.leafCount]
  all_goals (rename_i f; cases f <;> rfl)

mutual
theorem node_leafArgs_length : ∀ n : Node, n.leafArgs.length = n.leafCount
| .expression e => by simp [Node.leafArgs, Node.leafCount, expression_leafArgs_length]
| .predicate _ cs => by simp [Node.leafArgs, Node.leafCount, leafArgsList_length cs]
theorem leafArgsList_length : ∀ cs : List Node, (leafArgsList cs).length = leafCountList cs
| [] => rfl
| c :: cs => by
    simp [leafArgsList, leafCountList, node_leafArgs_length c, leafArgsList_length cs]
end

/-- C2: compiling a predicate tree built only from supported operators
succeeds, and the returned argument list is exactly the left-to-right
sequence of the leaves of the tree (normalized scalar literals, the
normalized elements of array literals, longitude then latitude of distance
functions, nothing for key paths); its length is the number of literal and
function-argument leaves. -/
theorem ToSql_args_are_leaves (n : Node) (h : n.supported = true) :
    ∃ sql, newPredicateSqlizer.ToSql n = .ok ⟨sql, n.leafArgs, none⟩
      ∧ n.leafArgs.length = n.leafCount := by
  obtain ⟨sql, h1, _⟩ := ToSql_supported_aux n h
  exact ⟨sql, h1, node_leafArgs_length n⟩

/-- Witness of C2 on the sample tree: six arguments, in leaf order. -/
theorem ToSql_args_are_leaves_witness :
    ∃ sql, newPredicateSqlizer.ToSql sampleTree
        = .ok ⟨sql, [.str "hello", .str "a", .str "n1", .number ⟨1⟩, .number ⟨2⟩, .number ⟨5⟩],
            none⟩
      ∧ [Value.str "hello", .str "a", .str "n1", .number ⟨1⟩, .number ⟨2⟩, .number ⟨5⟩].length
          = 6 :=
  ToSql_args_are_leaves sampleTree (by decide)

/-- Counterexample to C3: the supported comparison `"a?" = "x"` compiles to
the SQL text `"a?"=?`, which holds two `?` characters, with one argument. -/
theorem placeholders_counterexample :
    questionMarkTree.supported = true
      ∧ newPredicateSqlizer.ToSql questionMarkTree = .ok ⟨"\"a?\"=?", [.str "x"], none⟩
      ∧ placeholderCount "\"a?\"=?" = 2
      ∧ [Value.str "x"].length = 1 :=
  ⟨by decide, rfl, by decide, rfl⟩

/-- C3 (amended): for a predicate tree built only from supported operators
in which no key path name and no distance-function field contains a `?`,
compilation succeeds and the number of `?` in the SQL text equals the
length of the argument list. -/
theorem placeholders_match_args (n : Node) (h : n.supported = true)
    (hq : n.questionFree = true) :
    ∃ r, newPredicateSqlizer.ToSql n = .ok r ∧ r.err = none
      ∧ placeholderCount r.sql = r.args.length := by
  obtain ⟨sql, h1, _, h3⟩ := ToSql_supported_aux n h
  exact ⟨_, h1, rfl, h3 hq⟩

/-- Witness of C3 (amended) on the sample tree. -/
theorem placeholders_match_args_witness :
    ∃ r, newPredicateSqlizer.ToSql sampleTree = .ok r ∧ r.err = none
      ∧ placeholderCount r.sql = r.args.length :=
  placeholders_match_args sampleTree (by decide) (by decide)
/-! ## Theorems: the column whitelist -/

theorem whitelistKeysLoop_error (S : RecordSchema) :
    ∀ (W : List String) (wl : RecordSchema) (e : SchemaError),
      whitelistKeysLoop S W wl = .error e →
        ∃ k ∈ W, S.lookup k = none ∧ e = .unexpectedKey k
| [], wl, e, h => by simp [whitelistKeysLoop] at h
| key :: keys, wl, e, h => by
    cases hk : S.lookup key with
    | none =>
        simp [whitelistKeysLoop, hk] at h
        exact ⟨key, by simp, hk, h.symm⟩
    | some ft =>
        simp only [whitelistKeysLoop, hk] at h
        obtain ⟨k, hm, h1, h2⟩ := whitelistKeysLoop_error S keys _ e h
        exact ⟨k, List.mem_cons_of_mem _ hm, h1, h2⟩

theorem whitelistKeysLoop_ok (S : RecordSchema) :
    ∀ (W : List String) (wl T : RecordSchema),
      whitelistKeysLoop S W wl = .ok T →
        (∀ k ∈ W, S.lookup k ≠ none) ∧
        ∀ k, T.lookup k = if k ∈ W then S.lookup k else wl.lookup k
| [], wl, T, h => by
    simp only [whitelistKeysLoop, Except.ok.injEq] at h
    subst h
    simp
| key :: keys, wl, T, h => by
    cases hk : S.lookup key with
    | none => simp [whitelistKeysLoop, hk] at h
    | some ft =>
        simp only [whitelistKeysLoop, hk] at h
        obtain ⟨h1, h2⟩ := whitelistKeysLoop_ok S keys _ T h
        refine ⟨?_, fun k => ?_⟩
        · intro k hm
          rcases List.mem_cons.mp hm with rfl | hm
          · simp [hk]
          · exact h1 k hm
        · rw [h2 k]
          by_cases hmem : k ∈ keys
          · simp [hmem]
          · by_cases hkk : k = key
            · subst hkk
              simp [hmem, hk]
            · simp [hmem, hkk, AList.lookup_insert_ne hkk]

theorem reservedKeysLoop_lookup :
    ∀ (es : List (Sigma fun _ : String => FieldType)) (wl : RecordSchema),
      (es.map Sigma.fst).Nodup → ∀ k,
        (reservedKeysLoop es wl).lookup k
          = if HasPrefix k "_" = true ∧ k ∈ es.map Sigma.fst then List.dlookup k es
            else wl.lookup k
| [], wl, _, k => by simp [reservedKeysLoop]
| ⟨a, b⟩ :: es, wl, hnd, k => by
    have hnd2 : (es.map Sigma.fst).Nodup := (List.nodup_cons.mp hnd).2
    have ha : a ∉ es.map Sigma.fst := (List.nodup_cons.mp hnd).1
    have ih := reservedKeysLoop_lookup es
      (if HasPrefix a "_" then wl.insert a b else wl) hnd2 k
    simp only [reservedKeysLoop, List.foldl_cons] at ih ⊢
    rw [ih]
    by_cases hka : k = a
    · subst hka
      by_cases hp : HasPrefix k "_" = true
      · simp [hp, ha, List.dlookup_cons_eq]
      · simp [hp]
    · have hm : k ∈ List.map Sigma.fst (⟨a, b⟩ :: es) ↔ k ∈ List.map Sigma.fst es := by
        simp [hka]
      by_cases hp : HasPrefix a "_" = true
      · simp only [hp, if_true, hm, List.dlookup_cons_ne es ⟨a, b⟩ hka,
          AList.lookup_insert_ne hka]
      · simp only [hp, if_false, hm, List.dlookup_cons_ne es ⟨a, b⟩ hka]
        simp

/-- C4: `whitelistedRecordSchema(S, W)` fails exactly when some key of `W` is
not a field of `S`, and then the error names such a key; otherwise the
returned schema has as fields exactly the keys of `W` and the fields of `S`
whose name starts with `_`, each with the `FieldType` it has in `S`. -/
theorem whitelistedRecordSchema_spec (S : RecordSchema) (W : List String) :
    ((∃ e, whitelistedRecordSchema S W = .error e) ↔ ∃ k ∈ W, S.lookup k = none)
      ∧ (∀ e, whitelistedRecordSchema S W = .error e →
          ∃ k ∈ W, S.lookup k = none ∧ e = .unexpectedKey k)
      ∧ (∀ T, whitelistedRecordSchema S W = .ok T →
          (∀ k, k ∈ T ↔ (k ∈ W ∨ (k ∈ S ∧ HasPrefix k "_" = true)))
            ∧ ∀ k, k ∈ T → T.lookup k = S.lookup k) := by
  have herr : ∀ e, whitelistedRecordSchema S W = .error e →
      ∃ k ∈ W, S.lookup k = none ∧ e = .unexpectedKey k := by
    intro e h
    unfold whitelistedRecordSchema at h
    cases h1 : whitelistKeysLoop S W ∅ with
    | error e1 =>
        simp only [h1, Except.error.injEq] at h
        subst h
        exact whitelistKeysLoop_error S W ∅ e1 h1
    | ok wl => simp [h1] at h
  have hok : ∀ T, whitelistedRecordSchema S W = .ok T →
      (∀ k ∈ W, S.lookup k ≠ none) ∧
        ∀ k, T.lookup k = if k ∈ W ∨ HasPrefix k "_" = true then S.lookup k else none := by
    intro T h
    unfold whitelistedRecordSchema at h
    cases h1 : whitelistKeysLoop S W ∅ with
    | error e1 => simp [h1] at h
    | ok wl =>
        simp only [h1, Except.ok.injEq] at h
        subst h
        obtain ⟨h2, h3⟩ := whitelistKeysLoop_ok S W ∅ wl h1
        refine ⟨h2, fun k => ?_⟩
        rw [reservedKeysLoop_lookup S.entries wl S.nodupKeys k, h3 k]
        have hS : List.dlookup k S.entries = S.lookup k := rfl
        by_cases hw : k ∈ W
        · simp [hw, hS]
        · by_cases hp : HasPrefix k "_" = true
          · by_cases hm : k ∈ List.map Sigma.fst S.entries
            · simp [hw, hp, hm, hS]
            · have : S.lookup k = none := AList.lookup_eq_none.mpr hm
              simp [hw, hp, hm, this]
          · simp [hw, hp]
  refine ⟨⟨fun ⟨e, h⟩ => ?_, fun ⟨k, hk, hn⟩ => ?_⟩, herr, fun T h => ?_⟩
  · obtain ⟨k, hk, hn, _⟩ := herr e h
    exact ⟨k, hk, hn⟩
  · cases h : whitelistedRecordSchema S W with
    | error e => exact ⟨e, rfl⟩
    | ok T => exact absurd hn ((hok T h).1 k hk)
  · obtain ⟨h1, h2⟩ := hok T h
    have hmem : ∀ k, k ∈ T ↔ (k ∈ W ∨ (k ∈ S ∧ HasPrefix k "_" = true)) := by
      intro k
      rw [← AList.lookup_isSome, h2 k]
      by_cases hw : k ∈ W
      · have := h1 k hw
        simp [hw, Option.isSome_iff_ne_none, this]
      · by_cases hp : HasPrefix k "_" = true
        · simp [hw, hp, AList.lookup_isSome]
        · simp [hw, hp]
    refine ⟨hmem, fun k hk => ?_⟩
    rw [h2 k]
    rcases (hmem k).mp hk with hw | ⟨_, hp⟩
    · simp [hw]
    · simp [hp]

/-- Instances of C4 on the schema of `sampleScanner`: whitelisting `title`
keeps `title` and the reserved column `_id`; whitelisting an unknown key
fails naming it. -/
theorem whitelistedRecordSchema_example :
    (∃ T, whitelistedRecordSchema sampleScanner.typemap ["title"] = .ok T
        ∧ T.keys = ["_id", "title"])
      ∧ whitelistedRecordSchema sampleScanner.typemap ["title", "nosuch"]
          = .error (.unexpectedKey "nosuch") :=
  ⟨⟨_, rfl, rfl⟩, rfl⟩

/-! ## Theorems: Delete and Save -/

/-- C5: when the delete statement executes without error and reports `n ≥ 0`
affected rows, `Delete` returns `ErrRecordNotFound` if `n = 0`, returns nil
exactly when `n = 1`, and returns an error other than `ErrRecordNotFound`
if `n > 1`; when execution fails with the undefined-table error it returns
`ErrRecordNotFound`, and every other execution error gives a non-nil error. -/
theorem Delete_row_count (db : database) (execWith : DeleteBuilder → ExecOutcome)
    (id : RecordID) :
    (∀ n : Int, 0 ≤ n → execWith (db.deleteBuilder id) = .ok ⟨n, none⟩ →
        (n = 0 → db.Delete execWith id = some .recordNotFound)
          ∧ (db.Delete execWith id = none ↔ n = 1)
          ∧ (1 < n → ∃ e, db.Delete execWith id = some e ∧ e ≠ .recordNotFound))
      ∧ (execWith (db.deleteBuilder id) = .error .undefinedTable →
          db.Delete execWith id = some .recordNotFound)
      ∧ (∀ err, err ≠ .undefinedTable → execWith (db.deleteBuilder id) = .error err →
          db.Delete execWith id = some (.deleteFailed id)) := by
  refine ⟨fun n hn h => ?_, fun h => ?_, fun err hne h => ?_⟩
  · simp only [database.Delete, h]
    refine ⟨fun h0 => by simp [h0], ?_, fun h1 => ?_⟩
    · by_cases h0 : n = 0
      · simp [h0]
      · by_cases h1 : n > 1
        · simp [h0, h1]
          omega
        · simp [h0, h1]
          omega
    · have h0 : n ≠ 0 := by omega
      exact ⟨.unexpectedRowsDeleted id n, by simp [h0, h1], by simp⟩
  · simp [database.Delete, h, isUndefinedTable]
  · cases err <;> simp_all [database.Delete, isUndefinedTable]

/-- Instances of C5: three, zero and one affected rows. -/
theorem Delete_row_count_witness :
    sampleDb.Delete (fun _ => .ok ⟨3, none⟩) ⟨"note", "n1"⟩
        = some (.unexpectedRowsDeleted ⟨"note", "n1"⟩ 3)
      ∧ sampleDb.Delete (fun _ => .ok ⟨0, none⟩) ⟨"note", "n1"⟩ = some .recordNotFound
      ∧ sampleDb.Delete (fun _ => .ok ⟨1, none⟩) ⟨"note", "n1"⟩ = none :=
  ⟨by decide,
   ((Delete_row_count sampleDb (fun _ => .ok ⟨0, none⟩) ⟨"note", "n1"⟩).1 0
      (by decide) rfl).1 rfl,
   by decide⟩

/-- C6: `Save` rejects a record whose `ID.Key`, else `ID.Type`, else
`OwnerID` is empty with the validation error of that field, executing no
statement and leaving the record unchanged; otherwise it executes the
upsert, returns its error, and stamps `DatabaseID` with the partition
identifier exactly when the upsert succeeds. -/
theorem Save_validation (db : database) (execWith : UpsertBuilder → ExecOutcome)
    (record : Record) :
    (record.ID.Key = "" → db.Save execWith record = ⟨some .emptyRecordID, record, []⟩)
      ∧ (record.ID.Key ≠ "" → record.ID.Typ = "" →
          db.Save execWith record = ⟨some (.emptyRecordType record.ID.Key), record, []⟩)
      ∧ (record.ID.Key ≠ "" → record.ID.Typ ≠ "" → record.OwnerID = "" →
          db.Save execWith record = ⟨some (.emptyOwnerID record.ID.Key), record, []⟩)
      ∧ (record.ID.Key ≠ "" → record.ID.Typ ≠ "" → record.OwnerID ≠ "" →
          (∀ err, execWith (db.saveUpsert record) = .error err →
              db.Save execWith record = ⟨some (.driver err), record, [db.saveUpsert record]⟩)
            ∧ (∀ res, execWith (db.saveUpsert record) = .ok res →
              db.Save execWith record
                = ⟨none, { record with DatabaseID := db.userID }, [db.saveUpsert record]⟩)) := by
  refine ⟨fun h => ?_, fun h1 h2 => ?_, fun h1 h2 h3 => ?_, fun h1 h2 h3 => ⟨fun e h => ?_,
    fun r h => ?_⟩⟩ <;> simp [database.Save, *]

/-- Instances of C6: a record without key is rejected and not stamped; a
valid record whose upsert succeeds is stamped with the partition. -/
theorem Save_validation_witness :
    (sampleDb.Save (fun _ => .ok ⟨1, none⟩) { sampleRecord with ID := ⟨"note", ""⟩ }).err
        = some .emptyRecordID
      ∧ (sampleDb.Save (fun _ => .ok ⟨1, none⟩) sampleRecord).record.DatabaseID = "u1"
      ∧ (sampleDb.Save (fun _ => .ok ⟨1, none⟩) sampleRecord).err = none :=
  ⟨by rw [(Save_validation sampleDb _ _).1 rfl], by decide, by decide⟩

/-! ## Theorems: the schema migrator -/

theorem updatingSchemaLoop_error (R : RecordSchema) :
    ∀ (es : List (Sigma fun _ : String => FieldType)) (u : RecordSchema) (e : ExtendError),
      updatingSchemaLoop R es u = .error e →
        ∃ k r d, e = .conflictingSchema r d ∧ (⟨k, d⟩ : Sigma fun _ : String => FieldType) ∈ es
          ∧ R.lookup k = some r ∧ r.Typ ≠ d.Typ
| [], u, e, h => by simp [updatingSchemaLoop] at h
| ⟨key, schema⟩ :: rest, u, e, h => by
    cases hk : R.lookup key with
    | none =>
        simp only [updatingSchemaLoop, hk] at h
        obtain ⟨k, r, d, h1, h2, h3⟩ := updatingSchemaLoop_error R rest _ e h
        exact ⟨k, r, d, h1, List.mem_cons_of_mem _ h2, h3⟩
    | some remoteSchema =>
        simp only [updatingSchemaLoop, hk] at h
        by_cases hc : remoteSchema.Typ = schema.Typ
        · simp only [hc, ne_eq, not_true_eq_false, if_false] at h
          obtain ⟨k, r, d, h1, h2, h3⟩ := updatingSchemaLoop_error R rest _ e h
          exact ⟨k, r, d, h1, List.mem_cons_of_mem _ h2, h3⟩
        · simp only [ne_eq, hc, not_false_eq_true, if_true, Except.error.injEq] at h
          exact ⟨key, remoteSchema, schema, h.symm, List.mem_cons_self _ _, hk, hc⟩

theorem updatingSchemaLoop_ok (R : RecordSchema) :
    ∀ (es : List (Sigma fun _ : String => FieldType)) (u u1 : RecordSchema),
      updatingSchemaLoop R es u = .ok u1 →
        ∀ k r d, (⟨k, d⟩ : Sigma fun _ : String => FieldType) ∈ es → R.lookup k = some r →
          r.Typ = d.Typ
| [], _, _, _ => by simp
| ⟨key, schema⟩ :: rest, u, u1, h => by
    intro k r d hm hr
    cases hk : R.lookup key with
    | none =>
        simp only [updatingSchemaLoop, hk] at h
        rcases List.mem_cons.mp hm with heq | hm
        · cases heq
          rw [hk] at hr
          cases hr
        · exact updatingSchemaLoop_ok R rest _ u1 h k r d hm hr
    | some remoteSchema =>
        simp only [updatingSchemaLoop, hk] at h
        by_cases hc : remoteSchema.Typ = schema.Typ
        · simp only [hc, ne_eq, not_true_eq_false, if_false] at h
          rcases List.mem_cons.mp hm with heq | hm
          · cases heq
            rw [hk] at hr
            cases hr
            exact hc
          · exact updatingSchemaLoop_ok R rest _ u1 h k r d hm hr
        · simp [hc] at h

theorem extendColumns_conflict (s : Store) (executed : List Stmt) (T : String)
    (R D : RecordSchema) :
    ((∃ o r d, extendColumns s executed T R D = .ok o ∧ o.err = some (.conflictingSchema r d))
        ↔ ∃ k r d, R.lookup k = some r ∧ D.lookup k = some d ∧ r.Typ ≠ d.Typ)
      ∧ ∀ o r d, extendColumns s executed T R D = .ok o →
          o.err = some (.conflictingSchema r d) → o.executed = executed ∧ o.store = s := by
  unfold extendColumns
  cases hl : updatingSchemaLoop R D.entries ∅ with
  | error e =>
      obtain ⟨k, r, d, h1, h2, h3, h4⟩ := updatingSchemaLoop_error R _ _ e hl
      subst h1
      refine ⟨⟨fun _ => ⟨k, r, d, h3, AList.mem_lookup_iff.mpr h2, h4⟩,
        fun _ => ⟨_, r, d, rfl, rfl⟩⟩, ?_⟩
      intro o r1 d1 ho _
      simp only [Except.ok.injEq] at ho
      subst ho
      exact ⟨rfl, rfl⟩
  | ok u =>
      have hno : ¬ ∃ k r d, R.lookup k = some r ∧ D.lookup k = some d ∧ r.Typ ≠ d.Typ := by
        rintro ⟨k, r, d, h1, h2, h3⟩
        exact h3 (updatingSchemaLoop_ok R _ _ u hl k r d (AList.mem_lookup_iff.mp h2) h1)
      have hnc : ∀ o r d,
          (if u.entries.length > 0 then
              match addColumnClauses u.entries with
              | .error msg => .error msg
              | .ok clauses =>
                  match s.exec (.alterTable T clauses) with
                  | .error err =>
                      .ok ⟨some (.alterTableFailed err), s, executed ++ [.alterTable T clauses]⟩
                  | .ok s1 => .ok ⟨none, s1, executed ++ [.alterTable T clauses]⟩
            else .ok ⟨none, s, executed⟩ : Except String ExtendOutcome) = .ok o →
          o.err ≠ some (.conflictingSchema r d) := by
        intro o r d ho
        split at ho
        · split at ho
          · cases ho
          · split at ho <;> (simp only [Except.ok.injEq] at ho; subst ho; simp)
        · simp only [Except.ok.injEq] at ho
          subst ho
          simp
      refine ⟨⟨fun ⟨o, r, d, h1, h2⟩ => absurd h2 (hnc o r d h1), fun h => absurd h hno⟩, ?_⟩
      intro o r d h1 h2
      exact absurd h2 (hnc o r d h1)

/-- Counterexample to C7: the remote field `author` references `user`, the
desired field `author` references `group`, the two `FieldType`s differ in the
target record type, and `Extend` returns no error. -/
theorem Extend_conflict_counterexample :
    (∃ R, remoteColumnTypes referenceStore "note" = .ok R ∧ R.entries ≠ []
        ∧ R.lookup "author" = some ⟨.TypeReference, "user", none⟩)
      ∧ retargetedSchema.lookup "author" = some ⟨.TypeReference, "group", none⟩
      ∧ (⟨.TypeReference, "user", none⟩ : FieldType) ≠ ⟨.TypeReference, "group", none⟩
      ∧ Extend referenceStore "note" retargetedSchema = .ok ⟨none, referenceStore, []⟩ :=
  ⟨⟨_, rfl, fun h => absurd (congrArg List.length h) (by decide), rfl⟩, rfl, by simp, rfl⟩

/-- C7 (amended): for a record type whose resolved remote schema `R` is not
empty, `Extend` fails with a schema-conflict error exactly when some field
name is present in both `R` and the desired schema with different data
types, and whenever it fails this way it has executed no statement and the
store is unchanged. -/
theorem Extend_conflict (s : Store) (T : String) (D R : RecordSchema)
    (hR : remoteColumnTypes s T = .ok R) (hne : R.entries ≠ []) :
    ((∃ o r d, Extend s T D = .ok o ∧ o.err = some (.conflictingSchema r d))
        ↔ ∃ k r d, R.lookup k = some r ∧ D.lookup k = some d ∧ r.Typ ≠ d.Typ)
      ∧ ∀ o r d, Extend s T D = .ok o → o.err = some (.conflictingSchema r d) →
          o.executed = [] ∧ o.store = s := by
  have hlen : ¬ R.entries.length = 0 := by
    simpa [List.length_eq_zero] using hne
  have hE : Extend s T D = extendColumns s [] T R D := by
    simp [Extend, hR, hlen]
  rw [hE]
  exact extendColumns_conflict s [] T R D

/-- Witness of C7 (amended): the remote field `author` is a reference, the
desired one a string; `Extend` reports the conflict and changes nothing. -/
theorem Extend_conflict_witness :
    ∃ o r d, Extend referenceStore "note" stringAuthorSchema = .ok o
      ∧ o.err = some (.conflictingSchema r d) ∧ o.executed = [] ∧ o.store = referenceStore := by
  have h := Extend_conflict referenceStore "note" stringAuthorSchema _ rfl
    (fun h => absurd (congrArg List.length h) (by decide))
  obtain ⟨o, r, d, h1, h2⟩ := h.1.mpr ⟨"author", _, _, rfl, rfl, by decide⟩
  exact ⟨o, r, d, h1, h2, h.2 o r d h1 h2⟩

theorem lastRow_append (k : String) (a b : List (String × String)) :
    lastRow k (a ++ b) = match lastRow k b with
      | some v => some v
      | none => lastRow k a := by
  induction a with
  | nil => cases h : lastRow k b <;> simp [lastRow, h]
  | cons x xs ih =>
      obtain ⟨k1, v⟩ := x
      rw [List.cons_append]
      simp only [lastRow]
      rw [ih]
      cases h : lastRow k b <;> simp

theorem lastRow_eq_none (k : String) (rows : List (String × String)) :
    lastRow k rows = none ↔ k ∉ rows.map Prod.fst := by
  induction rows with
  | nil => simp [lastRow]
  | cons x xs ih =>
      obtain ⟨k1, v⟩ := x
      simp only [lastRow, List.map_cons, List.mem_cons, not_or]
      cases h : lastRow k xs with
      | some v1 =>
          have : ¬ (k ∉ xs.map Prod.fst) := fun hn => by
            rw [ih.mpr hn] at h
            cases h
          constructor
          · intro h1
            cases h1
          · intro h1
            exact absurd h1.2 this
      | none =>
          have hk := ih.mp h
          by_cases hkk : k1 = k
          · simp [hkk]
          · have : ¬ k = k1 := fun h => hkk h.symm
            simp [hkk, this, hk]

theorem lastRow_of_nodup (k v : String) (rows : List (String × String))
    (hnd : (rows.map Prod.fst).Nodup) (hm : (k, v) ∈ rows) : lastRow k rows = some v := by
  induction rows with
  | nil => cases hm
  | cons x xs ih =>
      obtain ⟨k1, v1⟩ := x
      simp only [List.map_cons, List.nodup_cons] at hnd
      rcases List.mem_cons.mp hm with heq | hm
      · cases heq
        have : lastRow k xs = none := (lastRow_eq_none k xs).mpr hnd.1
        simp [lastRow, this]
      · have := ih hnd.2 hm
        simp [lastRow, this]

theorem columnTypesLoop_lookup :
    ∀ (rows : List (String × String)) (tm tm1 : RecordSchema),
      columnTypesLoop rows tm = .ok tm1 → ∀ k,
        tm1.lookup k = match lastRow k rows with
          | some pqType => nativeFieldType k pqType
          | none => tm.lookup k
| [], tm, tm1, h, k => by
    simp only [columnTypesLoop, Except.ok.injEq] at h
    subst h
    simp [lastRow]
| (c, ty) :: rows, tm, tm1, h, k => by
    cases hn : nativeFieldType c ty with
    | none => simp [columnTypesLoop, hn] at h
    | some ft =>
        simp only [columnTypesLoop, hn] at h
        rw [columnTypesLoop_lookup rows _ tm1 h k]
        cases hl : lastRow k rows with
        | some v => simp [lastRow, hl]
        | none =>
            by_cases hck : c = k
            · subst hck
              simp [lastRow, hl, hn]
            · have : k ≠ c := fun h => hck h.symm
              simp [lastRow, hl, hck, AList.lookup_insert_ne this]

theorem columnTypesLoop_ok :
    ∀ (rows : List (String × String)) (tm : RecordSchema),
      (∀ row ∈ rows, nativeFieldType row.1 row.2 ≠ none) →
        ∃ tm1, columnTypesLoop rows tm = .ok tm1
| [], tm, _ => ⟨tm, rfl⟩
| (c, ty) :: rows, tm, h => by
    cases hn : nativeFieldType c ty with
    | none => exact absurd hn (h (c, ty) (List.mem_cons_self _ _))
    | some ft =>
        simp only [columnTypesLoop, hn]
        exact columnTypesLoop_ok rows _ (fun row hr => h row (List.mem_cons_of_mem _ hr))

theorem columnTypesLoop_rows :
    ∀ (rows : List (String × String)) (tm tm1 : RecordSchema),
      columnTypesLoop rows tm = .ok tm1 →
        ∀ row ∈ rows, nativeFieldType row.1 row.2 ≠ none
| [], _, _, _ => by simp
| (c, ty) :: rows, tm, tm1, h => by
    cases hn : nativeFieldType c ty with
    | none => simp [columnTypesLoop, hn] at h
    | some ft =>
        simp only [columnTypesLoop, hn] at h
        intro row hr
        rcases List.mem_cons.mp hr with heq | hr
        · subst heq
          simp [hn]
        · exact columnTypesLoop_rows rows _ tm1 h row hr

theorem foreignKeysLoop_lookup :
    ∀ (refs : List (String × String)) (tm : RecordSchema) (k : String),
      (foreignKeysLoop refs tm).lookup k = match lastRow k refs with
        | some referencedTable => some (foreignKeyFieldType referencedTable)
        | none => tm.lookup k
| [], tm, k => by simp [foreignKeysLoop, lastRow]
| (c, ref) :: refs, tm, k => by
    have ih := foreignKeysLoop_lookup refs (tm.insert c (foreignKeyFieldType ref)) k
    simp only [foreignKeysLoop, List.foldl_cons] at ih ⊢
    rw [ih]
    cases hl : lastRow k refs with
    | some v => simp [lastRow, hl]
    | none =>
        by_cases hck : c = k
        · subst hck
          simp [lastRow, hl]
        · have : k ≠ c := fun h => hck h.symm
          simp [lastRow, hl, hck, AList.lookup_insert_ne this]

theorem resolveTable_lookup (t : Table) (R : RecordSchema) (h : resolveTable t = .ok R)
    (k : String) : R.lookup k = resolveLookup t k := by
  unfold resolveTable at h
  cases hc : columnTypesLoop t.columns ∅ with
  | error e => simp [hc] at h
  | ok tm =>
      simp only [hc, Except.ok.injEq] at h
      subst h
      rw [foreignKeysLoop_lookup, resolveLookup]
      cases lastRow k t.foreignKeys with
      | some v => rfl
      | none =>
          simp only [columnTypesLoop_lookup _ _ _ hc k]
          cases lastRow k t.columns <;> simp

theorem resolveTable_ok (t : Table)
    (h : ∀ row ∈ t.columns, nativeFieldType row.1 row.2 ≠ none) :
    ∃ R, resolveTable t = .ok R := by
  obtain ⟨tm, htm⟩ := columnTypesLoop_ok t.columns ∅ h
  exact ⟨foreignKeysLoop t.foreignKeys tm, by simp [resolveTable, htm]⟩

theorem resolveTable_rows (t : Table) (R : RecordSchema) (h : resolveTable t = .ok R) :
    ∀ row ∈ t.columns, nativeFieldType row.1 row.2 ≠ none := by
  unfold resolveTable at h
  cases hc : columnTypesLoop t.columns ∅ with
  | error e => simp [hc] at h
  | ok tm => exact columnTypesLoop_rows _ _ _ hc

theorem updatingSchemaLoop_keys (R : RecordSchema) :
    ∀ (es : List (Sigma fun _ : String => FieldType)) (u u1 : RecordSchema),
      updatingSchemaLoop R es u = .ok u1 →
        ∀ k, u1.lookup k ≠ none → u.lookup k ≠ none ∨ R.lookup k = none
| [], u, u1, h, k, hk => by
    simp only [updatingSchemaLoop, Except.ok.injEq] at h
    subst h
    exact Or.inl hk
| ⟨key, schema⟩ :: rest, u, u1, h, k, hk => by
    cases hr : R.lookup key with
    | none =>
        simp only [updatingSchemaLoop, hr] at h
        rcases updatingSchemaLoop_keys R rest _ u1 h k hk with h1 | h1
        · by_cases hkk : k = key
          · subst hkk
            exact Or.inr hr
          · rw [AList.lookup_insert_ne hkk] at h1
            exact Or.inl h1
        · exact Or.inr h1
    | some remoteSchema =>
        simp only [updatingSchemaLoop, hr] at h
        by_cases hc : remoteSchema.Typ = schema.Typ
        · simp only [hc, ne_eq, not_true_eq_false, if_false] at h
          exact updatingSchemaLoop_keys R rest _ u1 h k hk
        · simp [hc] at h

theorem updatingSchemaLoop_other (R : RecordSchema) :
    ∀ (es : List (Sigma fun _ : String => FieldType)) (u u1 : RecordSchema),
      updatingSchemaLoop R es u = .ok u1 →
        ∀ k, k ∉ es.map Sigma.fst → u1.lookup k = u.lookup k
| [], u, u1, h, k, _ => by
    simp only [updatingSchemaLoop, Except.ok.injEq] at h
    subst h
    rfl
| ⟨key, schema⟩ :: rest, u, u1, h, k, hk => by
    simp only [List.map_cons, List.mem_cons, not_or] at hk
    cases hr : R.lookup key with
    | none =>
        simp only [updatingSchemaLoop, hr] at h
        rw [updatingSchemaLoop_other R rest _ u1 h k hk.2, AList.lookup_insert_ne hk.1]
    | some remoteSchema =>
        simp only [updatingSchemaLoop, hr] at h
        by_cases hc : remoteSchema.Typ = schema.Typ
        · simp only [hc, ne_eq, not_true_eq_false, if_false] at h
          exact updatingSchemaLoop_other R rest _ u1 h k hk.2
        · simp [hc] at h

theorem updatingSchemaLoop_new (R : RecordSchema) :
    ∀ (es : List (Sigma fun _ : String => FieldType)) (u u1 : RecordSchema),
      updatingSchemaLoop R es u = .ok u1 → (es.map Sigma.fst).Nodup →
        ∀ k d, (⟨k, d⟩ : Sigma fun _ : String => FieldType) ∈ es → R.lookup k = none →
          u1.lookup k = some d
| [], _, _, _, _, _, _, hm, _ => by cases hm
| ⟨key, schema⟩ :: rest, u, u1, h, hnd, k, d, hm, hk => by
    simp only [List.map_cons, List.nodup_cons] at hnd
    cases hr : R.lookup key with
    | none =>
        simp only [updatingSchemaLoop, hr] at h
        rcases List.mem_cons.mp hm with heq | hm
        · cases heq
          rw [updatingSchemaLoop_other R rest _ u1 h key hnd.1, AList.lookup_insert]
        · exact updatingSchemaLoop_new R rest _ u1 h hnd.2 k d hm hk
    | some remoteSchema =>
        simp only [updatingSchemaLoop, hr] at h
        by_cases hc : remoteSchema.Typ = schema.Typ
        · simp only [hc, ne_eq, not_true_eq_false, if_false] at h
          rcases List.mem_cons.mp hm with heq | hm
          · cases heq
            rw [hr] at hk
            cases hk
          · exact updatingSchemaLoop_new R rest _ u1 h hnd.2 k d hm hk
        · simp [hc] at h

theorem updatingSchemaLoop_noop (R : RecordSchema) :
    ∀ (es : List (Sigma fun _ : String => FieldType)) (u : RecordSchema),
      (∀ k d, (⟨k, d⟩ : Sigma fun _ : String => FieldType) ∈ es →
          ∃ r, R.lookup k = some r ∧ r.Typ = d.Typ) →
        updatingSchemaLoop R es u = .ok u
| [], _, _ => rfl
| ⟨key, schema⟩ :: rest, u, h => by
    obtain ⟨r, hr, ht⟩ := h key schema (List.mem_cons_self _ _)
    simp only [updatingSchemaLoop, hr, ht, ne_eq, not_true_eq_false, if_false]
    exact updatingSchemaLoop_noop R rest u (fun k d hm => h k d (List.mem_cons_of_mem _ hm))

theorem quotedName_of_no_nul {k : String} (h : Char.ofNat 0 ∉ k.data) : quotedName k = k := by
  have ht : k.data.takeWhile (fun c => c != Char.ofNat 0) = k.data := by
    rw [List.takeWhile_eq_self_iff]
    intro c hc
    simp only [bne_iff_ne, ne_eq]
    exact fun heq => h (heq ▸ hc)
  simp only [quotedName, ht]

theorem QuoteIdentifier_quotedName (name : String) :
    QuoteIdentifier (quotedName name) = QuoteIdentifier name := by
  have ht : (name.data.takeWhile (fun c => c != Char.ofNat 0)).takeWhile
      (fun c => c != Char.ofNat 0) = name.data.takeWhile (fun c => c != Char.ofNat 0) := by
    rw [List.takeWhile_eq_self_iff]
    intro c hc
    have hp := List.mem_takeWhile_imp hc
    exact hp
  simp only [QuoteIdentifier, quotedName, ht]

theorem addColumnClause_column {k : String} {d : FieldType} {c : AddColumn}
    (h : addColumnClause k d = .ok c) : c.column = quotedName k := by
  unfold addColumnClause at h
  cases hp : pqDataType d.Typ with
  | error msg => simp [hp] at h
  | ok ty =>
      simp only [hp] at h
      split at h <;> (simp only [Except.ok.injEq] at h; subst h; rfl)

theorem addColumnClauses_spec :
    ∀ (es : List (Sigma fun _ : String => FieldType)) (cl : List AddColumn),
      addColumnClauses es = .ok cl →
        cl.map AddColumn.column = es.map (fun e => quotedName e.1)
          ∧ (∀ k d, (⟨k, d⟩ : Sigma fun _ : String => FieldType) ∈ es →
              ∃ c ∈ cl, addColumnClause k d = .ok c)
          ∧ (∀ c ∈ cl, ∃ k d, (⟨k, d⟩ : Sigma fun _ : String => FieldType) ∈ es
              ∧ addColumnClause k d = .ok c)
| [], cl, h => by
    simp only [addColumnClauses, Except.ok.injEq] at h
    subst h
    simp
| ⟨column, schema⟩ :: rest, cl, h => by
    cases hc : addColumnClause column schema with
    | error msg => simp [addColumnClauses, hc] at h
    | ok clause =>
        cases hr : addColumnClauses rest with
        | error msg => simp [addColumnClauses, hc, hr] at h
        | ok clauses =>
            simp only [addColumnClauses, hc, hr, Except.ok.injEq] at h
            subst h
            obtain ⟨h1, h2, h3⟩ := addColumnClauses_spec rest clauses hr
            refine ⟨by simp [h1, addColumnClause_column hc], ?_, ?_⟩
            · intro k d hm
              rcases List.mem_cons.mp hm with heq | hm
              · cases heq
                exact ⟨clause, List.mem_cons_self _ _, hc⟩
              · obtain ⟨c, hcm, hcc⟩ := h2 k d hm
                exact ⟨c, List.mem_cons_of_mem _ hcm, hcc⟩
            · intro c hcm
              rcases List.mem_cons.mp hcm with heq | hcm
              · subst heq
                exact ⟨column, schema, List.mem_cons_self _ _, hc⟩
              · obtain ⟨k, d, hm, hcc⟩ := h3 c hcm
                exact ⟨k, d, List.mem_cons_of_mem _ hm, hcc⟩

theorem nativeFieldType_text (k : String) :
    nativeFieldType k "text" = some ⟨.TypeString, "", none⟩ := rfl

theorem nativeFieldType_number (k : String) :
    nativeFieldType k "double precision" = some ⟨.TypeNumber, "", none⟩ := rfl

theorem nativeFieldType_timestamp (k : String) :
    nativeFieldType k "timestamp without time zone" = some ⟨.TypeDateTime, "", none⟩ := rfl

theorem nativeFieldType_boolean (k : String) :
    nativeFieldType k "boolean" = some ⟨.TypeBoolean, "", none⟩ := rfl

theorem nativeFieldType_jsonb (k : String) :
    nativeFieldType k "jsonb"
      = if k = "_access" then some ⟨.TypeACL, "", none⟩ else some ⟨.TypeJSON, "", none⟩ := rfl

theorem nativeFieldType_location (k : String) :
    nativeFieldType k "geometry(Point)" = some ⟨.TypeLocation, "", none⟩ := rfl

theorem addColumnClause_native {k : String} {d : FieldType} {c : AddColumn}
    (h : addColumnClause k d = .ok c) : nativeFieldType c.column c.pqType ≠ none := by
  obtain ⟨ty, rt, ex⟩ := d
  cases ty <;> simp only [addColumnClause, pqDataType, reduceCtorEq, Except.ok.injEq] at h <;>
    (subst h
     simp only [TypeString, TypeNumber, TypeBoolean, TypeJSON, TypeTimestamp, TypeLocation,
       nativeFieldType_text, nativeFieldType_number, nativeFieldType_timestamp,
       nativeFieldType_boolean, nativeFieldType_jsonb, nativeFieldType_location]
     try split
     all_goals simp)

theorem addColumnClause_readback {k : String} {d : FieldType} {c : AddColumn}
    (h : addColumnClause k d = .ok c) (hk : c.column ≠ "_access")
    (hr : c.foreignKey ≠ some ("_asset", "_id")) :
    ∃ r, (match c.foreignKey with
          | some fk => some (foreignKeyFieldType fk.1)
          | none => nativeFieldType c.column c.pqType) = some r ∧ r.Typ = d.Typ := by
  obtain ⟨ty, rt, ex⟩ := d
  cases ty <;> simp only [addColumnClause, pqDataType, reduceCtorEq, Except.ok.injEq] at h <;>
    (subst h
     simp only [TypeString, TypeNumber, TypeBoolean, TypeJSON, TypeTimestamp, TypeLocation,
       nativeFieldType_text, nativeFieldType_number, nativeFieldType_timestamp,
       nativeFieldType_boolean, nativeFieldType_jsonb, nativeFieldType_location]
     simp_all [foreignKeyFieldType])

theorem addedColumns_names (cl : List AddColumn) :
    (addedColumns cl).map Prod.fst = cl.map AddColumn.column := by
  simp [addedColumns, Function.comp_def]

theorem addedForeignKeys_names (cl : List AddColumn) (k : String)
    (h : k ∈ (addedForeignKeys cl).map Prod.fst) : k ∈ cl.map AddColumn.column := by
  simp only [addedForeignKeys, List.mem_map, List.mem_filterMap] at h ⊢
  obtain ⟨row, ⟨c, hc, hrow⟩, hk⟩ := h
  cases hf : c.foreignKey with
  | none => simp [hf] at hrow
  | some fk =>
      simp only [hf, Option.map_some', Option.some.injEq] at hrow
      subst hrow
      exact ⟨c, hc, hk⟩

theorem lastRow_addedColumns (cl : List AddColumn) (hnd : (cl.map AddColumn.column).Nodup)
    (c : AddColumn) (hc : c ∈ cl) : lastRow c.column (addedColumns cl) = some c.pqType := by
  apply lastRow_of_nodup
  · rw [addedColumns_names]
    exact hnd
  · exact List.mem_map.mpr ⟨c, hc, rfl⟩

theorem lastRow_addedForeignKeys :
    ∀ (cl : List AddColumn), (cl.map AddColumn.column).Nodup → ∀ c ∈ cl,
      lastRow c.column (addedForeignKeys cl) = c.foreignKey.map Prod.fst
| [], _, c, hc => by cases hc
| x :: xs, hnd, c, hc => by
    simp only [List.map_cons, List.nodup_cons] at hnd
    have hx : lastRow x.column (addedForeignKeys xs) = none :=
      (lastRow_eq_none _ _).mpr (fun h => hnd.1 (addedForeignKeys_names xs _ h))
    rcases List.mem_cons.mp hc with heq | hc
    · subst heq
      cases hf : c.foreignKey with
      | none => simpa [addedForeignKeys, hf] using hx
      | some fk =>
          have hx2 : lastRow c.column (List.filterMap
              (fun c => c.foreignKey.map (fun fk => (c.column, fk.1))) xs) = none := hx
          simp [addedForeignKeys, hf, lastRow, hx2]
    · have ih := lastRow_addedForeignKeys xs hnd.2 c hc
      have hne : x.column ≠ c.column := fun h =>
        hnd.1 (h ▸ List.mem_map.mpr ⟨c, hc, rfl⟩)
      cases hf : x.foreignKey with
      | none => simpa [addedForeignKeys, hf] using ih
      | some fk =>
          have ih2 : lastRow c.column (List.filterMap
              (fun c => c.foreignKey.map (fun fk => (c.column, fk.1))) xs)
              = c.foreignKey.map Prod.fst := ih
          simp only [addedForeignKeys, List.filterMap_cons, hf, Option.map_some', lastRow, ih2]
          cases c.foreignKey <;> simp [hne]

theorem resolveLookup_added (t0 : Table) (cl : List AddColumn)
    (hnd : (cl.map AddColumn.column).Nodup)
    (hfk : ∀ fk ∈ t0.foreignKeys, fk.1 ∈ t0.columns.map Prod.fst)
    (c : AddColumn) (hc : c ∈ cl) (hnew : c.column ∉ t0.columns.map Prod.fst) :
    resolveLookup ⟨t0.columns ++ addedColumns cl, t0.foreignKeys ++ addedForeignKeys cl⟩
        c.column
      = match c.foreignKey with
        | some fk => some (foreignKeyFieldType fk.1)
        | none => nativeFieldType c.column c.pqType := by
  have h1 : lastRow c.column t0.foreignKeys = none :=
    (lastRow_eq_none _ _).mpr (fun h => by
      obtain ⟨fk, hfkm, hfke⟩ := List.mem_map.mp h
      exact hnew (hfke ▸ hfk fk hfkm))
  simp only [resolveLookup, lastRow_append, lastRow_addedForeignKeys cl hnd c hc,
    lastRow_addedColumns cl hnd c hc, h1]
  cases c.foreignKey <;> simp

theorem resolveLookup_old (t0 : Table) (cl : List AddColumn) (k : String)
    (hk : k ∉ cl.map AddColumn.column) :
    resolveLookup ⟨t0.columns ++ addedColumns cl, t0.foreignKeys ++ addedForeignKeys cl⟩ k
      = resolveLookup t0 k := by
  have h1 : lastRow k (addedForeignKeys cl) = none :=
    (lastRow_eq_none _ _).mpr (fun h => hk (addedForeignKeys_names cl k h))
  have h2 : lastRow k (addedColumns cl) = none :=
    (lastRow_eq_none _ _).mpr (fun h => hk (addedColumns_names cl ▸ h))
  simp only [resolveLookup, lastRow_append, h1, h2]

theorem lastRow_mem (k v : String) (rows : List (String × String))
    (h : lastRow k rows = some v) : (k, v) ∈ rows := by
  induction rows with
  | nil => simp [lastRow] at h
  | cons x xs ih =>
      obtain ⟨k1, v1⟩ := x
      simp only [lastRow] at h
      cases hl : lastRow k xs with
      | some v2 =>
          simp only [hl, Option.some.injEq] at h
          subst h
          exact List.mem_cons_of_mem _ (ih hl)
      | none =>
          simp only [hl] at h
          by_cases hk : k1 = k
          · simp only [hk, if_true, Option.some.injEq] at h
            subst h
            subst hk
            exact List.mem_cons_self _ _
          · simp [hk] at h

theorem resolveTable_column (t : Table) (R : RecordSchema) (h : resolveTable t = .ok R)
    (k : String) (hk : k ∈ t.columns.map Prod.fst) : R.lookup k ≠ none := by
  rw [resolveTable_lookup t R h k, resolveLookup]
  cases lastRow k t.foreignKeys with
  | some v => simp
  | none =>
      cases hl : lastRow k t.columns with
      | none => exact absurd hk ((lastRow_eq_none k _).mp hl)
      | some ty => exact resolveTable_rows t R h (k, ty) (lastRow_mem k ty _ hl)

theorem lookup_entries_length {R : RecordSchema} {k : String} (h : R.lookup k ≠ none) :
    R.entries.length ≠ 0 := by
  intro h0
  have he : R.entries = [] := List.length_eq_zero.mp h0
  apply h
  rw [AList.lookup_eq_none]
  intro hm
  have : k ∈ R.entries.map Sigma.fst := hm
  rw [he] at this
  cases this

theorem contains_iff_mem (l : List String) (a : String) : l.contains a = true ↔ a ∈ l := by
  unfold List.contains
  exact List.elem_iff

theorem acceptsClause_spec {s : Store} {t : Table} {c : AddColumn}
    (h : s.acceptsClause t c = true) :
    c.column ∉ t.columns.map Prod.fst
      ∧ ∀ referent remoteCol, c.foreignKey = some (referent, remoteCol) →
          ∃ target, s.lookup referent = some target
            ∧ remoteCol ∈ target.columns.map Prod.fst := by
  simp only [Store.acceptsClause, Bool.and_eq_true, Bool.not_eq_true'] at h
  refine ⟨fun hm => ?_, fun referent remoteCol hf => ?_⟩
  · rw [(contains_iff_mem _ _).mpr hm] at h
    exact absurd h.1 (by simp)
  · have h2 := h.2
    simp only [hf] at h2
    cases hl : s.lookup referent with
    | none => simp [hl] at h2
    | some target =>
        simp only [hl] at h2
        exact ⟨target, rfl, (contains_iff_mem _ _).mp h2⟩

theorem Extend_noop (s : Store) (T : String) (D : RecordSchema) (t : Table) (R : RecordSchema)
    (hs : s.lookup T = some t) (hR : resolveTable t = .ok R) (hne : R.entries.length ≠ 0)
    (hD : ∀ k d, D.lookup k = some d → ∃ r, R.lookup k = some r ∧ r.Typ = d.Typ) :
    Extend s T D = .ok ⟨none, s, []⟩ := by
  have hloop : updatingSchemaLoop R D.entries ∅ = .ok ∅ :=
    updatingSchemaLoop_noop R D.entries ∅
      (fun k d hm => hD k d (AList.mem_lookup_iff.mpr hm))
  simp only [Extend, remoteColumnTypes, hs, hR, hne, if_false, extendColumns, hloop]
  rfl

theorem extendColumns_readback_clauses (s0 : Store) (t0 : Table) (R0 R0full D : RecordSchema)
    (cl : List AddColumn)
    (hfull : resolveTable t0 = .ok R0full)
    (hR0 : ∀ k r, R0.lookup k = some r → R0full.lookup k = some r)
    (hacc : "_access" ∈ t0.columns.map Prod.fst)
    (hfk : ∀ fk ∈ t0.foreignKeys, fk.1 ∈ t0.columns.map Prod.fst)
    (hasset : ∀ t, s0.lookup "_asset" = some t → "_id" ∉ t.columns.map Prod.fst)
    (c1 : (cl.map AddColumn.column).Nodup)
    (c2 : ∀ k d, D.lookup k = some d → R0.lookup k = none →
      ∃ c ∈ cl, addColumnClause k d = .ok c)
    (c3 : ∀ c ∈ cl, s0.acceptsClause t0 c = true)
    (c4 : ∀ c ∈ cl, nativeFieldType c.column c.pqType ≠ none)
    (c5 : ∀ k, k ∈ cl.map AddColumn.column → R0.lookup k = none)
    (c6 : ∀ k r d, D.lookup k = some d → R0.lookup k = some r → r.Typ = d.Typ)
    (hq : ∀ k d, D.lookup k = some d → quotedName k = k) :
    ∃ R1, resolveTable ⟨t0.columns ++ addedColumns cl, t0.foreignKeys ++ addedForeignKeys cl⟩
          = .ok R1
      ∧ R1.entries.length ≠ 0
      ∧ ∀ k d, D.lookup k = some d → ∃ r, R1.lookup k = some r ∧ r.Typ = d.Typ := by
  have hrows : ∀ row ∈ t0.columns ++ addedColumns cl, nativeFieldType row.1 row.2 ≠ none := by
    intro row hr
    rcases List.mem_append.mp hr with hr | hr
    · exact resolveTable_rows t0 R0full hfull row hr
    · obtain ⟨c, hc, rfl⟩ := List.mem_map.mp hr
      exact c4 c hc
  obtain ⟨R1, hR1⟩ := resolveTable_ok
    ⟨t0.columns ++ addedColumns cl, t0.foreignKeys ++ addedForeignKeys cl⟩ hrows
  have hold : ∀ k, k ∉ cl.map AddColumn.column → R1.lookup k = R0full.lookup k := by
    intro k hk
    rw [resolveTable_lookup _ R1 hR1 k, resolveLookup_old t0 cl k hk,
      resolveTable_lookup t0 R0full hfull k]
  have haccNew : "_access" ∉ cl.map AddColumn.column := by
    intro hm
    obtain ⟨c, hc, hcc⟩ := List.mem_map.mp hm
    exact (acceptsClause_spec (c3 c hc)).1 (hcc ▸ hacc)
  refine ⟨R1, hR1, ?_, ?_⟩
  · apply lookup_entries_length (k := "_access")
    rw [hold _ haccNew]
    exact resolveTable_column t0 R0full hfull _ hacc
  · intro k d hd
    cases hr0 : R0.lookup k with
    | some r =>
        refine ⟨r, ?_, c6 k r d hd hr0⟩
        have hk : k ∉ cl.map AddColumn.column := fun hm => by
          rw [c5 k hm] at hr0
          cases hr0
        rw [hold k hk]
        exact hR0 k r hr0
    | none =>
        obtain ⟨c, hc, hcc⟩ := c2 k d hd hr0
        have hcol := (addColumnClause_column hcc).trans (hq k d hd)
        obtain ⟨hnew, hfkv⟩ := acceptsClause_spec (c3 c hc)
        have hk : c.column ≠ "_access" := fun h => hnew (by rw [h]; exact hacc)
        have hr : c.foreignKey ≠ some ("_asset", "_id") := fun hf => by
          obtain ⟨target, ht, hcolm⟩ := hfkv _ _ hf
          exact hasset target ht hcolm
        obtain ⟨r, hr1, hr2⟩ := addColumnClause_readback hcc hk hr
        refine ⟨r, ?_, hr2⟩
        rw [resolveTable_lookup _ R1 hR1 k, ← hcol, resolveLookup_added t0 cl c1 hfk c hc hnew]
        exact hr1

theorem extendColumns_readback (s0 : Store) (ex : List Stmt) (T : String) (t0 : Table)
    (R0 R0full D : RecordSchema) (o : ExtendOutcome)
    (ht0 : s0.lookup T = some t0)
    (hfull : resolveTable t0 = .ok R0full)
    (hR0 : ∀ k r, R0.lookup k = some r → R0full.lookup k = some r)
    (hacc : "_access" ∈ t0.columns.map Prod.fst)
    (hfk : ∀ fk ∈ t0.foreignKeys, fk.1 ∈ t0.columns.map Prod.fst)
    (hasset : ∀ t, s0.lookup "_asset" = some t → "_id" ∉ t.columns.map Prod.fst)
    (hq : ∀ k d, D.lookup k = some d → quotedName k = k)
    (h : extendColumns s0 ex T R0 D = .ok o) (herr : o.err = none) :
    ∃ t1 R1, o.store.lookup T = some t1 ∧ resolveTable t1 = .ok R1
      ∧ R1.entries.length ≠ 0
      ∧ ∀ k d, D.lookup k = some d → ∃ r, R1.lookup k = some r ∧ r.Typ = d.Typ := by
  unfold extendColumns at h
  cases hl : updatingSchemaLoop R0 D.entries ∅ with
  | error e =>
      simp only [hl, Except.ok.injEq] at h
      subst h
      cases herr
  | ok u =>
      simp only [hl] at h
      have c6 : ∀ k r d, D.lookup k = some d → R0.lookup k = some r → r.Typ = d.Typ :=
        fun k r d hd hr =>
          updatingSchemaLoop_ok R0 D.entries ∅ u hl k r d (AList.mem_lookup_iff.mp hd) hr
      have hnew : ∀ k d, D.lookup k = some d → R0.lookup k = none → u.lookup k = some d :=
        fun k d hd hr =>
          updatingSchemaLoop_new R0 D.entries ∅ u hl D.nodupKeys k d
            (AList.mem_lookup_iff.mp hd) hr
      have hukeys : ∀ k, u.lookup k ≠ none → R0.lookup k = none := by
        intro k hk
        rcases updatingSchemaLoop_keys R0 D.entries ∅ u hl k hk with h1 | h1
        · exact absurd (AList.lookup_empty k) h1
        · exact h1
      by_cases hlen : u.entries.length > 0
      · simp only [hlen, if_true] at h
        cases hcl : addColumnClauses u.entries with
        | error msg => simp [hcl] at h
        | ok cl =>
            simp only [hcl] at h
            obtain ⟨hn0, hn2, hn3⟩ := addColumnClauses_spec u.entries cl hcl
            have hn1 : cl.map AddColumn.column = u.entries.map Sigma.fst := by
              rw [hn0]
              apply List.map_congr_left
              intro e he
              have hu : u.lookup e.1 = some e.2 := AList.mem_lookup_iff.mpr he
              have hmem : e.1 ∈ D.entries.map Sigma.fst := by
                by_contra hnm
                rw [updatingSchemaLoop_other R0 D.entries ∅ u hl e.1 hnm] at hu
                cases hu
              obtain ⟨e1, he1, heq⟩ := List.mem_map.mp hmem
              exact heq ▸ hq e1.1 e1.2 (AList.mem_lookup_iff.mpr he1)
            cases hex : s0.exec (.alterTable T cl) with
            | error err =>
                simp only [hex, Except.ok.injEq] at h
                subst h
                cases herr
            | ok s1 =>
                simp only [hex, Except.ok.injEq] at h
                subst h
                simp only [Store.exec, ht0] at hex
                by_cases hcond :
                    (cl.all (s0.acceptsClause t0) && decide (cl.map AddColumn.column).Nodup)
                      = true
                · simp only [hcond, if_true, Except.ok.injEq] at hex
                  simp only [Bool.and_eq_true, List.all_eq_true, decide_eq_true_eq] at hcond
                  obtain ⟨R1, hR1, hne, hD⟩ :=
                    extendColumns_readback_clauses s0 t0 R0 R0full D cl hfull hR0 hacc hfk
                      hasset hcond.2
                      (fun k d hd hr => hn2 k d (AList.mem_lookup_iff.mp (hnew k d hd hr)))
                      hcond.1
                      (fun c hc => by
                        obtain ⟨k, d, _, hcc⟩ := hn3 c hc
                        exact addColumnClause_native hcc)
                      (fun k hk => hukeys k (by
                        rw [hn1] at hk
                        exact fun hn => (AList.lookup_eq_none.mp hn) hk))
                      c6 hq
                  exact ⟨_, R1, by rw [← hex]; exact AList.lookup_insert _, hR1, hne, hD⟩
                · simp [hcond] at hex
      · simp only [hlen, if_false, Except.ok.injEq] at h
        subst h
        obtain ⟨R1, hR1, hne, hD⟩ :=
          extendColumns_readback_clauses s0 t0 R0 R0full D [] hfull hR0 hacc hfk hasset
            List.nodup_nil
            (fun k d hd hr => by
              have hu := hnew k d hd hr
              have : u.entries.length ≠ 0 := lookup_entries_length (k := k) (by simp [hu])
              omega)
            (fun c hc => by cases hc)
            (fun c hc => by cases hc)
            (fun k hk => by cases hk)
            c6 hq
        have ht : (⟨t0.columns ++ addedColumns [], t0.foreignKeys ++ addedForeignKeys []⟩
            : Table) = t0 := by
          cases t0
          simp [addedColumns, addedForeignKeys]
        rw [ht] at hR1
        exact ⟨t0, R1, ht0, hR1, hne, hD⟩

theorem wellFormed_lookup {s : Store} (h : s.wellFormed = true) {name : String} {t : Table}
    (hl : s.lookup name = some t) : Table.wellFormed name t = true := by
  have hm : (⟨name, t⟩ : Sigma fun _ : String => Table) ∈ s.entries :=
    AList.mem_lookup_iff.mp hl
  exact (List.all_eq_true.mp h) _ hm

theorem wellFormed_access {s : Store} (h : s.wellFormed = true) {name : String} {t : Table}
    (hl : s.lookup name = some t) (hn : name ≠ "_asset") :
    "_access" ∈ t.columns.map Prod.fst := by
  have hw := wellFormed_lookup h hl
  simp only [Table.wellFormed, Bool.and_eq_true, Bool.or_eq_true, beq_iff_eq] at hw
  rcases hw.1.1 with h1 | h1
  · exact absurd h1 hn
  · exact (contains_iff_mem _ _).mp h1

theorem wellFormed_foreignKeys {s : Store} (h : s.wellFormed = true) {name : String}
    {t : Table} (hl : s.lookup name = some t) :
    ∀ fk ∈ t.foreignKeys, fk.1 ∈ t.columns.map Prod.fst := by
  have hw := wellFormed_lookup h hl
  simp only [Table.wellFormed, Bool.and_eq_true, List.all_eq_true] at hw
  exact fun fk hfk => (contains_iff_mem _ _).mp (hw.2 fk hfk)

theorem wellFormed_asset {s : Store} (h : s.wellFormed = true) :
    ∀ t, s.lookup "_asset" = some t → "_id" ∉ t.columns.map Prod.fst := by
  intro t hl hm
  have hw := wellFormed_lookup h hl
  simp only [Table.wellFormed, Bool.and_eq_true, Bool.or_eq_true, bne_self_eq_false,
    Bool.not_eq_true', false_or] at hw
  rw [(contains_iff_mem _ _).mpr hm] at hw
  exact absurd hw.1.2 (by simp)

/-- C8 as first stated fails at three inputs. On the empty store, the type
`t` and a field named `a`, NUL, `b`: the first `Extend` adds the column `a`,
the second one does not find the field among the columns, sends the same
`ALTER TABLE` again and fails. On a store whose relation `t` lacks the column
`_access`, and the JSON field `_access`: the first `Extend` adds the column,
the second one reads it back as ACL and reports a conflict. On the empty
store, the type `_asset` and a field referencing the type `_asset`: the
first `Extend` adds the foreign key, the second one reads the column back as
an asset and reports a conflict. -/
theorem Extend_idempotent_counterexample :
    (∃ o1 o2, Extend ∅ "t" nulSchema = .ok o1 ∧ o1.err = none
        ∧ Extend o1.store "t" nulSchema = .ok o2
        ∧ o2.err = some (.alterTableFailed (.other "column exists or foreign key invalid"))
        ∧ o2.executed = [.alterTable "t" [⟨"a", "text", none⟩]])
      ∧ (∃ o1 o2, Extend bareStore "t" accessSchema = .ok o1 ∧ o1.err = none
          ∧ Extend o1.store "t" accessSchema = .ok o2
          ∧ o2.err = some (.conflictingSchema ⟨.TypeACL, "", none⟩ ⟨.TypeJSON, "", none⟩))
      ∧ ∃ o1 o2, Extend ∅ "_asset" assetReferenceSchema = .ok o1 ∧ o1.err = none
          ∧ Extend o1.store "_asset" assetReferenceSchema = .ok o2
          ∧ o2.err = some (.conflictingSchema ⟨.TypeAsset, "", none⟩
              ⟨.TypeReference, "_asset", none⟩) :=
  ⟨⟨_, _, rfl, rfl, rfl, rfl, rfl⟩, ⟨_, _, rfl, rfl, rfl, rfl⟩, ⟨_, _, rfl, rfl, rfl, rfl⟩⟩

/-- C8 (amended): on a well-formed store, for a record type other than the
reserved relation `_asset` and a desired schema whose field names hold no NUL
character, if a first `Extend(type, D)` returns no error, then a second
`Extend(type, D)` on the resulting store returns no error, executes no
statement and leaves the store as it is. -/
theorem Extend_idempotent (s : Store) (T : String) (D : RecordSchema) (o1 : ExtendOutcome)
    (hwf : s.wellFormed = true) (hT : T ≠ "_asset")
    (hnul : ∀ k ∈ D.keys, Char.ofNat 0 ∉ k.data)
    (h1 : Extend s T D = .ok o1) (herr : o1.err = none) :
    Extend o1.store T D = .ok ⟨none, o1.store, []⟩ := by
  have hq : ∀ k d, D.lookup k = some d → quotedName k = k := fun k d hd =>
    quotedName_of_no_nul (hnul k (List.mem_map.mpr ⟨⟨k, d⟩, AList.mem_lookup_iff.mp hd, rfl⟩))
  have key : ∃ t1 R1, o1.store.lookup T = some t1 ∧ resolveTable t1 = .ok R1
      ∧ R1.entries.length ≠ 0
      ∧ ∀ k d, D.lookup k = some d → ∃ r, R1.lookup k = some r ∧ r.Typ = d.Typ := by
    unfold Extend remoteColumnTypes at h1
    cases hl : s.lookup T with
    | none =>
        have hs1 : (s.insert T ⟨systemColumns, []⟩).lookup T = some ⟨systemColumns, []⟩ :=
          AList.lookup_insert _
        have hct : createTable s T = (none, s.insert T ⟨systemColumns, []⟩,
            [.createTable T, .createTrigger T]) := by
          simp [createTable, Store.exec, hl, hs1]
        have hempty : (∅ : RecordSchema).entries.length = 0 := rfl
        simp only [hl, hempty, if_true, hct] at h1
        obtain ⟨R0full, hfull⟩ : ∃ R, resolveTable ⟨systemColumns, []⟩ = .ok R := ⟨_, rfl⟩
        exact extendColumns_readback _ _ T ⟨systemColumns, []⟩ ∅ R0full D o1 hs1 hfull
          (fun k r hk => by cases hk) (by decide) (fun fk hfk => by cases hfk)
          (fun t ht => wellFormed_asset hwf t (by
            rw [AList.lookup_insert_ne (fun h => hT h.symm)] at ht
            exact ht))
          hq h1 herr
    | some t =>
        simp only [hl] at h1
        cases hR : resolveTable t with
        | error e =>
            simp only [hR, Except.ok.injEq] at h1
            subst h1
            cases herr
        | ok R =>
            simp only [hR] at h1
            by_cases hlen : R.entries.length = 0
            · have hct : createTable s T
                  = (some (.other "relation already exists"), s, [.createTable T]) := by
                simp [createTable, Store.exec, hl]
              simp only [hlen, if_true, hct, Except.ok.injEq] at h1
              subst h1
              cases herr
            · simp only [hlen, if_false] at h1
              exact extendColumns_readback s [] T t R R D o1 hl hR (fun _ _ h => h)
                (wellFormed_access hwf hl hT) (wellFormed_foreignKeys hwf hl)
                (wellFormed_asset hwf) hq h1 herr
  obtain ⟨t1, R1, ht1, hR1, hne, hD⟩ := key
  exact Extend_noop o1.store T D t1 R1 ht1 hR1 hne hD

/-- Witness of C8: on the provisioned store the first `Extend("note", ...)`
creates the table, its trigger and the four columns; the second one does
nothing. -/
theorem Extend_idempotent_witness :
    ∃ o1, Extend provisionedStore "note" noteSchema = .ok o1 ∧ o1.err = none
      ∧ o1.executed.length = 3
      ∧ Extend o1.store "note" noteSchema = .ok ⟨none, o1.store, []⟩ :=
  ⟨_, rfl, rfl, rfl,
    Extend_idempotent provisionedStore "note" noteSchema _ (by decide) (by decide) (by decide)
      rfl rfl⟩

theorem wellFormed_insert {s : Store} (h : s.wellFormed = true) {name : String} {t : Table}
    (ht : Table.wellFormed name t = true) : Store.wellFormed (s.insert name t) = true := by
  simp only [Store.wellFormed, AList.insert_entries, List.all_cons, Bool.and_eq_true,
    List.all_eq_true]
  refine ⟨ht, fun e he => ?_⟩
  exact (List.all_eq_true.mp h) e ((List.kerase_sublist name s.entries).subset he)

theorem wellFormed_systemTable {T : String} (hT : T ≠ "_asset") :
    Table.wellFormed T ⟨systemColumns, []⟩ = true := by
  have h1 : (T != "_asset") = true := by simpa using hT
  have h2 : ((systemColumns.map Prod.fst).contains "_access") = true := by decide
  simp only [Table.wellFormed, h1, h2, Bool.or_true, Bool.true_or, Bool.true_and,
    List.all_nil]

theorem wellFormed_altered {T : String} (hT : T ≠ "_asset") (t0 : Table)
    (cl : List AddColumn) (hacc : "_access" ∈ t0.columns.map Prod.fst)
    (hfk : ∀ fk ∈ t0.foreignKeys, fk.1 ∈ t0.columns.map Prod.fst) :
    Table.wellFormed T
      ⟨t0.columns ++ addedColumns cl, t0.foreignKeys ++ addedForeignKeys cl⟩ = true := by
  have h1 : (T != "_asset") = true := by simpa using hT
  have h2 : ((t0.columns ++ addedColumns cl).map Prod.fst).contains "_access" = true :=
    (contains_iff_mem _ _).mpr (by
      rw [List.map_append]
      exact List.mem_append_left _ hacc)
  simp only [Table.wellFormed, h1, h2, Bool.or_true, Bool.true_or, Bool.true_and,
    List.all_eq_true]
  intro fk hm
  apply (contains_iff_mem _ _).mpr
  rw [List.map_append]
  rcases List.mem_append.mp hm with hm | hm
  · exact List.mem_append_left _ (hfk fk hm)
  · refine List.mem_append_right _ ?_
    rw [addedColumns_names]
    exact addedForeignKeys_names cl fk.1 (List.mem_map.mpr ⟨fk, hm, rfl⟩)

theorem extendColumns_wellFormed (s0 : Store) (ex : List Stmt) (T : String)
    (R0 D : RecordSchema) (o : ExtendOutcome) (hwf : s0.wellFormed = true)
    (hT : T ≠ "_asset") (h : extendColumns s0 ex T R0 D = .ok o) :
    o.store.wellFormed = true := by
  unfold extendColumns at h
  cases hl : updatingSchemaLoop R0 D.entries ∅ with
  | error e =>
      simp only [hl, Except.ok.injEq] at h
      subst h
      exact hwf
  | ok u =>
      simp only [hl] at h
      split at h
      · split at h
        · cases h
        · rename_i cl _
          cases hex : s0.exec (.alterTable T cl) with
          | error err =>
              simp only [hex, Except.ok.injEq] at h
              subst h
              exact hwf
          | ok s1 =>
              simp only [hex, Except.ok.injEq] at h
              subst h
              simp only [Store.exec] at hex
              cases ht0 : s0.lookup T with
              | none => simp [ht0] at hex
              | some t0 =>
                  simp only [ht0] at hex
                  split at hex
                  · simp only [Except.ok.injEq] at hex
                    subst hex
                    exact wellFormed_insert hwf (wellFormed_altered hT t0 cl
                      (wellFormed_access hwf ht0 hT) (wellFormed_foreignKeys hwf ht0))
                  · cases hex
      · simp only [Except.ok.injEq] at h
        subst h
        exact hwf

/-- Well-formedness of the store is an invariant of `Extend` on record types
other than `_asset`, whatever `Extend` returns. -/
theorem Extend_wellFormed (s : Store) (T : String) (D : RecordSchema) (o : ExtendOutcome)
    (hwf : s.wellFormed = true) (hT : T ≠ "_asset") (h : Extend s T D = .ok o) :
    o.store.wellFormed = true := by
  unfold Extend at h
  cases hR : remoteColumnTypes s T with
  | error e =>
      simp only [hR, Except.ok.injEq] at h
      subst h
      exact hwf
  | ok R =>
      simp only [hR] at h
      split at h
      · have hsys : Store.wellFormed (s.insert T ⟨systemColumns, []⟩) = true :=
          wellFormed_insert hwf (wellFormed_systemTable hT)
        have hct : (createTable s T).2.1 = s ∨ (createTable s T).2.1
            = s.insert T ⟨systemColumns, []⟩ := by
          unfold createTable
          cases hl : s.lookup T with
          | some t => simp [Store.exec, hl]
          | none => simp [Store.exec, hl]
        have hwf1 : Store.wellFormed (createTable s T).2.1 = true := by
          rcases hct with hc | hc <;> rw [hc]
          · exact hwf
          · exact hsys
        split at h
        · rename_i err s1 executed heq
          simp only [Except.ok.injEq] at h
          subst h
          rw [heq] at hwf1
          exact hwf1
        · rename_i s1 executed heq
          rw [heq] at hwf1
          exact extendColumns_wellFormed s1 executed T R D o hwf1 hT h
      · exact extendColumns_wellFormed s [] T R D o hwf hT h

/-- The provisioned store is well formed. -/
theorem provisionedStore_wellFormed : provisionedStore.wellFormed = true := by decide

/-! ## Theorems: the record scanner -/

theorem decodeColumn_null (lib : Library) (typemap : RecordSchema) (column : String)
    (dest : Dest) (scanned : Scanned) (h : dest.Scan lib .null = some scanned) :
    decodeColumn lib typemap column scanned = none := by
  cases dest <;> simp only [Dest.Scan, Option.some.injEq] at h <;> subst h <;> rfl

theorem decodeColumn_time (lib : Library) (typemap : RecordSchema) (column : String)
    (t : Time) (scanned : Scanned) (h : Dest.NullTime.Scan lib (.time t) = some scanned) :
    decodeColumn lib typemap column scanned
      = some (.time (if t.IsZero then Time.zero else t.In Location.UTC)) := by
  simp only [Dest.Scan, Option.some.injEq] at h
  subst h
  by_cases hz : t.IsZero = true <;> simp [decodeColumn, hz]

theorem setCalls_null (lib : Library) (typemap : RecordSchema) (c : String) :
    ∀ (columns : List String) (dests : List Dest) (row : List DriverValue)
      (values : List Scanned) (index : Nat),
      destsLoop typemap columns = .ok dests → scanDests lib index dests row = .ok values →
      dests.length = row.length →
      (∀ i : Nat, columns[i]? = some c → row[i]? = some DriverValue.null) →
        c ∉ (setCalls lib typemap columns values).map Prod.fst
| [], _, _, _, _, _, _, _, _ => by simp [setCalls]
| column :: columns, dests, row, values, index, hd, hs, hlen, hnull => by
    cases hl : typemap.lookup column with
    | none => simp [destsLoop, hl] at hd
    | some schema =>
        cases hf : destFor schema.Typ with
        | none => simp [destsLoop, hl, hf] at hd
        | some dest =>
            cases hr : destsLoop typemap columns with
            | error e => simp [destsLoop, hl, hf, hr] at hd
            | ok dests1 =>
                simp only [destsLoop, hl, hf, hr, Except.ok.injEq] at hd
                subst hd
                cases row with
                | nil => simp at hlen
                | cons value row1 =>
                    simp only [List.length_cons, Nat.add_right_cancel_iff] at hlen
                    cases hsc : dest.Scan lib value with
                    | none => simp [scanDests, hsc] at hs
                    | some scanned =>
                        cases hrest : scanDests lib (index + 1) dests1 row1 with
                        | error e => simp [scanDests, hsc, hrest] at hs
                        | ok rest =>
                            simp only [scanDests, hsc, hrest, Except.ok.injEq] at hs
                            subst hs
                            have ih := setCalls_null lib typemap c columns dests1 row1 rest
                              (index + 1) hr hrest hlen
                              (fun i hi => by simpa using hnull (i + 1) (by simpa using hi))
                            by_cases hcc : column = c
                            · have hv : value = .null := by
                                have := hnull 0 (by simp [hcc])
                                simpa using this
                              subst hv
                              simp only [setCalls, decodeColumn_null lib typemap column dest
                                scanned hsc]
                              exact ih
                            · cases hdec : decodeColumn lib typemap column scanned with
                              | none =>
                                  simp only [setCalls, hdec]
                                  exact ih
                              | some v =>
                                  simp only [setCalls, hdec, List.map_cons, List.mem_cons,
                                    not_or]
                                  exact ⟨fun h => hcc h.symm, ih⟩

theorem setCalls_time (lib : Library) (typemap : RecordSchema) (c : String) (t : Time)
    (hty : ∃ schema, typemap.lookup c = some schema ∧ schema.Typ = .TypeDateTime) :
    ∀ (columns : List String) (dests : List Dest) (row : List DriverValue)
      (values : List Scanned) (index i : Nat),
      destsLoop typemap columns = .ok dests → scanDests lib index dests row = .ok values →
      dests.length = row.length →
      columns[i]? = some c → row[i]? = some (DriverValue.time t) →
        (c, Value.time (if t.IsZero then Time.zero else t.In Location.UTC))
          ∈ setCalls lib typemap columns values
| [], _, _, _, _, _, _, _, _, hc, _ => by simp at hc
| column :: columns, dests, row, values, index, i, hd, hs, hlen, hc, hv => by
    cases hl : typemap.lookup column with
    | none => simp [destsLoop, hl] at hd
    | some schema =>
        cases hf : destFor schema.Typ with
        | none => simp [destsLoop, hl, hf] at hd
        | some dest =>
            cases hr : destsLoop typemap columns with
            | error e => simp [destsLoop, hl, hf, hr] at hd
            | ok dests1 =>
                simp only [destsLoop, hl, hf, hr, Except.ok.injEq] at hd
                subst hd
                cases row with
                | nil => simp at hlen
                | cons value row1 =>
                    simp only [List.length_cons, Nat.add_right_cancel_iff] at hlen
                    cases hsc : dest.Scan lib value with
                    | none => simp [scanDests, hsc] at hs
                    | some scanned =>
                        cases hrest : scanDests lib (index + 1) dests1 row1 with
                        | error e => simp [scanDests, hsc, hrest] at hs
                        | ok rest =>
                            simp only [scanDests, hsc, hrest, Except.ok.injEq] at hs
                            subst hs
                            cases i with
                            | zero =>
                                simp only [List.getElem?_cons_zero, Option.some.injEq] at hc hv
                                subst hc
                                subst hv
                                obtain ⟨schema1, hs1, hs2⟩ := hty
                                rw [hl] at hs1
                                cases hs1
                                rw [hs2] at hf
                                simp only [destFor, Option.some.injEq] at hf
                                subst hf
                                simp only [setCalls, decodeColumn_time lib typemap column t
                                  scanned hsc]
                                exact List.mem_cons_self _ _
                            | succ j =>
                                simp only [List.getElem?_cons_succ] at hc hv
                                have ih := setCalls_time lib typemap c t hty columns dests1
                                  row1 rest (index + 1) j hr hrest hlen hc hv
                                cases hdec : decodeColumn lib typemap column scanned with
                                | none =>
                                    simp only [setCalls, hdec]
                                    exact ih
                                | some v =>
                                    simp only [setCalls, hdec]
                                    exact List.mem_cons_of_mem _ ih

theorem Scan_success (lib : Library) (rs : recordScanner)
    (cursor : Except DriverError (List DriverValue)) (record : Record) (out : ScanOutcome)
    (h : rs.Scan lib cursor record = .ok out) (herr : out.err = none) :
    ∃ dests row values, destsLoop rs.typemap rs.columns = .ok dests ∧ cursor = .ok row
      ∧ dests.length = row.length ∧ scanDests lib 0 dests row = .ok values
      ∧ out.calls = setCalls lib rs.typemap rs.columns values := by
  unfold recordScanner.Scan at h
  cases he : rs.err with
  | some e =>
      simp only [he, Except.ok.injEq] at h
      subst h
      cases herr
  | none =>
      simp only [he] at h
      cases hd : destsLoop rs.typemap rs.columns with
      | error e =>
          simp only [hd, Except.ok.injEq] at h
          subst h
          cases herr
      | ok dests =>
          simp only [hd] at h
          cases hcs : columnsScan lib cursor dests with
          | error e =>
              simp only [hcs, Except.ok.injEq] at h
              subst h
              cases herr
          | ok values =>
              simp only [hcs] at h
              split at h
              · cases h
              · simp only [Except.ok.injEq] at h
                subst h
                unfold columnsScan at hcs
                cases cursor with
                | error err => simp at hcs
                | ok row =>
                    simp only at hcs
                    by_cases hlen : dests.length = row.length
                    · simp only [hlen, ne_eq, not_true_eq_false, if_false] at hcs
                      exact ⟨dests, row, values, rfl, rfl, hlen, hcs, rfl⟩
                    · simp [hlen] at hcs

/-- C9: when `recordScanner.Scan` succeeds on a row, a column whose stored
value is null (at every position the column is returned) is never set:
no `Record.Set` call names it, whatever its field type is. -/
theorem Scan_null_absent (lib : Library) (rs : recordScanner) (row : List DriverValue)
    (record : Record) (out : ScanOutcome)
    (h : rs.Scan lib (.ok row) record = .ok out) (herr : out.err = none)
    (c : String) (hnull : ∀ i : Nat, rs.columns[i]? = some c → row[i]? = some DriverValue.null) :
    c ∉ out.calls.map Prod.fst := by
  obtain ⟨dests, row1, values, hd, hrow, hlen, hs, hcalls⟩ :=
    Scan_success lib rs (.ok row) record out h herr
  simp only [Except.ok.injEq] at hrow
  subst hrow
  rw [hcalls]
  exact setCalls_null lib rs.typemap c rs.columns dests row values 0 hd hs hlen hnull

/-- Witness of C9: in the sample row the columns `title` and `seen` are null
and are not set, while the row scans without error. -/
theorem Scan_null_absent_witness :
    ∃ out, sampleScanner.Scan sampleLibrary (.ok sampleRow) sampleRecord = .ok out
      ∧ out.err = none ∧ "title" ∉ out.calls.map Prod.fst :=
  ⟨_, rfl, rfl,
    Scan_null_absent sampleLibrary sampleScanner sampleRow sampleRecord _ rfl rfl "title"
      (fun i hi => by
        rcases i with _ | _ | _ | _ | _ | i <;> simp [sampleScanner, sampleRow] at hi ⊢)⟩

/-- C10: when `recordScanner.Scan` succeeds on a row, a column of type
DateTime whose stored value is the instant `t` is set: to the zero time if
`t` is the zero instant, otherwise to `t` presented in UTC. -/
theorem Scan_datetime_set (lib : Library) (rs : recordScanner) (row : List DriverValue)
    (record : Record) (out : ScanOutcome)
    (h : rs.Scan lib (.ok row) record = .ok out) (herr : out.err = none)
    (i : Nat) (c : String) (t : Time) (hc : rs.columns[i]? = some c)
    (hty : ∃ schema, rs.typemap.lookup c = some schema ∧ schema.Typ = .TypeDateTime)
    (hv : row[i]? = some (DriverValue.time t)) :
    (c, Value.time (if t.IsZero then Time.zero else t.In Location.UTC)) ∈ out.calls := by
  obtain ⟨dests, row1, values, hd, hrow, hlen, hs, hcalls⟩ :=
    Scan_success lib rs (.ok row) record out h herr
  simp only [Except.ok.injEq] at hrow
  subst hrow
  rw [hcalls]
  exact setCalls_time lib rs.typemap c t hty rs.columns dests row values 0 i hd hs hlen hc hv

/-- Witness of C10: in the sample row the zero timestamp of `due` is set as
the zero time and the timestamp of `done` is set presented in UTC. -/
theorem Scan_datetime_set_witness :
    ∃ out, sampleScanner.Scan sampleLibrary (.ok sampleRow) sampleRecord = .ok out
      ∧ out.err = none
      ∧ ("done", Value.time ⟨63000000000, 5, .UTC⟩) ∈ out.calls :=
  ⟨_, rfl, rfl,
    Scan_datetime_set sampleLibrary sampleScanner sampleRow sampleRecord _ rfl rfl 3 "done"
      ⟨63000000000, 5, .Fixed "CET" 3600⟩ rfl ⟨_, rfl, rfl⟩ rfl⟩

/-! ## Theorems: unsupported operators, NOT, and literals -/

theorem not_compound_of_not_mem {op : Operator} (hc : op ∉ [Operator.And, .Or, .Not]) :
    op.IsCompound = false := by
  cases op <;> simp_all [Operator.IsCompound]

theorem not_binary_of_not_mem {op : Operator} (hb : op ∉ comparisonOperators.map Prod.fst) :
    op.IsBinary = false := by
  cases op <;> simp_all [Operator.IsBinary, comparisonOperators]

theorem binary_of_mem {op : Operator} (hb : op ∈ comparisonOperators.map Prod.fst) :
    op.IsBinary = true ∧ op.IsCompound = false ∧ ∃ opSql, comparisonOperatorSql op = some opSql := by
  simp only [comparisonOperators, List.map_cons, List.map_nil, List.mem_cons,
    List.mem_singleton, List.mem_nil_iff, or_false] at hb
  rcases hb with h | h | h | h | h | h | h | h | h <;> subst h <;> exact ⟨rfl, rfl, _, rfl⟩

/-- C12: a predicate whose operator is neither AND, OR, NOT nor one of the
nine comparisons compiles to the empty SQL string with the error naming the
operator; and a predicate whose operator is one of the nine comparisons
never returns an error. -/
theorem ToSql_unsupported_operator (op : Operator) (children : List Node)
    (hc : op ∉ [Operator.And, .Or, .Not])
    (hb : op ∉ comparisonOperators.map Prod.fst) :
    newPredicateSqlizer.ToSql (.predicate op children)
        = .ok ⟨"", [], some (.unsupportedComparison op)⟩
      ∧ ∀ (op2 : Operator) (children2 : List Node) (r : Sqlized),
          op2 ∈ comparisonOperators.map Prod.fst →
          newPredicateSqlizer.ToSql (.predicate op2 children2) = .ok r → r.err = none := by
  refine ⟨?_, fun op2 children2 r h2 hr => ?_⟩
  · simp [newPredicateSqlizer.ToSql, not_compound_of_not_mem hc,
      comparisonPredicateSqlizer.ToSql, not_binary_of_not_mem hb]
  · obtain ⟨h3, h4, opSql, h5⟩ := binary_of_mem h2
    simp only [newPredicateSqlizer.ToSql, h4, comparisonPredicateSqlizer.ToSql, h3, if_true,
      Bool.false_eq_true, if_false] at hr
    split at hr
    case h_5 lhs rhs _ =>
      cases hl : toSqlOperand lhs with
      | error msg => simp [hl] at hr
      | ok l =>
          cases hrr : toSqlOperand rhs with
          | error msg => simp [hl, h5, hrr] at hr
          | ok r2 =>
              simp only [hl, h5, hrr, Except.ok.injEq] at hr
              subst hr
              rfl
    all_goals cases hr

/-- Witness of C12: an operator outside the enumeration. -/
theorem ToSql_unsupported_operator_witness :
    newPredicateSqlizer.ToSql (.predicate (.Other 99) [])
      = .ok ⟨"", [], some (.unsupportedComparison (.Other 99))⟩ :=
  (ToSql_unsupported_operator (.Other 99) [] (by decide) (by decide)).1

/-- C13: if the child predicate `c` of a NOT predicate compiles to
`(s, a, err)`, then the NOT predicate compiles to `("NOT (" ++ s ++ ")", a, err)`:
without error when `c` has none, with the error of `c` otherwise. -/
theorem Not_ToSql (cop : Operator) (cchildren : List Node) (r : Sqlized)
    (h : newPredicateSqlizer.ToSql (.predicate cop cchildren) = .ok r) :
    newPredicateSqlizer.ToSql (.predicate .Not [.predicate cop cchildren])
      = .ok ⟨"NOT (" ++ r.sql ++ ")", r.args, r.err⟩ := by
  have hn : newPredicateSqlizer.ToSql (.predicate .Not [.predicate cop cchildren])
      = compoundPredicateSqlizer.ToSql .Not [.predicate cop cchildren]
          [newPredicateSqlizer.ToSql (.predicate cop cchildren)] := by
    simp [newPredicateSqlizer.ToSql, Operator.IsCompound, childrenToSql]
  rw [hn, h]
  rfl

/-- Witness of C13: `NOT ("title" = "hello")` and the NOT of a predicate
with an unsupported operator. -/
theorem Not_ToSql_witness :
    newPredicateSqlizer.ToSql (.predicate .Not
        [.predicate .Equal
          [.expression ⟨.KeyPath, .str "title"⟩, .expression ⟨.Literal, .str "hello"⟩]])
      = .ok ⟨"NOT (\"title\"=?)", [.str "hello"], none⟩ :=
  Not_ToSql .Equal
    [.expression ⟨.KeyPath, .str "title"⟩, .expression ⟨.Literal, .str "hello"⟩]
    ⟨"\"title\"=?", [.str "hello"], none⟩ rfl

theorem intercalate_go_data (sep : String) :
    ∀ (xs : List String) (acc : String),
      (String.intercalate.go acc sep xs).data
        = acc.data ++ xs.flatMap (fun x => sep.data ++ x.data)
| [], acc => by simp [String.intercalate.go]
| x :: xs, acc => by
    simp [String.intercalate.go, intercalate_go_data sep xs, String.data_append,
      List.append_assoc]

theorem flatMap_replicate_question (n : Nat) :
    (List.replicate n "?").flatMap (fun x => ",".data ++ x.data)
      = (List.replicate n [',', '?']).flatten := by
  induction n with
  | zero => rfl
  | succ n ih =>
      simp only [List.replicate_succ, List.flatMap_cons, List.flatten_cons, ih]
      rfl

theorem Placeholders_eq_intercalate (n : Nat) :
    Placeholders n = ",".intercalate (List.replicate n "?") := by
  cases n with
  | zero => rfl
  | succ n =>
      apply String.ext
      simp only [Placeholders, List.replicate_succ, String.intercalate, intercalate_go_data,
        flatMap_replicate_question, List.flatten_cons]
      rfl

/-- C14: for an array literal of `n` elements `literalToSqlOperand` returns
the parenthesised list of `n` placeholders `?` joined by `,` and the
normalized elements in order; for every other value it returns the single
placeholder `?` and the normalized value; normalization maps a reference to
its target key and leaves every other value unchanged. -/
theorem literalToSqlOperand_spec (v : Value) :
    (∀ xs, v = .array xs →
        literalToSqlOperand v
            = ("(" ++ ",".intercalate (List.replicate xs.length "?") ++ ")",
                xs.map normalizedLiteral)
          ∧ (xs.map normalizedLiteral).length = xs.length
          ∧ ∀ (i : Nat) x, xs[i]? = some x → (xs.map normalizedLiteral)[i]? = some (normalizedLiteral x))
      ∧ ((∀ xs, v ≠ .array xs) → literalToSqlOperand v = ("?", [normalizedLiteral v]))
      ∧ (∀ recordType key, normalizedLiteral (.reference recordType key) = .str key)
      ∧ ∀ w, (∀ recordType key, w ≠ .reference recordType key) → normalizedLiteral w = w := by
  have hn : literalToSqlValue = normalizedLiteral := funext literalToSqlValue_eq_normalizedLiteral
  refine ⟨fun xs hv => ?_, fun hv => ?_, fun _ _ => rfl, fun w hw => ?_⟩
  · subst hv
    refine ⟨?_, by simp, fun i x hx => by simp [hx]⟩
    simp [literalToSqlOperand, hn, Placeholders_eq_intercalate]
  · have h1 : Placeholders 1 = "?" := rfl
    cases v <;> simp_all [literalToSqlOperand]
  · cases w <;> simp_all [normalizedLiteral]

/-- Instances of C14: an array of a string and a reference, and a scalar
reference. -/
theorem literalToSqlOperand_example :
    literalToSqlOperand (.array [.str "a", .reference "note" "n1"])
        = ("(?,?)", [.str "a", .str "n1"])
      ∧ literalToSqlOperand (.reference "note" "n1") = ("?", [.str "n1"])
      ∧ literalToSqlOperand (.array []) = ("()", []) :=
  ⟨rfl, rfl, rfl⟩

/-! ## Theorems: native data types -/

/-- Counterexample to C17: `pqDataType` panics on the ACL data type. -/
theorem pqDataType_ACL_panics : pqDataType .TypeACL = .error "Unsupported dataType" := rfl

theorem pqDataType_panics_outside (t : DataType) (h : t ∉ columnTypes) :
    pqDataType t = .error "Unsupported dataType" := by
  cases t <;> simp_all [columnTypes, pqDataType]

/-- C17 (amended): `pqDataType` returns `text` for String, Reference and
Asset, `double precision` for Number, `boolean` for Boolean, `jsonb` for
JSON, `timestamp without time zone` for DateTime and `geometry(Point)` for
Location, and panics on every other data type, ACL included. -/
theorem pqDataType_table :
    pqDataType .TypeString = .ok "text" ∧ pqDataType .TypeReference = .ok "text"
      ∧ pqDataType .TypeAsset = .ok "text" ∧ pqDataType .TypeNumber = .ok "double precision"
      ∧ pqDataType .TypeBoolean = .ok "boolean" ∧ pqDataType .TypeJSON = .ok "jsonb"
      ∧ pqDataType .TypeDateTime = .ok "timestamp without time zone"
      ∧ pqDataType .TypeLocation = .ok "geometry(Point)"
      ∧ ∀ t, t ∉ columnTypes → pqDataType t = .error "Unsupported dataType" :=
  ⟨rfl, rfl, rfl, rfl, rfl, rfl, rfl, rfl, pqDataType_panics_outside⟩

/-! ## Theorems: scanner errors -/

theorem destFor_none_iff (t : DataType) : destFor t = none ↔ t ∉ decodableTypes := by
  cases t <;> simp [destFor, decodableTypes]

theorem destsLoop_error (typemap : RecordSchema) (c : String)
    (hc : typemap.lookup c = none
      ∨ ∃ schema, typemap.lookup c = some schema ∧ schema.Typ ∉ decodableTypes) :
    ∀ columns : List String, c ∈ columns → ∃ e, destsLoop typemap columns = .error e
| [], h => by cases h
| column :: columns, h => by
    cases hl : typemap.lookup column with
    | none => exact ⟨.unknownColumn column, by simp [destsLoop, hl]⟩
    | some schema =>
        cases hf : destFor schema.Typ with
        | none => exact ⟨.unknownDataType schema.Typ column, by simp [destsLoop, hl, hf]⟩
        | some dest =>
            have hne : column ≠ c := by
              intro heq
              subst heq
              rcases hc with h1 | ⟨schema1, h1, h2⟩
              · rw [hl] at h1
                cases h1
              · rw [hl] at h1
                cases h1
                rw [(destFor_none_iff _).mpr h2] at hf
                cases hf
            have hm : c ∈ columns := by
              rcases List.mem_cons.mp h with heq | hm
              · exact absurd heq.symm hne
              · exact hm
            obtain ⟨e, he⟩ := destsLoop_error typemap c hc columns hm
            exact ⟨e, by simp [destsLoop, hl, hf, he]⟩

/-- C18: if some returned column is not a field of the schema, or its
schema type is not one of the nine decodable types, `recordScanner.Scan`
returns an error, does not read the row from the cursor, makes no
`Record.Set` call and leaves the record (and the scanner) as they were. -/
theorem Scan_unknown_column (lib : Library) (rs : recordScanner)
    (cursor : Except DriverError (List DriverValue)) (record : Record) (c : String)
    (hm : c ∈ rs.columns)
    (hc : rs.typemap.lookup c = none
      ∨ ∃ schema, rs.typemap.lookup c = some schema ∧ schema.Typ ∉ decodableTypes) :
    ∃ e, rs.Scan lib cursor record = .ok ⟨some e, record, rs, false, []⟩ := by
  unfold recordScanner.Scan
  cases he : rs.err with
  | some e => exact ⟨e, rfl⟩
  | none =>
      obtain ⟨e, hd⟩ := destsLoop_error rs.typemap c hc rs.columns hm
      exact ⟨e, by simp [hd]⟩

/-- Witness of C18: the cursor returns the column `nosuch`, which the schema
lacks. -/
theorem Scan_unknown_column_witness :
    ∃ e, unknownColumnScanner.Scan sampleLibrary (.ok [.str "n1", .null]) sampleRecord
      = .ok ⟨some e, sampleRecord, unknownColumnScanner, false, []⟩ :=
  Scan_unknown_column sampleLibrary unknownColumnScanner (.ok [.str "n1", .null])
    sampleRecord "nosuch" (by decide) (Or.inl rfl)

/-! ## Theorems: round trip of references and assets -/

theorem setCalls_at (lib : Library) (typemap : RecordSchema) (c : String) (v : DriverValue) :
    ∀ (columns : List String) (dests : List Dest) (row : List DriverValue)
      (values : List Scanned) (index i : Nat),
      destsLoop typemap columns = .ok dests → scanDests lib index dests row = .ok values →
      dests.length = row.length →
      columns[i]? = some c → row[i]? = some v →
        ∃ schema dest scanned, typemap.lookup c = some schema
          ∧ destFor schema.Typ = some dest ∧ dest.Scan lib v = some scanned
          ∧ ∀ val, decodeColumn lib typemap c scanned = some val →
              (c, val) ∈ setCalls lib typemap columns values
| [], _, _, _, _, _, _, _, _, hc, _ => by simp at hc
| column :: columns, dests, row, values, index, i, hd, hs, hlen, hc, hv => by
    cases hl : typemap.lookup column with
    | none => simp [destsLoop, hl] at hd
    | some schema =>
        cases hf : destFor schema.Typ with
        | none => simp [destsLoop, hl, hf] at hd
        | some dest =>
            cases hr : destsLoop typemap columns with
            | error e => simp [destsLoop, hl, hf, hr] at hd
            | ok dests1 =>
                simp only [destsLoop, hl, hf, hr, Except.ok.injEq] at hd
                subst hd
                cases row with
                | nil => simp at hlen
                | cons value row1 =>
                    simp only [List.length_cons, Nat.add_right_cancel_iff] at hlen
                    cases hsc : dest.Scan lib value with
                    | none => simp [scanDests, hsc] at hs
                    | some scanned =>
                        cases hrest : scanDests lib (index + 1) dests1 row1 with
                        | error e => simp [scanDests, hsc, hrest] at hs
                        | ok rest =>
                            simp only [scanDests, hsc, hrest, Except.ok.injEq] at hs
                            subst hs
                            cases i with
                            | zero =>
                                simp only [List.getElem?_cons_zero, Option.some.injEq] at hc hv
                                subst hc
                                subst hv
                                refine ⟨schema, dest, scanned, hl, hf, hsc, fun val hval => ?_⟩
                                simp only [setCalls, hval]
                                exact List.mem_cons_self _ _
                            | succ j =>
                                simp only [List.getElem?_cons_succ] at hc hv
                                obtain ⟨schema1, dest1, scanned1, h1, h2, h3, h4⟩ :=
                                  setCalls_at lib typemap c v columns dests1 row1 rest
                                    (index + 1) j hr hrest hlen hc hv
                                refine ⟨schema1, dest1, scanned1, h1, h2, h3, fun val hval => ?_⟩
                                cases hdec : decodeColumn lib typemap column scanned with
                                | none =>
                                    simp only [setCalls, hdec]
                                    exact h4 val hval
                                | some v1 =>
                                    simp only [setCalls, hdec]
                                    exact List.mem_cons_of_mem _ (h4 val hval)

/-- C11: `convert` wraps a reference as `referenceValue` and an asset as
`assetValue`, written as the key and the name. When the key read back from
its text column is scanned by a successful `recordScanner.Scan` under a
schema whose field is a Reference of target type `recordType`, the field is
set to the reference `recordType/key`; and `nullAsset.Scan` on the name read
back yields a valid asset of that name. The library is assumed to convert
the bytes of a string into that string, as `convertAssign` does. -/
theorem reference_asset_roundtrip (lib : Library) (rs : recordScanner)
    (row : List DriverValue) (record : Record) (out : ScanOutcome)
    (recordType key : String) (i : Nat) (c : String)
    (hlib : lib.convertString (.bytes key) = some key)
    (h : rs.Scan lib (.ok row) record = .ok out) (herr : out.err = none)
    (hc : rs.columns[i]? = some c)
    (hty : ∃ schema, rs.typemap.lookup c = some schema ∧ schema.Typ = .TypeReference
      ∧ schema.ReferenceType = recordType)
    (hv : row[i]? = some (readTextColumn (referenceValue.Value recordType key))) :
    convertValue (.reference recordType key) = .referenceValue recordType key
      ∧ (c, Value.reference recordType key) ∈ out.calls
      ∧ ∀ name, convertValue (.asset name) = .assetValue name
          ∧ Dest.nullAsset.Scan lib (readTextColumn (assetValue.Value name))
              = some (.nullAsset name true) := by
  refine ⟨rfl, ?_, fun name => ⟨rfl, rfl⟩⟩
  obtain ⟨dests, row1, values, hd, hrow, hlen, hs, hcalls⟩ :=
    Scan_success lib rs (.ok row) record out h herr
  simp only [Except.ok.injEq] at hrow
  subst hrow
  obtain ⟨schema, hs1, hs2, hs3⟩ := hty
  obtain ⟨schema1, dest, scanned, h1, h2, h3, h4⟩ :=
    setCalls_at lib rs.typemap c _ rs.columns dests row values 0 i hd hs hlen hc hv
  rw [hs1] at h1
  cases h1
  rw [hs2] at h2
  simp only [destFor, Option.some.injEq] at h2
  subst h2
  simp only [readTextColumn, referenceValue.Value, Dest.Scan, hlib, Option.map_some',
    Option.some.injEq] at h3
  subst h3
  rw [hcalls]
  apply h4
  simp [decodeColumn, hs1, hs2, hs3]

/-- Witness of C11: the key `u7` of a reference to `user/u7` is read back
and decoded to the same reference. -/
theorem reference_asset_roundtrip_witness :
    ∃ out, referenceScanner.Scan sampleLibrary (.ok [.bytes "n1", .bytes "u7"]) sampleRecord
        = .ok out
      ∧ out.err = none ∧ ("author", Value.reference "user" "u7") ∈ out.calls :=
  ⟨_, rfl, rfl,
    (reference_asset_roundtrip sampleLibrary referenceScanner [.bytes "n1", .bytes "u7"]
      sampleRecord _ "user" "u7" 1 "author" rfl rfl rfl rfl ⟨_, rfl, rfl, rfl⟩ rfl).2.1⟩

/-! ## Theorems: sorts -/

theorem sprintfChars_plain (fmt : Fmt) :
    ∀ cs : List Char, '%' ∉ cs → sprintfChars fmt cs = cs
| [], _ => rfl
| c :: rest, h => by
    simp only [List.mem_cons, not_or] at h
    have hc : c ≠ '%' := fun heq => h.1 heq.symm
    have ih := sprintfChars_plain fmt rest h.2
    unfold sprintfChars
    simp [hc, ih]

theorem QuoteIdentifier_percent_free (k : String) (h : '%' ∉ k.data) :
    '%' ∉ (QuoteIdentifier k).data := by
  simp only [QuoteIdentifier]
  intro hm
  simp only [List.mem_append, List.mem_singleton, List.mem_flatMap] at hm
  rcases hm with (hq | ⟨c, hc, hcm⟩) | hq
  · exact absurd hq (by decide)
  · have hc2 : c ∈ k.data := List.takeWhile_subset _ hc
    by_cases hd : c = dquote
    · simp only [hd, if_true, List.mem_cons, List.mem_singleton, List.mem_nil_iff, or_false,
        or_self] at hcm
      exact absurd hcm (by decide)
    · simp only [hd, if_false, List.mem_singleton] at hcm
      exact h (hcm ▸ hc2)
  · exact absurd hq (by decide)

/-- For a key path without `%`, `sortOrderBySQL` returns the quoted
identifier followed by the direction. -/
theorem sortOrderBySQL_percent_free (fmt : Fmt) (k : String) (f : Option Func)
    (hk : k ≠ "") (hp : '%' ∉ k.data) :
    sortOrderBySQL fmt ⟨k, f, .Asc⟩ = .ok (QuoteIdentifier k ++ " ASC")
      ∧ sortOrderBySQL fmt ⟨k, f, .Desc⟩ = .ok (QuoteIdentifier k ++ " DESC") := by
  have hq := QuoteIdentifier_percent_free k hp
  have h1 : '%' ∉ (QuoteIdentifier k ++ " " ++ "ASC").data := by
    simp only [String.data_append, List.mem_append, not_or]
    exact ⟨⟨hq, by decide⟩, by decide⟩
  have h2 : '%' ∉ (QuoteIdentifier k ++ " " ++ "DESC").data := by
    simp only [String.data_append, List.mem_append, not_or]
    exact ⟨⟨hq, by decide⟩, by decide⟩
  have e1 : QuoteIdentifier k ++ " " ++ "ASC" = QuoteIdentifier k ++ " ASC" := by
    apply String.ext
    simp [String.data_append]
  have e2 : QuoteIdentifier k ++ " " ++ "DESC" = QuoteIdentifier k ++ " DESC" := by
    apply String.ext
    simp [String.data_append]
  constructor
  · simp only [sortOrderBySQL, ne_eq, hk, not_false_eq_true, if_true, sortOrderOrderBySQL,
      Sprintf, sprintfChars_plain fmt _ h1]
    rw [← e1]
  · simp only [sortOrderBySQL, ne_eq, hk, not_false_eq_true, if_true, sortOrderOrderBySQL,
      Sprintf, sprintfChars_plain fmt _ h2]
    rw [← e2]

/-- C15 at a failing input: for the key path `a%d` and the order Asc,
`sortOrderBySQL` returns `"a%!d(MISSING)" ASC`, which is not the quoted
identifier `"a%d"` followed by ` ASC`. -/
theorem sortOrderBySQL_percent (fmt : Fmt) :
    sortOrderBySQL fmt ⟨"a%d", none, .Asc⟩ = .ok "\"a%!d(MISSING)\" ASC"
      ∧ QuoteIdentifier "a%d" ++ " ASC" = "\"a%d\" ASC"
      ∧ "\"a%!d(MISSING)\" ASC" ≠ "\"a%d\" ASC" :=
  ⟨rfl, rfl, by decide⟩

/-! ## Theorems: Query -/

/-- The `Where` parts of the statement `Query` builds: the partition filter,
then the predicate when there is one, then the access-control clause when
`ReadableBy` is not empty. -/
theorem Query_whereParts (db : database) (s : Store) (fmt : Fmt) (query : Query)
    (q : SelectBuilder) (h : db.Query s fmt query = .ok (.query q)) :
    q.WhereParts
      = [WherePart.expr "_database_id = ?" [.str db.userID]]
        ++ (match query.Predicate with
            | some p => [WherePart.sqlizer p]
            | none => [])
        ++ (if query.ReadableBy ≠ "" then [readableByClause query.ReadableBy] else []) := by
  unfold database.Query at h
  by_cases ht : query.Typ = ""
  · simp [ht] at h
  · simp only [ht, if_false] at h
    cases hR : remoteColumnTypes s query.Typ with
    | error e => simp [hR] at h
    | ok typemap =>
        simp only [hR] at h
        by_cases hlen : typemap.entries.length = 0
        · simp [hlen] at h
        · simp only [hlen, if_false] at h
          cases hw : queryTypemap typemap query.DesiredKeys with
          | error e => simp [hw] at h
          | ok typemap1 =>
              simp only [hw] at h
              cases hs : selectColumns
                  (computedKeysLoop query.ComputedKeys.entries typemap1).entries with
              | error msg => simp [database.selectQuery, hs] at h
              | ok cols =>
                  simp only [database.selectQuery, hs, Except.ok.injEq] at h
                  unfold queryClauses at h
                  cases hso : sortsLoop fmt query.Sorts with
                  | error e => simp [hso] at h
                  | ok orderBys =>
                      simp only [hso, QueryOutcome.query.injEq] at h
                      subst h
                      cases query.Predicate <;>
                        by_cases hr : query.ReadableBy = "" <;>
                        by_cases hl : query.Limit > 0 <;>
                        by_cases ho : query.Offset > 0 <;>
                        simp [hr, hl, ho]

/-- C16 at a failing input: for the principal `u?` the access-control clause
is added after the partition filter with `u?` as its one bound argument,
but its SQL text holds two `?` placeholders. -/
theorem Query_readableBy_question :
    ∃ q, sampleDb.Query provisionedStore sampleFmt questionMarkQuery = .ok (.query q)
      ∧ q.WhereParts
          = [.expr "_database_id = ?" [.str "u1"],
             .expr "(_access @> '[\x7b\"user_id\":\"u?\"\x7d]' OR _access IS NULL OR _owner_id = ?)"
               [.str "u?"]]
      ∧ placeholderCount
          "(_access @> '[\x7b\"user_id\":\"u?\"\x7d]' OR _access IS NULL OR _owner_id = ?)" = 2 :=
  ⟨_, rfl, rfl, by decide⟩

theorem computedKeysLoop_fold (v : FieldType) :
    ∀ (es : List (Sigma fun _ : String => Expression)) (tm : RecordSchema) (k : String),
      (es.foldl (fun tm kv => tm.insert ("_transient_" ++ kv.1) v) tm).lookup k
        = if k ∈ es.map (fun kv => "_transient_" ++ kv.1) then some v else tm.lookup k
| [], tm, k => by simp
| e :: es, tm, k => by
    simp only [List.foldl_cons, computedKeysLoop_fold v es, List.map_cons, List.mem_cons]
    by_cases h1 : k ∈ es.map (fun kv => "_transient_" ++ kv.1)
    · simp [h1]
    · by_cases h2 : k = "_transient_" ++ e.1
      · subst h2
        simp [h1]
      · simp [h1, h2, AList.lookup_insert_ne h2]

/-- Every computed key of a query gets the expression of the entry the loop
visits last. -/
theorem computedKeysLoop_lookup (entries : List (Sigma fun _ : String => Expression))
    (typemap : RecordSchema) (key : String) (h : key ∈ entries.map Sigma.fst) :
    (computedKeysLoop entries typemap).lookup ("_transient_" ++ key)
      = some ⟨.TypeNumber, "", entries.getLast?.map (fun last => last.2)⟩ := by
  unfold computedKeysLoop
  rw [computedKeysLoop_fold]
  have : "_transient_" ++ key ∈ entries.map (fun kv => "_transient_" ++ kv.1) := by
    obtain ⟨e, he, hk⟩ := List.mem_map.mp h
    exact List.mem_map.mpr ⟨e, he, by rw [hk]⟩
  simp [this]

/-- C20 at a failing input: the computed key `near` is the distance of the
field `home` and `far` the distance of the field `work`, whose own SQL is
`ST_Distance_Sphere("work", ...)`; the select list of `Query` has for both
keys the column of `home` with its arguments. -/
theorem Query_computedKeys_alias :
    ∃ q, sampleDb.Query provisionedStore sampleFmt computedKeysQuery = .ok (.query q)
      ∧ q.Columns.take 2
          = [("ST_Distance_Sphere(\"home\", ST_MakePoint(?, ?)) as _transient_near",
                [.number ⟨1⟩, .number ⟨2⟩]),
             ("ST_Distance_Sphere(\"home\", ST_MakePoint(?, ?)) as _transient_far",
                [.number ⟨1⟩, .number ⟨2⟩])]
      ∧ computedKeysQuery.ComputedKeys.lookup "far"
          = some ⟨.Function, .func (.DistanceFunc "work" ⟨3⟩ ⟨4⟩)⟩
      ∧ toSqlOperand ⟨.Function, .func (.DistanceFunc "work" ⟨3⟩ ⟨4⟩)⟩
          = .ok ("ST_Distance_Sphere(\"work\", ST_MakePoint(?, ?))",
              [.number ⟨3⟩, .number ⟨4⟩]) :=
  ⟨_, rfl, rfl, rfl, rfl⟩

/-! ## Theorems: Get -/

theorem Scan_readRow (lib : Library) (rs : recordScanner)
    (cursor : Except DriverError (List DriverValue)) (record : Record) (out : ScanOutcome)
    (h : rs.Scan lib cursor record = .ok out) (herr : out.err = none) :
    out.readRow = true ∧ ∃ row, cursor = .ok row := by
  obtain ⟨dests, row, values, _, hrow, _, _, _⟩ := Scan_success lib rs cursor record out h herr
  refine ⟨?_, row, hrow⟩
  unfold recordScanner.Scan at h
  cases he : rs.err with
  | some e =>
      simp only [he, Except.ok.injEq] at h
      subst h
      cases herr
  | none =>
      simp only [he] at h
      cases hd : destsLoop rs.typemap rs.columns with
      | error e =>
          simp only [hd, Except.ok.injEq] at h
          subst h
          cases herr
      | ok dests1 =>
          simp only [hd] at h
          cases hcs : columnsScan lib cursor dests1 with
          | error e =>
              simp only [hcs, Except.ok.injEq] at h
              subst h
              rfl
          | ok values1 =>
              simp only [hcs] at h
              split at h
              · cases h
              · simp only [Except.ok.injEq] at h
                subst h
                rfl

theorem Scan_noRows (lib : Library) (rs : recordScanner) (record : Record)
    (dests : List Dest) (he : rs.err = none) (hd : destsLoop rs.typemap rs.columns = .ok dests) :
    rs.Scan lib (.error .noRows) record
      = .ok ⟨some (.driver .noRows), record, { rs with err := some (.driver .noRows) }, true,
          []⟩ := by
  simp [recordScanner.Scan, he, hd, columnsScan]

/-- C19: `Get` returns a resolver error unchanged and `ErrRecordNotFound` for
an empty resolved schema, in both cases without executing a select
statement; otherwise it executes one select statement and scans its row:
a scan reporting no rows gives `ErrRecordNotFound`, any other scan error is
returned unchanged, and nil is returned exactly when the scan returned nil,
in which case the row was read from the cursor into the record. -/
theorem Get_outcomes (db : database) (s : Store) (lib : Library)
    (queryRowx : SelectBuilder → RowCursor) (id : RecordID) (record : Record) :
    (∀ e, remoteColumnTypes s id.Typ = .error e →
        db.Get s lib queryRowx id record = .ok ⟨some (.resolver e), record, []⟩)
      ∧ (∀ typemap, remoteColumnTypes s id.Typ = .ok typemap → typemap.entries.length = 0 →
          db.Get s lib queryRowx id record = .ok ⟨some .recordNotFound, record, []⟩)
      ∧ ∀ typemap q so, remoteColumnTypes s id.Typ = .ok typemap →
          typemap.entries.length ≠ 0 → db.getQuery id typemap = .ok q →
          (newRecordScanner id.Typ typemap (queryRowx q)).Scan lib (queryRowx q).row record
            = .ok so →
          (so.err = some (.driver .noRows) →
              db.Get s lib queryRowx id record = .ok ⟨some .recordNotFound, so.record, [q]⟩)
            ∧ (∀ columns dests, (queryRowx q).columns = .ok columns →
                destsLoop typemap columns = .ok dests → (queryRowx q).row = .error .noRows →
                db.Get s lib queryRowx id record = .ok ⟨some .recordNotFound, record, [q]⟩)
            ∧ (∀ e, so.err = some e → e ≠ .driver .noRows →
                db.Get s lib queryRowx id record = .ok ⟨some (.scan e), so.record, [q]⟩)
            ∧ (so.err = none →
                db.Get s lib queryRowx id record = .ok ⟨none, so.record, [q]⟩
                  ∧ so.readRow = true ∧ ∃ row, (queryRowx q).row = .ok row)
            ∧ ∀ out, db.Get s lib queryRowx id record = .ok out → out.err = none →
                so.err = none := by
  refine ⟨fun e he => by simp [database.Get, he],
    fun typemap ht hlen => by simp [database.Get, ht, hlen],
    fun typemap q so ht hlen hq hso => ?_⟩
  have hG : db.Get s lib queryRowx id record
      = match so.err with
        | some (.driver .noRows) => .ok ⟨some .recordNotFound, so.record, [q]⟩
        | some e => .ok ⟨some (.scan e), so.record, [q]⟩
        | none => .ok ⟨none, so.record, [q]⟩ := by
    simp only [database.Get, ht, hlen, if_false, hq, hso]
  refine ⟨fun h1 => by rw [hG, h1], fun columns dests hc hd hr => ?_, fun e h1 h2 => ?_,
    fun h1 => ⟨by rw [hG, h1], Scan_readRow lib _ _ record so hso h1⟩, fun out ho herr => ?_⟩
  · have hrs : newRecordScanner id.Typ typemap (queryRowx q)
        = ⟨id.Typ, typemap, columns, none⟩ := by
      simp [newRecordScanner, hc]
    rw [hrs, hr, Scan_noRows lib ⟨id.Typ, typemap, columns, none⟩ record dests rfl hd] at hso
    simp only [Except.ok.injEq] at hso
    subst hso
    rw [hG]
  · rw [hG, h1]
    cases e with
    | driver err =>
        cases err with
        | noRows => exact absurd rfl h2
        | undefinedTable => rfl
        | other msg => rfl
    | unknownColumn c => rfl
    | unknownDataType t c => rfl
    | destinationCount a b => rfl
    | scanColumn i => rfl
  · rw [hG] at ho
    cases hse : so.err with
    | none => rfl
    | some e =>
        rw [hse] at ho
        split at ho <;>
          first
            | assumption
            | (simp only [Except.ok.injEq] at ho; subst ho; cases herr)

/-- Instances of C19: a type without table gives `ErrRecordNotFound` and no
select statement; an empty result gives `ErrRecordNotFound` after one
select statement; a row gives nil after one select statement. -/
theorem Get_example :
    sampleDb.Get idOnlyStore sampleLibrary (fun _ => sampleCursor) ⟨"nosuch", "u7"⟩ sampleRecord
        = .ok ⟨some .recordNotFound, sampleRecord, []⟩
      ∧ (∃ out, sampleDb.Get idOnlyStore sampleLibrary (fun _ => emptyCursor) ⟨"user", "u7"⟩
            sampleRecord = .ok out
          ∧ out.err = some .recordNotFound ∧ out.executed.length = 1)
      ∧ ∃ out, sampleDb.Get idOnlyStore sampleLibrary (fun _ => sampleCursor) ⟨"user", "u7"⟩
            sampleRecord = .ok out
          ∧ out.err = none ∧ out.executed.length = 1 ∧ out.record.ID = ⟨"user", "u7"⟩ :=
  ⟨rfl, ⟨_, rfl, rfl, rfl⟩, ⟨_, rfl, rfl, rfl, rfl⟩⟩

/-! ## Theorems: the schema resolver -/

theorem columnTypesLoop_error (column pqType : String)
    (hn : nativeFieldType column pqType = none) (post : List (String × String)) :
    ∀ (pre : List (String × String)) (tm : RecordSchema),
      (∀ row ∈ pre, nativeFieldType row.1 row.2 ≠ none) →
        columnTypesLoop (pre ++ (column, pqType) :: post) tm
          = .error (.unknownDataType pqType column)
| [], tm, _ => by simp [columnTypesLoop, hn]
| (c, ty) :: pre, tm, h => by
    cases hc : nativeFieldType c ty with
    | none => exact absurd hc (h (c, ty) (List.mem_cons_self _ _))
    | some ft =>
        simp only [List.cons_append, columnTypesLoop, hc]
        exact columnTypesLoop_error column pqType hn post pre _
          (fun row hr => h row (List.mem_cons_of_mem _ hr))

theorem nativeFieldType_unknown (column pqType : String) (h : pqType ∉ nativeTypes) :
    nativeFieldType column pqType = none := by
  simp only [nativeTypes, List.mem_cons, List.mem_singleton, not_or, List.mem_nil_iff,
    or_false] at h
  obtain ⟨h1, h2, h3, h4, h5, h6⟩ := h
  simp [nativeFieldType, h1, h2, h3, h4, h5, h6]

/-- C21: schema resolution is a function of the column rows and the
foreign-key rows of the relation, and it succeeds exactly when every column
row has a known native type. In the resolved schema a column with a
foreign-key row has the type Asset when the referenced table (of its last
row, the only one when local columns are distinct) is `_asset`, and
otherwise the type Reference with that table as `ReferenceType`, whatever
its native type; a column without foreign-key row has the type the
native-type switch gives its native type. -/
theorem resolveTable_foreignKeys (t : Table) :
    ((∃ R, resolveTable t = .ok R) ↔ ∀ row ∈ t.columns, nativeFieldType row.1 row.2 ≠ none)
      ∧ ∀ R, resolveTable t = .ok R →
          (∀ k referencedTable, lastRow k t.foreignKeys = some referencedTable →
              R.lookup k
                = some (if referencedTable = "_asset" then ⟨.TypeAsset, "", none⟩
                    else ⟨.TypeReference, referencedTable, none⟩))
            ∧ (∀ k referencedTable, (t.foreignKeys.map Prod.fst).Nodup →
                (k, referencedTable) ∈ t.foreignKeys →
                R.lookup k
                  = some (if referencedTable = "_asset" then ⟨.TypeAsset, "", none⟩
                      else ⟨.TypeReference, referencedTable, none⟩))
            ∧ (∀ k, k ∉ t.foreignKeys.map Prod.fst →
                R.lookup k
                  = match lastRow k t.columns with
                    | some pqType => nativeFieldType k pqType
                    | none => none)
            ∧ ∀ k pqType, k ∉ t.foreignKeys.map Prod.fst → (t.columns.map Prod.fst).Nodup →
                (k, pqType) ∈ t.columns → R.lookup k = nativeFieldType k pqType := by
  refine ⟨⟨fun ⟨R, h⟩ => resolveTable_rows t R h, resolveTable_ok t⟩, fun R h => ?_⟩
  have hl := resolveTable_lookup t R h
  have hfk : ∀ k referencedTable, lastRow k t.foreignKeys = some referencedTable →
      R.lookup k
        = some (if referencedTable = "_asset" then ⟨.TypeAsset, "", none⟩
            else ⟨.TypeReference, referencedTable, none⟩) := by
    intro k referencedTable hk
    rw [hl k, resolveLookup, hk]
    rfl
  have hcol : ∀ k, k ∉ t.foreignKeys.map Prod.fst →
      R.lookup k
        = match lastRow k t.columns with
          | some pqType => nativeFieldType k pqType
          | none => none := by
    intro k hk
    rw [hl k, resolveLookup, (lastRow_eq_none k t.foreignKeys).mpr hk]
  refine ⟨hfk, fun k referencedTable hnd hm => hfk k referencedTable
      (lastRow_of_nodup k referencedTable _ hnd hm), hcol, fun k pqType hk hnd hm => ?_⟩
  rw [hcol k hk, lastRow_of_nodup k pqType _ hnd hm]

/-- An instance of C21: the relation `sampleTable` resolves; its columns
`author`, `photo` and `team` are a reference to `user`, an asset and a
reference to `group`, and `score` keeps the type of its native type. -/
theorem resolveTable_foreignKeys_example :
    ∃ R, resolveTable sampleTable = .ok R
      ∧ R.lookup "author" = some ⟨.TypeReference, "user", none⟩
      ∧ R.lookup "photo" = some ⟨.TypeAsset, "", none⟩
      ∧ R.lookup "team" = some ⟨.TypeReference, "group", none⟩
      ∧ R.lookup "score" = some ⟨.TypeNumber, "", none⟩ :=
  ⟨_, rfl,
    (((resolveTable_foreignKeys sampleTable).2 _ rfl).1 "author" "user" rfl).trans rfl,
    (((resolveTable_foreignKeys sampleTable).2 _ rfl).1 "photo" "_asset" rfl).trans rfl,
    (((resolveTable_foreignKeys sampleTable).2 _ rfl).1 "team" "group" rfl).trans rfl,
    (((resolveTable_foreignKeys sampleTable).2 _ rfl).2.2.1 "score" (by decide)).trans rfl⟩

/-- C22: for each of the six data types with a native type of their own and
every column other than `_access`, the resolver maps the native type
`pqDataType` gives the data type back to it; it maps a `jsonb` column named
`_access` to ACL; and a column row whose native type is none of the six
known ones, met after rows of known types, makes the resolution of the
relation fail with the error naming that native type and that column. -/
theorem nativeFieldType_inverts (column : String) :
    (column ≠ "_access" → ∀ T ∈ baseTypes,
        ∃ pqType, pqDataType T = .ok pqType
          ∧ nativeFieldType column pqType = some ⟨T, "", none⟩)
      ∧ nativeFieldType "_access" "jsonb" = some ⟨.TypeACL, "", none⟩
      ∧ ∀ pqType, pqType ∉ nativeTypes →
          nativeFieldType column pqType = none
            ∧ ∀ (t : Table) pre post, t.columns = pre ++ (column, pqType) :: post →
                (∀ row ∈ pre, nativeFieldType row.1 row.2 ≠ none) →
                resolveTable t = .error (.unknownDataType pqType column)
                  ∧ ∀ (s : Store) recordType, s.lookup recordType = some t →
                      remoteColumnTypes s recordType
                        = .error (.unknownDataType pqType column) := by
  refine ⟨fun hc T hT => ?_, rfl, fun pqType hp => ?_⟩
  · simp only [baseTypes, List.mem_cons, List.mem_singleton, List.mem_nil_iff, or_false] at hT
    rcases hT with h | h | h | h | h | h <;> subst h
    · exact ⟨_, rfl, rfl⟩
    · exact ⟨_, rfl, rfl⟩
    · exact ⟨_, rfl, rfl⟩
    · exact ⟨_, rfl, rfl⟩
    · refine ⟨_, rfl, ?_⟩
      show nativeFieldType column "jsonb" = _
      rw [nativeFieldType_jsonb, if_neg hc]
    · exact ⟨_, rfl, rfl⟩
  · have hn := nativeFieldType_unknown column pqType hp
    refine ⟨hn, fun t pre post ht hpre => ?_⟩
    have hr : resolveTable t = .error (.unknownDataType pqType column) := by
      simp only [resolveTable, ht, columnTypesLoop_error column pqType hn post pre ∅ hpre]
    exact ⟨hr, fun s recordType hs => by simp only [remoteColumnTypes, hs, hr]⟩

/-- An instance of C22: the column `age` of native type `integer` makes the
resolution of `driftedTable` fail with the error naming `integer` and
`age`. -/
theorem nativeFieldType_inverts_example :
    resolveTable driftedTable = .error (.unknownDataType "integer" "age") :=
  ((((nativeFieldType_inverts "age").2.2 "integer" (by decide)).2 driftedTable
    [("_id", "text")] [("title", "text")] rfl
    (fun row hr => by
      simp only [List.mem_singleton] at hr
      subst hr
      exact fun h => Option.noConfusion h))).1

/-! ## Theorems: the text of the column-adding statement -/

theorem dropLast_flatMap_comma :
    ∀ (xs : List String) (x : String),
      ((x :: xs).flatMap (fun c => c.data ++ [','])).dropLast
        = x.data ++ xs.flatMap (fun y => ",".data ++ y.data)
| [], x => by simp
| y :: ys, x => by
    have ih := dropLast_flatMap_comma ys y
    have hne : (y :: ys).flatMap (fun c => c.data ++ [',']) ≠ [] := by simp
    rw [List.flatMap_cons, List.dropLast_append_of_ne_nil _ hne, ih]
    simp [List.flatMap_cons]

theorem pqDataType_ok {t : DataType} (h : t ∈ columnTypes) : ∃ pqType, pqDataType t = .ok pqType := by
  cases t <;> simp [columnTypes] at h <;> exact ⟨_, rfl⟩

theorem addColumnLoop_ok (db : database) :
    ∀ (es : List (Sigma fun _ : String => FieldType)) (buf : String),
      (∀ e ∈ es, e.2.Typ ∈ columnTypes) →
        db.addColumnLoop es buf
          = .ok (String.mk (buf.data
              ++ (schemaClauses db es).flatMap (fun c => c.data ++ [','])))
| [], buf, _ => by simp [database.addColumnLoop, schemaClauses]
| ⟨column, schema⟩ :: rest, buf, h => by
    have hrest : ∀ e ∈ rest, e.2.Typ ∈ columnTypes :=
      fun e he => h e (List.mem_cons_of_mem _ he)
    have hty : schema.Typ ∈ columnTypes := h ⟨column, schema⟩ (List.mem_cons_self _ _)
    obtain ⟨ty, rt, ex⟩ := schema
    cases ty <;> simp [columnTypes] at hty <;>
      simp [database.addColumnLoop, pqDataType, schemaClauses, fieldClauses,
        addColumnLoop_ok db rest _ hrest, database.writeForeignKeyConstraint, addClauseText,
        constraintClauseText, String.data_append, List.append_assoc]

theorem getLast?_append_some {a b : List Char} {x : Char} (h : b.getLast? = some x) :
    (a ++ b).getLast? = some x := by
  rw [List.getLast?_append, h]
  rfl

theorem flatMap_sep_getLast (sep : List Char) (P : Char → Prop) :
    ∀ (xs : List String) (acc : List Char),
      (∃ x, acc.getLast? = some x ∧ P x) →
      (∀ c ∈ xs, ∃ x, c.data.getLast? = some x ∧ P x) →
        ∃ x, (acc ++ xs.flatMap (fun y => sep ++ y.data)).getLast? = some x ∧ P x
| [], acc, hacc, _ => by simpa using hacc
| y :: ys, acc, _, h => by
    obtain ⟨x, hx, hp⟩ := h y (List.mem_cons_self _ _)
    have := flatMap_sep_getLast sep P ys (acc ++ (sep ++ y.data))
      ⟨x, getLast?_append_some (getLast?_append_some hx), hp⟩
      (fun c hc => h c (List.mem_cons_of_mem _ hc))
    simpa [List.flatMap_cons, List.append_assoc] using this

theorem mem_schemaClauses (db : database) (c : String) :
    ∀ es : List (Sigma fun _ : String => FieldType), c ∈ schemaClauses db es →
      ∃ column schema pqType, (⟨column, schema⟩ : Sigma fun _ : String => FieldType) ∈ es
        ∧ pqDataType schema.Typ = .ok pqType ∧ c ∈ fieldClauses db column pqType schema
| [], h => by simp [schemaClauses] at h
| ⟨column, schema⟩ :: rest, h => by
    simp only [schemaClauses, List.mem_append] at h
    rcases h with h | h
    · cases hp : pqDataType schema.Typ with
      | error msg => simp [hp] at h
      | ok pqType =>
          simp only [hp] at h
          exact ⟨column, schema, pqType, List.mem_cons_self _ _, hp, h⟩
    · obtain ⟨column1, schema1, pqType, hm, hp, hc⟩ := mem_schemaClauses db c rest h
      exact ⟨column1, schema1, pqType, List.mem_cons_of_mem _ hm, hp, hc⟩

theorem fieldClauses_shape (db : database) (column pqType : String) (schema : FieldType)
    (hp : pqDataType schema.Typ = .ok pqType) (c : String)
    (hc : c ∈ fieldClauses db column pqType schema) :
    "ADD ".data <+: c.data ∧ ∃ x, c.data.getLast? = some x ∧ x ≠ ',' := by
  have hadd : "ADD ".data <+: (addClauseText column pqType).data
      ∧ ∃ x, (addClauseText column pqType).data.getLast? = some x ∧ x ≠ ',' := by
    refine ⟨⟨_, by simp only [addClauseText, String.data_append, List.append_assoc]; rfl⟩, ?_⟩
    obtain ⟨ty, rt, ex⟩ := schema
    cases ty <;> simp only [pqDataType, Except.ok.injEq, reduceCtorEq] at hp <;> subst hp <;>
      exact ⟨_, by
        simp only [addClauseText, String.data_append]
        exact getLast?_append_some rfl, by decide⟩
  have hfk : ∀ referent remoteCol,
      "ADD ".data <+: (constraintClauseText db column referent remoteCol).data
        ∧ ∃ x, (constraintClauseText db column referent remoteCol).data.getLast? = some x
            ∧ x ≠ ',' := by
    intro referent remoteCol
    refine ⟨⟨_, by
      simp only [constraintClauseText, String.data_append, List.append_assoc]
      rfl⟩, ')', ?_, by decide⟩
    simp only [constraintClauseText, String.data_append]
    exact getLast?_append_some rfl
  simp only [fieldClauses, List.mem_cons] at hc
  rcases hc with hc | hc
  · subst hc
    exact hadd
  · split at hc
    · simp only [List.mem_singleton] at hc
      subst hc
      exact hfk _ _
    · simp only [List.mem_singleton] at hc
      subst hc
      exact hfk _ _
    · cases hc

theorem schemaClauses_length (db : database) :
    ∀ es : List (Sigma fun _ : String => FieldType), (∀ e ∈ es, e.2.Typ ∈ columnTypes) →
      (schemaClauses db es).length
        = es.length
          + es.countP (fun e => decide (e.2.Typ = .TypeReference ∨ e.2.Typ = .TypeAsset))
| [], _ => rfl
| ⟨column, schema⟩ :: rest, h => by
    have ih := schemaClauses_length db rest (fun e he => h e (List.mem_cons_of_mem _ he))
    have hty : schema.Typ ∈ columnTypes := h ⟨column, schema⟩ (List.mem_cons_self _ _)
    obtain ⟨ty, rt, ex⟩ := schema
    cases ty <;> simp [columnTypes] at hty <;>
      simp [schemaClauses, pqDataType, fieldClauses, ih, List.countP_cons] <;> omega

theorem schemaClauses_mem (db : database) (column : String) (schema : FieldType)
    (pqType : String) (hp : pqDataType schema.Typ = .ok pqType) :
    ∀ es : List (Sigma fun _ : String => FieldType),
      (⟨column, schema⟩ : Sigma fun _ : String => FieldType) ∈ es →
        ∀ c ∈ fieldClauses db column pqType schema, c ∈ schemaClauses db es
| [], h, _, _ => by cases h
| ⟨column1, schema1⟩ :: rest, h, c, hc => by
    simp only [schemaClauses, List.mem_append]
    rcases List.mem_cons.mp h with heq | hm
    · cases heq
      left
      simpa only [hp] using hc
    · exact Or.inr (schemaClauses_mem db column schema pqType hp rest hm c hc)

/-- C23: for a schema with at least one field whose field types all have a
native type, `addColumnStmt` returns `ALTER TABLE <table> ` followed by the
clauses of the schema joined by commas, and the statement does not end in a
comma. Every clause starts with `ADD `. Each field has its clause
`ADD <quoted column> <native type>`, a reference field also the foreign key
to `("_id")` of the table of its target type, an asset field also the
foreign key to the table `_asset`, and there are no further clauses: their
number is the number of fields plus the number of reference and asset
fields. -/
theorem addColumnStmt_text (db : database) (recordType : String) (S : RecordSchema)
    (hne : S.entries.length ≠ 0) (hs : ∀ e ∈ S.entries, e.2.Typ ∈ columnTypes) :
    db.addColumnStmt recordType S
        = .ok ("ALTER TABLE " ++ db.tableName recordType ++ " "
            ++ ",".intercalate (schemaClauses db S.entries))
      ∧ (∃ x, ("ALTER TABLE " ++ db.tableName recordType ++ " "
            ++ ",".intercalate (schemaClauses db S.entries)).data.getLast? = some x ∧ x ≠ ',')
      ∧ (∀ c ∈ schemaClauses db S.entries, "ADD ".data <+: c.data)
      ∧ (∀ column schema, (⟨column, schema⟩ : Sigma fun _ : String => FieldType) ∈ S.entries →
          ∃ pqType, pqDataType schema.Typ = .ok pqType
            ∧ addClauseText column pqType ∈ schemaClauses db S.entries
            ∧ (schema.Typ = .TypeReference →
                constraintClauseText db column schema.ReferenceType "_id"
                  ∈ schemaClauses db S.entries)
            ∧ (schema.Typ = .TypeAsset →
                constraintClauseText db column "_asset" "id" ∈ schemaClauses db S.entries))
      ∧ (schemaClauses db S.entries).length
          = S.entries.length
            + S.entries.countP
                (fun e => decide (e.2.Typ = .TypeReference ∨ e.2.Typ = .TypeAsset)) := by
  have hlen := schemaClauses_length db S.entries hs
  have hshape : ∀ c ∈ schemaClauses db S.entries,
      "ADD ".data <+: c.data ∧ ∃ x, c.data.getLast? = some x ∧ x ≠ ',' := by
    intro c hc
    obtain ⟨column, schema, pqType, _, hp, hf⟩ := mem_schemaClauses db c S.entries hc
    exact fieldClauses_shape db column pqType schema hp c hf
  cases hcl : schemaClauses db S.entries with
  | nil =>
      rw [hcl] at hlen
      simp only [List.length_nil] at hlen
      omega
  | cons x xs =>
      rw [hcl] at hshape
      have hdata : (",".intercalate (x :: xs)).data
          = x.data ++ xs.flatMap (fun y => ",".data ++ y.data) := by
        simp only [String.intercalate, intercalate_go_data]
      refine ⟨?_, ?_, fun c hc => (hshape c hc).1, fun column schema hm => ?_, ?_⟩
      · simp only [database.addColumnStmt, addColumnLoop_ok db S.entries _ hs, hcl, truncateLast,
          Except.ok.injEq]
        apply String.ext
        have hne2 : (x :: xs).flatMap (fun c => c.data ++ [',']) ≠ [] := by simp
        rw [List.dropLast_append_of_ne_nil _ hne2, dropLast_flatMap_comma]
        simp only [String.data_append, hdata]
      · obtain ⟨y, hy, hp⟩ := flatMap_sep_getLast ",".data (fun c => c ≠ ',') xs x.data
          (hshape x (List.mem_cons_self _ _)).2
          (fun c hc => (hshape c (List.mem_cons_of_mem _ hc)).2)
        refine ⟨y, ?_, hp⟩
        rw [String.data_append, hdata]
        exact getLast?_append_some hy
      · obtain ⟨pqType, hp⟩ := pqDataType_ok (hs ⟨column, schema⟩ hm)
        have hmem := schemaClauses_mem db column schema pqType hp S.entries hm
        rw [hcl] at hmem
        refine ⟨pqType, hp, hmem _ (List.mem_cons_self _ _), fun hr => ?_, fun ha => ?_⟩
        · exact hmem _ (by simp [fieldClauses, hr])
        · exact hmem _ (by simp [fieldClauses, ha])
      · rw [← hcl]
        exact hlen

set_option maxRecDepth 100000 in
/-- An instance of C23: the statement for the schema `noteSchema` of the
type `note`, which has a JSON field, an asset field, a reference field and a
string field. -/
theorem addColumnStmt_text_witness :
    sampleDb.addColumnStmt "note" noteSchema
      = .ok ("ALTER TABLE note ADD \"meta\" jsonb,ADD \"photo\" text,"
          ++ "ADD CONSTRAINT \"fk_photo__asset_id\" FOREIGN KEY (\"photo\") "
          ++ "REFERENCES _asset (\"id\"),ADD \"author\" text,"
          ++ "ADD CONSTRAINT \"fk_author_user__id\" FOREIGN KEY (\"author\") "
          ++ "REFERENCES user (\"_id\"),ADD \"title\" text") :=
  ((addColumnStmt_text sampleDb "note" noteSchema (by decide)
    (fun e he =>
      of_decide_eq_true (List.all_eq_true.mp
        (show noteSchema.entries.all (fun e => decide (e.2.Typ ∈ columnTypes)) = true from rfl)
        e he))).1).trans rfl

/-! ## Theorems: the write encoding of a record -/

theorem convertLoop_lookup (k : String) :
    ∀ (es : List (Sigma fun _ : String => Value)) (m : AList (fun _ : String => SqlValue)),
      (es.map Sigma.fst).Nodup →
        (es.foldl (fun m kv => m.insert kv.1 (convertValue kv.2)) m).lookup k
          = match List.dlookup k es with
            | some v => some (convertValue v)
            | none => m.lookup k
| [], m, _ => by simp
| ⟨a, b⟩ :: es, m, hnd => by
    have hnd2 : (es.map Sigma.fst).Nodup := (List.nodup_cons.mp hnd).2
    have ha : a ∉ es.map Sigma.fst := (List.nodup_cons.mp hnd).1
    rw [List.foldl_cons, convertLoop_lookup k es _ hnd2]
    by_cases hka : k = a
    · subst hka
      have hn : List.dlookup k es = none := List.dlookup_eq_none.mpr ha
      simp [hn, List.dlookup_cons_eq]
    · rw [List.dlookup_cons_ne es ⟨a, b⟩ hka, AList.lookup_insert_ne hka]

theorem convert_data_lookup (r : Record) (k : String) :
    (r.Data.entries.foldl (fun m kv => m.insert kv.1 (convertValue kv.2))
        (∅ : AList (fun _ : String => SqlValue))).lookup k
      = (r.Data.lookup k).map convertValue := by
  rw [convertLoop_lookup k r.Data.entries ∅ r.Data.nodupKeys]
  show _ = Option.map convertValue (List.dlookup k r.Data.entries)
  cases List.dlookup k r.Data.entries <;> simp

theorem convert_data_mem (r : Record) (k : String) :
    k ∈ r.Data.entries.foldl (fun m kv => m.insert kv.1 (convertValue kv.2))
        (∅ : AList (fun _ : String => SqlValue))
      ↔ k ∈ r.Data := by
  rw [← not_iff_not, ← AList.lookup_eq_none, ← AList.lookup_eq_none, convert_data_lookup]
  cases r.Data.lookup k <;> simp

/-- C24: the map `convert` returns has as keys the keys of `Data` and the
six system columns; each system column carries the attribute of the record,
also when `Data` has an entry under its name; every other key of `Data`
carries its value after the type switch, which wraps arrays, objects,
assets, references and locations and passes every other value through.
The record is an input only: `convert` returns nothing but the map. -/
theorem convert_spec (r : Record) :
    (∀ k, k ∈ convert r ↔ k ∈ r.Data ∨ k ∈ convertSystemKeys)
      ∧ (convert r).lookup "_owner_id" = some (.raw (.str r.OwnerID))
      ∧ (convert r).lookup "_access" = some (.aclValue r.ACL)
      ∧ (convert r).lookup "_created_at" = some (.raw (.time r.CreatedAt))
      ∧ (convert r).lookup "_created_by" = some (.raw (.str r.CreatorID))
      ∧ (convert r).lookup "_updated_at" = some (.raw (.time r.UpdatedAt))
      ∧ (convert r).lookup "_updated_by" = some (.raw (.str r.UpdaterID))
      ∧ (∀ k, k ∉ convertSystemKeys →
          (convert r).lookup k = (r.Data.lookup k).map convertValue)
      ∧ (∀ xs, convertValue (.array xs) = .jsonSliceValue xs)
      ∧ (∀ kvs, convertValue (.object kvs) = .jsonMapValue kvs)
      ∧ (∀ name, convertValue (.asset name) = .assetValue name)
      ∧ (∀ recordType key, convertValue (.reference recordType key)
          = .referenceValue recordType key)
      ∧ (∀ lng lat, convertValue (.location lng lat) = .locationValue lng lat)
      ∧ ∀ v, (∀ xs, v ≠ .array xs) → (∀ kvs, v ≠ .object kvs) → (∀ name, v ≠ .asset name) →
          (∀ recordType key, v ≠ .reference recordType key) →
          (∀ lng lat, v ≠ .location lng lat) → convertValue v = .raw v := by
  refine ⟨fun k => ?_, ?_, ?_, ?_, ?_, ?_, ?_, fun k hk => ?_, fun _ => rfl, fun _ => rfl,
    fun _ => rfl, fun _ _ => rfl, fun _ _ => rfl, fun v h1 h2 h3 h4 h5 => ?_⟩
  · simp only [convert, AList.mem_insert, convert_data_mem, convertSystemKeys, List.mem_cons,
      List.mem_singleton, List.mem_nil_iff, or_false]
    tauto
  · simp [convert, AList.lookup_insert_ne]
  · simp [convert, AList.lookup_insert_ne]
  · simp [convert, AList.lookup_insert_ne]
  · simp [convert, AList.lookup_insert_ne]
  · simp [convert, AList.lookup_insert_ne]
  · simp [convert]
  · simp only [convertSystemKeys, List.mem_cons, List.mem_singleton, List.mem_nil_iff, or_false,
      not_or] at hk
    obtain ⟨k1, k2, k3, k4, k5, k6⟩ := hk
    simp only [convert, AList.lookup_insert_ne k1, AList.lookup_insert_ne k2,
      AList.lookup_insert_ne k3, AList.lookup_insert_ne k4, AList.lookup_insert_ne k5,
      AList.lookup_insert_ne k6, convert_data_lookup]
  · cases v with
    | array xs => exact absurd rfl (h1 xs)
    | object kvs => exact absurd rfl (h2 kvs)
    | asset name => exact absurd rfl (h3 name)
    | reference recordType key => exact absurd rfl (h4 recordType key)
    | location lng lat => exact absurd rfl (h5 lng lat)
    | _ => rfl

/-- An instance of C24: a record whose data has an entry `_owner_id` is
written with its own owner in that column, and its array field wrapped. -/
theorem convert_example :
    (convert shadowingRecord).lookup "_owner_id" = some (.raw (.str "u1"))
      ∧ (convert shadowingRecord).lookup "tags" = some (.jsonSliceValue [.str "a"])
      ∧ shadowingRecord.Data.lookup "_owner_id" = some (.str "intruder") :=
  ⟨(convert_spec shadowingRecord).2.1,
    ((convert_spec shadowingRecord).2.2.2.2.2.2.2.1 "tags" (by decide)).trans rfl, rfl⟩

/-! ## Theorems: whitelisting twice -/

theorem whitelistedRecordSchema_lookup (S : RecordSchema) (W : List String) (R : RecordSchema)
    (h : whitelistedRecordSchema S W = .ok R) (k : String) :
    R.lookup k = if k ∈ W ∨ HasPrefix k "_" = true then S.lookup k else none := by
  unfold whitelistedRecordSchema at h
  cases h1 : whitelistKeysLoop S W ∅ with
  | error e => simp [h1] at h
  | ok wl =>
      simp only [h1, Except.ok.injEq] at h
      subst h
      obtain ⟨_, hwl⟩ := whitelistKeysLoop_ok S W ∅ wl h1
      rw [reservedKeysLoop_lookup S.entries wl S.nodupKeys k, hwl k]
      have hS : S.lookup k = List.dlookup k S.entries := rfl
      by_cases hp : HasPrefix k "_" = true
      · by_cases hm : k ∈ S.entries.map Sigma.fst
        · simp [hp, hm, hS]
        · have hn : List.dlookup k S.entries = none := List.dlookup_eq_none.mpr hm
          simp [hp, hm, hS, hn]
      · by_cases hw : k ∈ W
        · simp [hp, hw]
        · simp [hp, hw]

theorem whitelistedRecordSchema_ok (S : RecordSchema) (W : List String)
    (h : ∀ k ∈ W, S.lookup k ≠ none) : ∃ R, whitelistedRecordSchema S W = .ok R := by
  unfold whitelistedRecordSchema
  cases h1 : whitelistKeysLoop S W ∅ with
  | error e =>
      obtain ⟨k, hk, hn, _⟩ := whitelistKeysLoop_error S W ∅ e h1
      exact absurd hn (h k hk)
  | ok wl => exact ⟨_, rfl⟩

theorem whitelistedRecordSchema_keys (S : RecordSchema) (W : List String) (R : RecordSchema)
    (h : whitelistedRecordSchema S W = .ok R) : ∀ k ∈ W, S.lookup k ≠ none := by
  unfold whitelistedRecordSchema at h
  cases h1 : whitelistKeysLoop S W ∅ with
  | error e => simp [h1] at h
  | ok wl => exact (whitelistKeysLoop_ok S W ∅ wl h1).1

/-- C25: when `whitelistedRecordSchema S W` succeeds with the schema `R`,
every field of `R` is a field of `S` with the same field type, and
whitelisting `R` with the same keys succeeds and returns a schema with the
same fields as `R`: equal at every key, its entries a permutation of those
of `R`. The schema `S` is an input only. -/
theorem whitelistedRecordSchema_idempotent (S : RecordSchema) (W : List String)
    (R : RecordSchema) (h : whitelistedRecordSchema S W = .ok R) :
    (∀ k fieldType, R.lookup k = some fieldType → S.lookup k = some fieldType)
      ∧ ∃ R2, whitelistedRecordSchema R W = .ok R2
          ∧ (∀ k, R2.lookup k = R.lookup k)
          ∧ R2.entries.Perm R.entries := by
  have hR := whitelistedRecordSchema_lookup S W R h
  refine ⟨fun k fieldType hk => ?_, ?_⟩
  · rw [hR k] at hk
    split at hk
    · exact hk
    · cases hk
  · have hW : ∀ k ∈ W, R.lookup k ≠ none := by
      intro k hk
      rw [hR k, if_pos (Or.inl hk)]
      exact whitelistedRecordSchema_keys S W R h k hk
    obtain ⟨R2, h2⟩ := whitelistedRecordSchema_ok R W hW
    have hR2 : ∀ k, R2.lookup k = R.lookup k := by
      intro k
      rw [whitelistedRecordSchema_lookup R W R2 h2 k]
      split
      · rfl
      · rename_i hc
        rw [hR k, if_neg hc]
    refine ⟨R2, h2, hR2, List.lookup_ext R2.nodupKeys R.nodupKeys (fun x y => ?_)⟩
    have := hR2 x
    simp only [AList.lookup] at this
    rw [this]

/-- An instance of C25 on the schema of `sampleScanner`: whitelisting `title`
gives the fields `_id` and `title`, and whitelisting the result again gives
the same two fields. -/
theorem whitelistedRecordSchema_idempotent_witness :
    ∃ R, whitelistedRecordSchema sampleScanner.typemap ["title"] = .ok R
      ∧ R.keys = ["_id", "title"]
      ∧ ∃ R2, whitelistedRecordSchema R ["title"] = .ok R2
          ∧ (∀ k, R2.lookup k = R.lookup k)
          ∧ R2.entries.Perm R.entries :=
  ⟨_, rfl, rfl,
    (whitelistedRecordSchema_idempotent sampleScanner.typemap ["title"] _ rfl).2⟩

/-! ## Theorems: the cloud asset store -/

theorem refreshSignerToken_frame (responses : List (Option refreshSignerTokenResponse)) :
    ∀ store : CloudStore,
      (responses.foldl CloudStore.refreshSignerToken store).urlPrefix = store.urlPrefix
        ∧ (responses.foldl CloudStore.refreshSignerToken store).appName = store.appName
        ∧ (responses.foldl CloudStore.refreshSignerToken store).public = store.public := by
  induction responses with
  | nil => intro store; exact ⟨rfl, rfl, rfl⟩
  | cons r rs ih =>
      intro store
      rw [List.foldl_cons]
      obtain ⟨h1, h2, h3⟩ := ih (store.refreshSignerToken r)
      rw [h1, h2, h3]
      cases r <;> exact ⟨rfl, rfl, rfl⟩

/-- C26: `NewCloudStore` returns an error exactly when the app name, the
host or the auth token is empty, or the store is public and the public URL
prefix is empty, or it is private and the private URL prefix is empty. For
a store it returns, the selected prefix (the public one for a public store,
else the private one) is not empty and, after any number of token
refreshes, `SignedURL name` is that prefix, `/`, the app name, `/` and the
name, with a nil error, and `IsSignatureRequired` is the negation of
`public`. -/
theorem NewCloudStore_spec (appName host authToken publicURLPrefix privateURLPrefix : String)
    (public : Bool) :
    ((∃ e, NewCloudStore appName host authToken publicURLPrefix privateURLPrefix public
          = .error e)
        ↔ appName = "" ∨ host = "" ∨ authToken = "" ∨ (public = true ∧ publicURLPrefix = "")
            ∨ (public = false ∧ privateURLPrefix = ""))
      ∧ ∀ store, NewCloudStore appName host authToken publicURLPrefix privateURLPrefix public
            = .ok store →
          (if public then publicURLPrefix else privateURLPrefix) ≠ ""
            ∧ ∀ responses : List (Option refreshSignerTokenResponse),
                (∀ name,
                    (responses.foldl CloudStore.refreshSignerToken store).SignedURL name
                      = ((if public then publicURLPrefix else privateURLPrefix)
                          ++ "/" ++ appName ++ "/" ++ name, none))
                  ∧ (responses.foldl CloudStore.refreshSignerToken store).IsSignatureRequired
                      = !public := by
  unfold NewCloudStore
  by_cases h1 : appName = ""
  · simp [h1]
  by_cases h2 : host = ""
  · simp [h1, h2]
  by_cases h3 : authToken = ""
  · simp [h1, h2, h3]
  by_cases h4 : public = true ∧ publicURLPrefix = ""
  · simp [h1, h2, h3, h4]
  by_cases h5 : public = false ∧ privateURLPrefix = ""
  · simp [h1, h2, h3, h4, h5]
  simp only [h1, h2, h3, h4, h5, if_false, reduceCtorEq, exists_false, or_self, false_or,
    false_iff, not_false_eq_true, true_and, Except.ok.injEq]
  intro store hs
  subst hs
  refine ⟨?_, fun responses => ?_⟩
  · cases public
    · simpa using h5
    · simpa using h4
  · obtain ⟨f1, f2, f3⟩ := refreshSignerToken_frame responses
      ⟨appName, host, authToken, if public = true then publicURLPrefix else privateURLPrefix,
        public, "", "", Time.zero⟩
    refine ⟨fun name => ?_, ?_⟩
    · simp only [CloudStore.SignedURL, f1, f2, Join, String.append_assoc]
    · simp only [CloudStore.IsSignatureRequired, f3]

/-- Instances of C26: a private store signs with the private prefix and
requires signatures; a public store without public prefix is refused. -/
theorem NewCloudStore_example :
    (∃ store, NewCloudStore "app" "http://h" "tok" "" "http://private" false = .ok store
        ∧ store.SignedURL "a.png" = ("http://private/app/a.png", none)
        ∧ store.IsSignatureRequired = true)
      ∧ NewCloudStore "app" "http://h" "tok" "" "http://private" true
          = .error .missingPublicURLPrefix :=
  ⟨⟨_, rfl,
      (((NewCloudStore_spec "app" "http://h" "tok" "" "http://private" false).2 _ rfl).2
        []).1 "a.png",
      (((NewCloudStore_spec "app" "http://h" "tok" "" "http://private" false).2 _ rfl).2
        []).2⟩,
    rfl⟩

end Skygear
